import Mathlib

/-!
# rag-app: adaptive retrieval orchestration

A shallow embedding of `agentic_rag.go` and `refrag_service.go`, of the preference
ordering of `g4/multimodal_repository.go` and of the result loops of
`integrations/rerank`.

Conventions of the embedding
* A Go `string` is a Lean `String` (valid UTF-8 text); `len(s)` is `s.utf8ByteSize`.
* Go `int` / `int64` values are `Int`; no arithmetic in the embedded code can leave
  the 64-bit range for inputs that fit in memory.
* `float32` / `float64` values are rationals: only their order and the sums of the
  scoring heuristic are used.
* A slice of pointers `[]*T` is a `List T`: every list handled by the embedded code
  holds non-nil, pairwise distinct pointers (each element is allocated once by the
  storage layer or by `compressChunks`).
* A Go call that returns `(value, error)` is an `Except String value`, the string
  being `err.Error()`; a call that may panic returns a `GoResult`.
* The standard library and the runtime enter as the parameter `GoStd`: the theorems
  on sorted candidates assume of `sort.Slice` its contract `SortSliceSpec` only, and
  `make` grants a capacity up to the limit `maxCap`. The code of `sort.Slice` is
  embedded as `goSortSlice`, for the examples that depend on the order of equal scores.
-/

namespace RagApp

/-! ## Data model -/

/-- The fragment type `DocumentChunk` of package `main`, with the fields the
orchestration code and its tests read. -/
structure DocumentChunk where
  ID : Int
  Content : String
  Embedding : List ℚ
  Metadata : String
  DocType : String
  Language : String
  deriving DecidableEq, Repr

/-- Outcome of a Go call: a value, a returned `error` (by its message), or a run-time panic. -/
inductive GoResult (α : Type) where
  | ok (val : α)
  | error (msg : String)
  | panic (msg : String)
  deriving DecidableEq, Repr

/-- A `(value, error)` pair returned by a collaborator, seen as a call outcome. -/
def GoResult.ofExcept {α : Type} : Except String α → GoResult α
  | .ok a => .ok a
  | .error e => .error e

/-! ## `AgenticRAGService.dedup` (agentic_rag.go, lines 83-101) -/

/-- Loop state of `dedup`: the keys of `seen` that map to `true`, and `unique`. -/
abbrev DedupState := List Int × List DocumentChunk

/-- One iteration of `for _, chunk := range chunks` in `dedup`. -/
def dedupStep (st : DedupState) (chunk : DocumentChunk) : DedupState :=
  if !(st.1.contains chunk.ID) then (chunk.ID :: st.1, st.2 ++ [chunk]) else st

/-- `AgenticRAGService.dedup`. -/
def dedup (chunks : List DocumentChunk) : List DocumentChunk :=
  if chunks.length = 0 then chunks
  else (chunks.foldl dedupStep ([], [])).2

/-! ## `AgenticRAGService.rerank` (agentic_rag.go, lines 103-116) -/

/-- The slice expression `xs[:n]` for `n` not above `len(xs)`: it panics when `n` is
negative (`none`), and otherwise gives the first `n` elements. -/
def sliceTo {α : Type} (xs : List α) (n : Int) : Option (List α) :=
  if 0 ≤ n then some (xs.take n.toNat) else none

/-- `AgenticRAGService.rerank`; the context and the question are not read.
`none` is the panic of the slice expression. -/
def rerank (_question : String) (chunks : List DocumentChunk) (topK : Int) :
    Option (List DocumentChunk) :=
  if (chunks.length : Int) ≤ topK then some chunks
  else sliceTo chunks topK

/-! ## Plans, requests and responses -/

/-- `QueryPlan` (agentic_rag.go, lines 237-244). -/
structure QueryPlan where
  IsSimple : Bool
  QuestionType : String
  SubQueries : List String
  Keywords : List String
  Reasoning : String
  deriving DecidableEq, Repr

/-- `RAGQueryRequest`, with the fields read by the facade; `TopK` is a `*int`. -/
structure RAGQueryRequest where
  Question : String
  DocType : String
  Language : String
  TopK : Option Int
  deriving DecidableEq, Repr

/-- A value stored in a `map[string]interface{}` of response metadata. -/
inductive MetaValue where
  | str (s : String)
  | bool (b : Bool)
  | int (n : Int)
  | strs (l : List String)
  deriving DecidableEq, Repr

/-- `RAGQueryResponse`; the metadata map is listed by key. -/
structure RAGQueryResponse where
  Answer : String
  Sources : List DocumentChunk
  Metadata : List (String × MetaValue)
  deriving DecidableEq, Repr

/-- `ExecutionResults` (agentic_rag.go, lines 306-310). -/
structure ExecutionResults where
  AllChunks : List DocumentChunk
  Rounds : Int
  deriving DecidableEq, Repr

/-- The base service `RAGService` as the facade uses it: its generation, embedding and
storage collaborators and its own single-round `Query`. Every call acts on the state `σ`
of the outside world, so a call may answer differently each time it is made. -/
structure RAGService (σ : Type) where
  llmGenerate : String → σ → Except String String × σ
  embedderEmbed : String → σ → Except String (List ℚ) × σ
  repoVectorSearch : List ℚ → String → String → Int → σ →
    Except String (List DocumentChunk) × σ
  Query : RAGQueryRequest → σ → Except String RAGQueryResponse × σ

/-! ## `extractJSON` (agentic_rag.go, lines 314-324) -/

/-- `unicode.IsSpace`: the ASCII white space, U+0085, U+00A0 and the space separators
U+1680, U+2000..U+200A, U+2028, U+2029, U+202F, U+205F, U+3000. -/
def isSpace (c : Char) : Bool :=
  c = '\t' || c = '\n' || c = '\x0b' || c = '\x0c' || c = '\r' || c = ' ' ||
  c.toNat = 0x85 || c.toNat = 0xa0 || c.toNat = 0x1680 ||
  (0x2000 ≤ c.toNat && c.toNat ≤ 0x200a) ||
  c.toNat = 0x2028 || c.toNat = 0x2029 || c.toNat = 0x202f || c.toNat = 0x205f ||
  c.toNat = 0x3000

/-- `strings.TrimSpace`. -/
def trimSpace (s : String) : String :=
  ⟨(s.data.dropWhile isSpace).rdropWhile isSpace⟩

/-- `strings.TrimPrefix`. -/
def trimPrefix (s pre : String) : String :=
  if pre.data.isPrefixOf s.data then ⟨s.data.drop pre.data.length⟩ else s

/-- `strings.TrimSuffix`. -/
def trimSuffix (s suf : String) : String :=
  if suf.data.isSuffixOf s.data then ⟨s.data.take (s.data.length - suf.data.length)⟩ else s

/-- `extractJSON`. -/
def extractJSON (text : String) : String :=
  let text := trimSpace text
  let text := trimPrefix text "```json"
  let text := trimPrefix text "```"
  let text := trimSuffix text "```"
  let text := trimSpace text
  text

/-! ## `QueryPlanner` (agentic_rag.go, lines 162-235) -/

/-- `QueryPlanner.buildPlanningPrompt`. -/
def buildPlanningPrompt (question : String) : String :=
  "你是一个查询规划专家，需要分析用户问题并生成检索计划。\n\n用户问题：" ++ question ++
  "\n\n请分析这个问题并输出 JSON 格式的规划：\n\n\x7b\n  \"is_simple\": false,\n" ++
  "  \"question_type\": \"comparison|factual|reasoning|multi_aspect\",\n" ++
  "  \"sub_queries\": [\n    \"子问题1\",\n    \"子问题2\"\n  ],\n" ++
  "  \"keywords\": [\"关键词1\", \"关键词2\"],\n  \"reasoning\": \"为什么要这样拆解\"\n\x7d\n\n" ++
  "规则：\n1. is_simple: 如果问题可以直接回答（如\"什么是X\"），设为 true\n" ++
  "2. question_type: \n   - factual: 事实性问题（\"什么是\"、\"谁发明了\"）\n" ++
  "   - comparison: 比较性问题（\"X和Y的区别\"）\n   - reasoning: 推理性问题（\"为什么\"、\"如何\"）\n" ++
  "   - multi_aspect: 多方面问题（\"详细介绍X\"）\n" ++
  "3. sub_queries: 如果是复杂问题，拆解为 2-4 个子问题\n" ++
  "4. keywords: 提取 2-5 个关键词用于辅助检索\n\n只返回 JSON，不要有其他文字。"

/-- The plan returned by `parsePlan` when decoding fails. -/
def fallbackPlan (question : String) : QueryPlan :=
  { IsSimple := true
    QuestionType := "factual"
    SubQueries := [question]
    Keywords := []
    Reasoning := "JSON parsing failed, fallback to simple mode" }

/-- `QueryPlanner.parsePlan`. The decoder `json.Unmarshal` into a `QueryPlan` belongs to
the standard library and is the parameter `unmarshal`. -/
def parsePlan (unmarshal : String → Except String QueryPlan) (question response : String) :
    Except String QueryPlan :=
  let jsonStr := extractJSON response
  match unmarshal jsonStr with
  | .error _ => .ok (fallbackPlan question)
  | .ok plan => .ok plan

/-- `QueryPlanner.Plan`. -/
def Plan {σ : Type} (svc : RAGService σ) (unmarshal : String → Except String QueryPlan)
    (question : String) (w : σ) : Except String QueryPlan × σ :=
  let prompt := buildPlanningPrompt question
  match svc.llmGenerate prompt w with
  | (.error err, w1) => (.error err, w1)
  | (.ok response, w1) => (parsePlan unmarshal question response, w1)

/-! ## `QueryExecutor` (agentic_rag.go, lines 246-304) -/

/-- The per-round width computed in `executeRound` (lines 288-294). -/
def roundTopK (req : RAGQueryRequest) : Int :=
  match req.TopK with
  | some k => if k > 0 then (if Int.tdiv k 2 < 3 then 3 else Int.tdiv k 2) else 3
  | none => 3

/-- `QueryExecutor.executeRound`. -/
def executeRound {σ : Type} (svc : RAGService σ) (query : String) (req : RAGQueryRequest)
    (w : σ) : Except String (List DocumentChunk) × σ :=
  match svc.embedderEmbed query w with
  | (.error err, w1) => (.error err, w1)
  | (.ok queryVector, w1) =>
    svc.repoVectorSearch queryVector req.DocType req.Language (roundTopK req) w1

/-- One iteration of the loop over `plan.SubQueries` in `Execute`. -/
def executeStep {σ : Type} (svc : RAGService σ) (req : RAGQueryRequest)
    (st : ExecutionResults × σ) (subQuery : String) : ExecutionResults × σ :=
  match executeRound svc subQuery req st.2 with
  | (.error _, w1) => (st.1, w1)
  | (.ok chunks, w1) =>
    ({ AllChunks := st.1.AllChunks ++ chunks, Rounds := st.1.Rounds + 1 }, w1)

/-- `QueryExecutor.Execute`. -/
def Execute {σ : Type} (svc : RAGService σ) (plan : QueryPlan) (req : RAGQueryRequest)
    (w : σ) : Except String ExecutionResults × σ :=
  let st := plan.SubQueries.foldl (executeStep svc req) ({ AllChunks := [], Rounds := 0 }, w)
  (.ok st.1, st.2)

/-! ## `AgenticRAGService` (agentic_rag.go, lines 10-160) -/

/-- `AgenticRAGService.getTopK`. -/
def getTopK (req : RAGQueryRequest) : Int :=
  match req.TopK with
  | some k => if k > 0 then k else 5
  | none => 5

/-- The loop over `plan.SubQueries` in `buildAgenticPrompt`; `i` is the loop index. -/
def writeSubQueries : Nat → List String → String → String
  | _, [], sb => sb
  | i, subQ :: rest, sb => writeSubQueries (i + 1) rest (sb ++ (toString (i + 1) ++ ". " ++ subQ ++ "\n"))

/-- The loop over `chunks` in `buildAgenticPrompt`; `i` is the loop index. -/
def writeDocuments : Nat → List DocumentChunk → String → String
  | _, [], sb => sb
  | i, chunk :: rest, sb =>
    writeDocuments (i + 1) rest
      (((sb ++ ("### [文档 " ++ toString (i + 1) ++ "]\n")) ++ chunk.Content) ++ "\n\n")

/-- `AgenticRAGService.buildAgenticPrompt`; `results` is not read. -/
def buildAgenticPrompt (question : String) (plan : QueryPlan) (_results : ExecutionResults)
    (chunks : List DocumentChunk) : String :=
  let sb := ""
  let sb := sb ++ "# 任务说明\n"
  let sb := sb ++ "你是一个专业的 RAG 助手，需要基于检索到的文档回答用户问题。\n\n"
  let sb :=
    if plan.SubQueries.length > 0 then
      let sb := sb ++ "## 问题分析\n"
      let sb := sb ++ ("原问题：" ++ question ++ "\n")
      let sb := sb ++ ("问题类型：" ++ plan.QuestionType ++ "\n")
      let sb := sb ++ "\n已将问题拆解为以下子问题：\n"
      let sb := writeSubQueries 0 plan.SubQueries sb
      sb ++ "\n"
    else sb
  let sb := sb ++ "## 检索到的相关文档\n\n"
  let sb := writeDocuments 0 chunks sb
  let sb := sb ++ "## 回答要求\n"
  let sb := sb ++ ("请基于上述文档回答原问题：" ++ question ++ "\n\n")
  let sb := sb ++ "要求：\n"
  let sb := sb ++ "1. 回答应该全面、准确、有逻辑\n"
  let sb := sb ++ "2. 如果子问题的答案相关，请综合组织\n"
  let sb := sb ++ "3. 如果文档中没有足够信息，请明确说明\n"
  let sb := sb ++ "4. 回答应该自然流畅，不要生硬地罗列信息\n"
  sb

namespace AgenticRAGService

/-- `AgenticRAGService.Query`. The service holds the base service, and a planner and an
executor built on it. -/
def Query {σ : Type} (baseRAG : RAGService σ) (unmarshal : String → Except String QueryPlan)
    (req : RAGQueryRequest) (w : σ) : GoResult RAGQueryResponse × σ :=
  match Plan baseRAG unmarshal req.Question w with
  | (.error err, w1) => (.error ("planning failed: " ++ err), w1)
  | (.ok plan, w1) =>
    if plan.IsSimple then
      let r := baseRAG.Query req w1
      (GoResult.ofExcept r.1, r.2)
    else
      match Execute baseRAG plan req w1 with
      | (.error err, w2) => (.error ("execution failed: " ++ err), w2)
      | (.ok results, w2) =>
        let uniqueChunks := dedup results.AllChunks
        match rerank req.Question uniqueChunks (getTopK req) with
        | none => (.panic "slice bounds out of range", w2)
        | some rerankedChunks =>
          let prompt := buildAgenticPrompt req.Question plan results rerankedChunks
          match baseRAG.llmGenerate prompt w2 with
          | (.error err, w3) => (.error ("generation failed: " ++ err), w3)
          | (.ok answer, w3) =>
            (.ok { Answer := answer
                   Sources := rerankedChunks
                   Metadata :=
                     [("mode", .str "agentic_rag_v3"),
                      ("is_simple", .bool plan.IsSimple),
                      ("question_type", .str plan.QuestionType),
                      ("sub_queries", .strs plan.SubQueries),
                      ("total_retrieved", .int uniqueChunks.length),
                      ("final_selected", .int rerankedChunks.length),
                      ("rounds", .int results.Rounds)] }, w3)

end AgenticRAGService

/-! ## Volume triage: `refrag_service.go` -/

/-- The bytes of a Go string. Slicing a string by byte offsets may cut a character, so
text that went through a slice expression is kept as bytes. -/
abbrev Bytes := List Nat

/-- UTF-8 encoding of one character. -/
def utf8Char (c : Char) : Bytes :=
  let v := c.toNat
  if v < 0x80 then [v]
  else if v < 0x800 then [0xc0 + v / 0x40, 0x80 + v % 0x40]
  else if v < 0x10000 then [0xe0 + v / 0x1000, 0x80 + v / 0x40 % 0x40, 0x80 + v % 0x40]
  else [0xf0 + v / 0x40000, 0x80 + v / 0x1000 % 0x40, 0x80 + v / 0x40 % 0x40, 0x80 + v % 0x40]

/-- The bytes of a string. -/
def utf8 (s : String) : Bytes := s.data.flatMap utf8Char

/-- `len(s)` for a string: its number of bytes. -/
def strLen (s : String) : Int := (utf8 s).length

/-- `CompressedChunk` (refrag_service.go, lines 45-53). -/
structure CompressedChunk where
  OriginalChunk : DocumentChunk
  CompressedVector : List ℚ
  Score : ℚ
  IsExpanded : Bool
  TokenCount : Int
  CompressedTokenCount : Int
  deriving DecidableEq, Repr

/-- `REFRAGQueryRequest` (refrag_service.go, lines 27-35). -/
structure REFRAGQueryRequest where
  Question : String
  DocType : String
  Language : String
  OverFetchK : Int
  ExpandK : Int
  CompressionRatio : Int
  deriving DecidableEq, Repr

/-- `REFRAGQueryResponse` (refrag_service.go, lines 37-43). -/
structure REFRAGQueryResponse where
  Answer : String
  ExpandedChunks : List CompressedChunk
  CompressedChunks : List CompressedChunk
  Metadata : List (String × MetaValue)
  deriving DecidableEq, Repr

/-- `REFRAGService`: the storage, embedding and generation collaborators, acting on the
state `σ` of the outside world. The prompt is handed over as bytes. -/
structure REFRAGService (σ : Type) where
  repoVectorSearch : List ℚ → String → String → Int → σ →
    Except String (List DocumentChunk) × σ
  embedderEmbed : String → σ → Except String (List ℚ) × σ
  llmGenerate : Bytes → σ → Except String String × σ

/-- What the triage code takes from the Go standard library and runtime: `unicode.ToLower`,
`sort.Slice`, the `fmt` verbs `%.2f` and `%.1f%%` (the latter applied to a quotient that
is absent when it is 0/0), and `maxCap`, the largest capacity for which `make` of a slice
of pointers returns. The runtime refuses a slice of more than `maxAlloc` bytes, so `maxCap`
is at most `maxAlloc / 8`, which is 2^45 on 64-bit Linux; it is less on a machine whose
memory gives out before. -/
structure GoStd where
  toLower : Char → Char
  sortSlice : (CompressedChunk → CompressedChunk → Bool) → List CompressedChunk →
    List CompressedChunk
  fmtFloat2 : ℚ → String
  fmtPercent1 : Option ℚ → String
  maxCap : Int

/-- `min` (refrag_service.go, lines 280-285). -/
def min (a b : Int) : Int := if a < b then a else b

/-- Loop body of `compressChunks` for a ratio other than zero. -/
def compressChunk (chunk : DocumentChunk) (ratio : Int) : CompressedChunk :=
  let tokenCount := Int.tdiv (strLen chunk.Content) 4
  let compressedTokenCount := Int.tdiv tokenCount ratio
  let compressedTokenCount := if compressedTokenCount < 1 then 1 else compressedTokenCount
  let compressedVector := chunk.Embedding.take (min 32 chunk.Embedding.length).toNat
  { OriginalChunk := chunk
    CompressedVector := compressedVector
    Score := 0
    IsExpanded := false
    TokenCount := tokenCount
    CompressedTokenCount := compressedTokenCount }

/-- `REFRAGService.compressChunks`; `queryVector` is not read. `none` is the panic of the
integer division `tokenCount / ratio` when `ratio` is zero. -/
def compressChunks : List DocumentChunk → List ℚ → Int → Option (List CompressedChunk)
  | [], _, _ => some []
  | chunk :: rest, queryVector, ratio =>
    if ratio = 0 then none
    else (compressChunks rest queryVector ratio).map (fun cs => compressChunk chunk ratio :: cs)

/-- `strings.ReplaceAll` for a pattern and a replacement of one character each. -/
def replaceAll (text : String) (old new : Char) : String :=
  ⟨text.data.map (fun c => if c = old then new else c)⟩

/-- Scan of `strings.Fields`: `cur` is the field being read, last character first. -/
def fieldsAux : List Char → List Char → List String
  | [], cur => if cur.isEmpty then [] else [⟨cur.reverse⟩]
  | c :: cs, cur =>
    if isSpace c then
      (if cur.isEmpty then fieldsAux cs [] else ⟨cur.reverse⟩ :: fieldsAux cs [])
    else fieldsAux cs (c :: cur)

/-- `strings.Fields`. -/
def fields (s : String) : List String := fieldsAux s.data []

/-- `extractKeywords`; the returned list holds the keys of the map `words`, each once. -/
def extractKeywords (std : GoStd) (text : String) : List String :=
  let text : String := ⟨text.data.map std.toLower⟩
  let text := replaceAll text ',' ' '
  let text := replaceAll text '.' ' '
  let text := replaceAll text '?' ' '
  let text := replaceAll text '!' ' '
  let text := replaceAll text '。' ' '
  let text := replaceAll text '，' ' '
  let text := replaceAll text '？' ' '
  let text := replaceAll text '！' ' '
  let parts := fields text
  parts.foldl (fun words part =>
    if strLen part > 1 then (if words.contains part then words else words ++ [part])
    else words) []

/-- `calculateKeywordMatch`, on the key lists of the two maps. -/
def calculateKeywordMatch (queryWords contentWords : List String) : ℚ :=
  if queryWords.length = 0 then 0
  else
    let matchCount : Int :=
      queryWords.foldl (fun n word => if contentWords.contains word then n + 1 else n) 0
    (matchCount : ℚ) / (queryWords.length : ℚ)

/-- Loop body of `scoreChunks`. -/
def scoreChunk (std : GoStd) (questionWords : List String) (chunk : CompressedChunk) :
    CompressedChunk :=
  let score : ℚ := 0
  let score := score + 0.5
  let contentWords := extractKeywords std chunk.OriginalChunk.Content
  let keywordMatch := calculateKeywordMatch questionWords contentWords
  let score := score + keywordMatch * 0.3
  let contentLen := strLen chunk.OriginalChunk.Content
  let score :=
    if contentLen ≥ 100 ∧ contentLen ≤ 500 then score + 0.1
    else if contentLen < 50 then score - 0.1
    else score
  let score := if chunk.OriginalChunk.Metadata ≠ "" then score + 0.1 else score
  { chunk with Score := score }

/-- `REFRAGService.scoreChunks`: the candidates with their scores assigned. -/
def scoreChunks (std : GoStd) (chunks : List CompressedChunk) (question : String) :
    List CompressedChunk :=
  let questionWords := extractKeywords std question
  chunks.map (scoreChunk std questionWords)

/-- Loop body of `selectAndExpand`, on the pair `(expanded, compressed)`. -/
def selectStep (expandK : Int) (st : List CompressedChunk × List CompressedChunk)
    (ic : Nat × CompressedChunk) : List CompressedChunk × List CompressedChunk :=
  if (ic.1 : Int) < expandK then (st.1 ++ [{ ic.2 with IsExpanded := true }], st.2)
  else (st.1, st.2 ++ [ic.2])

/-- Whether `make([]*CompressedChunk, 0, capacity)` stops the program instead of
returning: it does for a negative capacity and for a capacity beyond `std.maxCap`. `held`
is the length of a slice of such pointers that exists when `make` is called: the runtime
has granted that slice, so it grants a capacity of at most `held`. -/
def makeRefused (std : GoStd) (held : Nat) (capacity : Int) : Bool :=
  decide (capacity < 0) || (decide (std.maxCap < capacity) && decide ((held : Int) < capacity))

/-- `REFRAGService.selectAndExpand`. `none` is the stop of the program in
`make([]*CompressedChunk, 0, expandK)`: the panic `makeslice: cap out of range` for a
capacity that is negative or beyond `maxAlloc`, the fatal error `out of memory` for one
that the memory of the machine cannot hold. The slice that exists at that call is
`chunks`, which `sort.Slice` has sorted in place. -/
def selectAndExpand (std : GoStd) (chunks : List CompressedChunk) (expandK : Int) :
    Option (List CompressedChunk × List CompressedChunk) :=
  let sorted := std.sortSlice (fun a b => a.Score > b.Score) chunks
  if makeRefused std chunks.length expandK then none
  else some (sorted.enum.foldl (selectStep expandK) ([], []))

/-- The loop over `expanded` in `buildHybridPrompt`; `i` is the loop index. -/
def writeExpanded (std : GoStd) : Nat → List CompressedChunk → Bytes → Bytes
  | _, [], sb => sb
  | i, chunk :: rest, sb =>
    writeExpanded std (i + 1) rest
      (((sb ++ utf8 ("\n[文档 " ++ toString (i + 1) ++ "] (相关性: " ++
          std.fmtFloat2 chunk.Score ++ ")\n")) ++
        utf8 chunk.OriginalChunk.Content) ++ utf8 "\n")

/-- The excerpt `summary` of a compressed candidate (lines 260-263): the content, cut
after its 50th byte and followed by dots when it is longer than 50 bytes. -/
def summaryOf (content : String) : Bytes :=
  let summary := utf8 content
  if summary.length > 50 then summary.take 50 ++ utf8 "..." else summary

/-- The loop `for i := 0; i < maxCompressed; i++` in `buildHybridPrompt`, run over the
candidates `compressed[0]`, ..., `compressed[maxCompressed-1]`; `i` is the loop index. -/
def writeSummaries (std : GoStd) : Nat → List CompressedChunk → Bytes → Bytes
  | _, [], sb => sb
  | i, chunk :: rest, sb =>
    writeSummaries std (i + 1) rest
      (sb ++ (utf8 ("- [文档 " ++ toString (i + 1) ++ "] (相关性: " ++
          std.fmtFloat2 chunk.Score ++ ") ") ++
        summaryOf chunk.OriginalChunk.Content ++ utf8 "\n"))

/-- `REFRAGService.buildHybridPrompt`. -/
def buildHybridPrompt (std : GoStd) (question : String)
    (expanded compressed : List CompressedChunk) : Bytes :=
  let sb : Bytes := []
  let sb := sb ++ utf8 "请根据以下文档内容回答问题。\n\n"
  let sb :=
    if expanded.length > 0 then
      let sb := sb ++ utf8 "【核心文档】（完整内容）：\n"
      writeExpanded std 0 expanded sb
    else sb
  let sb :=
    if compressed.length > 0 then
      let sb := sb ++ utf8 ("\n【背景文档】（已压缩，共 " ++ toString compressed.length ++ " 个）：\n")
      let sb := sb ++ utf8 "以下文档与问题相关，但已压缩以节省 token。如需详细信息，请参考核心文档。\n"
      let maxCompressed := min 10 compressed.length
      let sb := writeSummaries std 0 (compressed.take maxCompressed.toNat) sb
      if (compressed.length : Int) > maxCompressed then
        sb ++ utf8 ("... 还有 " ++ toString ((compressed.length : Int) - maxCompressed) ++
          " 个相关文档已压缩\n")
      else sb
    else sb
  let sb := sb ++ utf8 ("\n问题：" ++ question ++ "\n\n")
  let sb := sb ++ utf8 "请基于上述文档内容进行回答。优先使用【核心文档】中的信息，【背景文档】提供补充上下文。"
  sb

namespace REFRAGService

/-- `REFRAGService.Query`. A stop of the program in the `make` of `selectAndExpand` is
reported as the panic `makeslice: cap out of range`. -/
def Query {σ : Type} (s : REFRAGService σ) (std : GoStd) (req : REFRAGQueryRequest) (w : σ) :
    GoResult REFRAGQueryResponse × σ :=
  match s.embedderEmbed req.Question w with
  | (.error err, w1) => (.error ("embedding failed: " ++ err), w1)
  | (.ok queryVector, w1) =>
    let overFetchK := if req.OverFetchK = 0 then 100 else req.OverFetchK
    let expandK := if req.ExpandK = 0 then 5 else req.ExpandK
    let compressionRatio := if req.CompressionRatio = 0 then 16 else req.CompressionRatio
    match s.repoVectorSearch queryVector req.DocType req.Language overFetchK w1 with
    | (.error err, w2) => (.error ("search failed: " ++ err), w2)
    | (.ok chunks, w2) =>
      if chunks.length = 0 then
        (.ok { Answer := "抱歉，没有找到相关文档。"
               ExpandedChunks := []
               CompressedChunks := []
               Metadata := [("chunks_found", .int 0), ("over_fetch_k", .int overFetchK)] }, w2)
      else
        match compressChunks chunks queryVector compressionRatio with
        | none => (.panic "integer divide by zero", w2)
        | some compressedChunks =>
          let scored := scoreChunks std compressedChunks req.Question
          match selectAndExpand std scored expandK with
          | none => (.panic "makeslice: cap out of range", w2)
          | some (expandedChunks, remainingCompressed) =>
            let prompt := buildHybridPrompt std req.Question expandedChunks remainingCompressed
            match s.llmGenerate prompt w2 with
            | (.error err, w3) => (.error ("llm generation failed: " ++ err), w3)
            | (.ok answer, w3) =>
              let totalTokens : Int := expandedChunks.foldl (fun t c => t + c.TokenCount) 0
              let compressedTokens : Int :=
                remainingCompressed.foldl (fun t c => t + c.CompressedTokenCount) 0
              let reduction : Option ℚ :=
                if totalTokens + compressedTokens = 0 then none
                else some ((compressedTokens : ℚ) / ((totalTokens + compressedTokens : Int) : ℚ) * 100)
              (.ok { Answer := answer
                     ExpandedChunks := expandedChunks
                     CompressedChunks := remainingCompressed
                     Metadata :=
                       [("chunks_found", .int chunks.length),
                        ("expanded_count", .int expandedChunks.length),
                        ("compressed_count", .int remainingCompressed.length),
                        ("over_fetch_k", .int overFetchK),
                        ("expand_k", .int expandK),
                        ("compression_ratio", .int compressionRatio),
                        ("total_tokens", .int totalTokens),
                        ("compressed_tokens", .int compressedTokens),
                        ("token_reduction", .str (std.fmtPercent1 reduction))] }, w3)

end REFRAGService

/-! ## Specification-side definitions -/

/-- The fragments of a list whose identifier is neither in `seen` nor carried by an
earlier fragment of the list. -/
def keepFirst : List Int → List DocumentChunk → List DocumentChunk
  | _, [] => []
  | seen, c :: cs =>
    if c.ID ∈ seen then keepFirst seen cs else c :: keepFirst (c.ID :: seen) cs

/-- The outcomes of the retrieval rounds for a list of sub-questions, each round run on
the world left by the round before it, whatever that round's outcome. -/
def roundOutcomes {σ : Type} (svc : RAGService σ) (req : RAGQueryRequest) :
    List String → σ → List (Except String (List DocumentChunk))
  | [], _ => []
  | q :: qs, w => (executeRound svc q req w).1 :: roundOutcomes svc req qs (executeRound svc q req w).2

/-- The world after one retrieval round per sub-question. -/
def afterRounds {σ : Type} (svc : RAGService σ) (req : RAGQueryRequest) : List String → σ → σ
  | [], w => w
  | q :: qs, w => afterRounds svc req qs (executeRound svc q req w).2

/-- The fragments of a successful round; nothing for a failed one. -/
def roundChunks : Except String (List DocumentChunk) → List DocumentChunk
  | .ok chunks => chunks
  | .error _ => []

/-- Whether a round failed. -/
def roundFailed : Except String (List DocumentChunk) → Bool
  | .ok _ => false
  | .error _ => true

/-- What `sort.Slice` promises for a comparison that is a strict weak ordering: the
result is a rearrangement of the input in which no element is less than an earlier one. -/
structure SortSliceSpec
    (sortSlice : (CompressedChunk → CompressedChunk → Bool) → List CompressedChunk →
      List CompressedChunk) : Prop where
  perm : ∀ less xs, (sortSlice less xs).Perm xs
  sorted : ∀ less xs, (∀ a, less a a = false) →
    (∀ a b c, less a b = true → less b c = true → less a c = true) →
    (∀ a b c, less a b = false → less b c = false → less a c = false) →
    (sortSlice less xs).Pairwise (fun a b => less b a = false)

/-! ## Test doubles -/

/-- A fragment with an identifier and a content only. -/
def fragment (id : Int) (content : String) : DocumentChunk :=
  { ID := id, Content := content, Embedding := [], Metadata := "", DocType := "", Language := "" }

/-- Call counters of the test doubles. -/
structure Calls where
  generate : Nat
  embed : Nat
  search : Nat
  base : Nat
  deriving DecidableEq, Repr

/-- A base service that counts its calls: generation answers `replies n` on its call
number `n`, embedding fails on the texts in `badTexts`, retrieval returns `found`. -/
def countingRAG (replies : Nat → Except String String) (badTexts : List String)
    (found : List DocumentChunk) : RAGService Calls :=
  { llmGenerate := fun _ w => (replies w.generate, { w with generate := w.generate + 1 })
    embedderEmbed := fun text w =>
      (if badTexts.contains text then .error "embedding unavailable" else .ok [],
       { w with embed := w.embed + 1 })
    repoVectorSearch := fun _ _ _ _ w => (.ok found, { w with search := w.search + 1 })
    Query := fun _ w =>
      (.ok { Answer := "base answer", Sources := [], Metadata := [] },
       { w with base := w.base + 1 }) }

/-- A stand-in decoder: it accepts two texts and rejects every other. -/
def toyUnmarshal (text : String) : Except String QueryPlan :=
  if text = "simple" then
    .ok { IsSimple := true, QuestionType := "factual", SubQueries := ["a", "b"],
          Keywords := [], Reasoning := "" }
  else if text = "complex" then
    .ok { IsSimple := false, QuestionType := "comparison", SubQueries := ["a", "b", "c"],
          Keywords := [], Reasoning := "" }
  else .error "invalid character"

/-- A triage service that counts its calls; retrieval returns `found`. -/
def countingREFRAG (found : List DocumentChunk) : REFRAGService Calls :=
  { repoVectorSearch := fun _ _ _ _ w => (.ok found, { w with search := w.search + 1 })
    embedderEmbed := fun _ w => (.ok [], { w with embed := w.embed + 1 })
    llmGenerate := fun _ w => (.ok "answer", { w with generate := w.generate + 1 }) }

/-- Stand-ins for the standard library: insertion sort, the identity for lower-casing,
fixed texts for the formatted numbers, and the capacity limit 2^45 of 64-bit Linux. -/
def toyStd : GoStd :=
  { toLower := fun c => c
    sortSlice := fun less xs => xs.insertionSort (fun a b => less b a = false)
    fmtFloat2 := fun _ => "0.00"
    fmtPercent1 := fun _ => "0.0%"
    maxCap := 35184372088832 }

/-- A candidate with a score only. -/
def candidate (score : ℚ) : CompressedChunk :=
  { OriginalChunk := fragment 0 "", CompressedVector := [], Score := score,
    IsExpanded := false, TokenCount := 0, CompressedTokenCount := 0 }

/-- The scored list of `TestREFRAGService_SelectAndExpand`. -/
def fiveCandidates : List CompressedChunk :=
  [candidate 0.9, candidate 0.8, candidate 0.7, candidate 0.6, candidate 0.5]

/-- The candidate as the loop of `selectAndExpand` stores it in `expanded`. -/
def markExpanded (c : CompressedChunk) : CompressedChunk := { c with IsExpanded := true }

/-- The comparison handed to `sort.Slice` by `selectAndExpand`. -/
def byScoreDesc (a b : CompressedChunk) : Bool := a.Score > b.Score

/-- A fragment of forty bytes with an embedding of three components. -/
def fortyBytes : DocumentChunk :=
  { ID := 5, Content := "0123456789012345678901234567890123456789", Embedding := [1, 2, 3],
    Metadata := "", DocType := "", Language := "" }

/-- The keyword-overlap ratio `|Q ∩ C| / |Q|` of two keyword sets, 0 when `Q` is empty. -/
def overlapRatio (Q C : Finset String) : ℚ :=
  if Q.card = 0 then 0 else ((Q ∩ C).card : ℚ) / (Q.card : ℚ)

/-- The length-shape contribution of a content length. -/
def shapeTerm (contentLen : Int) : ℚ :=
  if 100 ≤ contentLen ∧ contentLen ≤ 500 then 0.1
  else if contentLen < 50 then -0.1
  else 0

/-- The metadata-presence contribution. -/
def metaTerm (metadata : String) : ℚ := if metadata = "" then 0 else 0.1

/-- The loop body of `extractKeywords` that fills the map `words`. -/
def addKeyword (words : List String) (part : String) : List String :=
  if strLen part > 1 then (if words.contains part then words else words ++ [part])
  else words

/-- Stand-ins for the standard library as `toyStd`, with the lower-casing of the ASCII
letters; on the texts of the examples below, which hold ASCII and CJK characters only,
this is what `unicode.ToLower` does. -/
def asciiStd : GoStd := { toyStd with toLower := Char.toLower }

/-- The question of `TestREFRAGService_Query`. -/
def testQuestion : String := "Go 和 Rust 在并发编程上有什么区别？"

/-- The content of the third fragment of `TestREFRAGService_Query`: 31 characters,
79 bytes. -/
def pythonContent : String := "Python 是一种高级编程语言，广泛用于数据科学和机器学习。"

/-- The entry of an expanded candidate in the prompt, under the number `n`. -/
def expandedEntry (std : GoStd) (n : Nat) (chunk : CompressedChunk) : Bytes :=
  utf8 ("\n[文档 " ++ toString n ++ "] (相关性: " ++ std.fmtFloat2 chunk.Score ++ ")\n") ++
    utf8 chunk.OriginalChunk.Content ++ utf8 "\n"

/-- The line of a compressed candidate in the prompt, under the number `n`. -/
def summaryLine (std : GoStd) (n : Nat) (chunk : CompressedChunk) : Bytes :=
  utf8 ("- [文档 " ++ toString n ++ "] (相关性: " ++ std.fmtFloat2 chunk.Score ++ ") ") ++
    summaryOf chunk.OriginalChunk.Content ++ utf8 "\n"

/-- The entries of a list of candidates, in order, numbered from `i + 1`. -/
def numberedFrom (entry : Nat → CompressedChunk → Bytes) (i : Nat)
    (cs : List CompressedChunk) : Bytes :=
  ((cs.enumFrom i).map (fun ic => entry (ic.1 + 1) ic.2)).flatten

/-- The expand count `Query` works with (refrag_service.go, lines 69-72). -/
def effectiveExpandK (req : REFRAGQueryRequest) : Int :=
  if req.ExpandK = 0 then 5 else req.ExpandK

/-- The compression ratio `Query` works with (refrag_service.go, lines 74-77). -/
def effectiveRatio (req : REFRAGQueryRequest) : Int :=
  if req.CompressionRatio = 0 then 16 else req.CompressionRatio

/-- The over-fetch width `Query` works with (refrag_service.go, lines 64-67). -/
def effectiveOverFetchK (req : REFRAGQueryRequest) : Int :=
  if req.OverFetchK = 0 then 100 else req.OverFetchK

/-- The candidates of `Query` after compression, scoring and sorting. -/
def sortedCandidates (std : GoStd) (req : REFRAGQueryRequest) (chunks : List DocumentChunk) :
    List CompressedChunk :=
  std.sortSlice byScoreDesc
    (scoreChunks std (chunks.map (fun c => compressChunk c (effectiveRatio req))) req.Question)

/-- The expanded candidates of `Query` for a non-negative expand count. -/
def triageExpanded (std : GoStd) (req : REFRAGQueryRequest) (chunks : List DocumentChunk) :
    List CompressedChunk :=
  ((sortedCandidates std req chunks).take (effectiveExpandK req).toNat).map markExpanded

/-- The compressed candidates of `Query` for a non-negative expand count. -/
def triageCompressed (std : GoStd) (req : REFRAGQueryRequest) (chunks : List DocumentChunk) :
    List CompressedChunk :=
  (sortedCandidates std req chunks).drop (effectiveExpandK req).toNat

/-- Three fragments for the triage examples. -/
def threeFragments : List DocumentChunk :=
  [fragment 1 "go is a language", fragment 2 "rust is a language too", fortyBytes]

/-- A triage request with an expand count of two and every other parameter unset. -/
def expandTwo : REFRAGQueryRequest :=
  { Question := "what is go", DocType := "", Language := "", OverFetchK := 0, ExpandK := 2,
    CompressionRatio := 0 }

/-- A candidate told apart by the identifier of its fragment. -/
def tied (id : Int) (score : ℚ) : CompressedChunk :=
  { OriginalChunk := fragment id "", CompressedVector := [], Score := score,
    IsExpanded := false, TokenCount := 0, CompressedTokenCount := 1 }

/-- Thirteen candidates: twelve of score 0.5 and a last one of score 0.9. -/
def thirteen : List CompressedChunk :=
  [tied 0 0.5, tied 1 0.5, tied 2 0.5, tied 3 0.5, tied 4 0.5, tied 5 0.5, tied 6 0.5,
   tied 7 0.5, tied 8 0.5, tied 9 0.5, tied 10 0.5, tied 11 0.5, tied 12 0.9]

/-- The fragment of `TestREFRAGService_CompressChunks`: a sentence of 24 characters, 72
bytes, with an embedding of 768 components. -/
def testSentence : DocumentChunk :=
  { ID := 1, Content := "这是一个测试文档，包含一些内容用于测试压缩功能。",
    Embedding := List.replicate 768 0, Metadata := "", DocType := "", Language := "" }

/-! ## Rerank clients: `integrations/rerank` -/

/-- `RerankResult` (cohere.go, lines 44-49). -/
structure RerankResult where
  Index : Int
  RelevanceScore : ℚ
  Document : String
  deriving DecidableEq, Repr

/-- An element of `result.Results` as decoded by the BGE client (bge.go, lines 76-81). -/
structure BGEEntry where
  Index : Int
  Score : ℚ
  deriving DecidableEq, Repr

/-- An element of `result.Results` as decoded by the Cohere client (cohere.go,
lines 93-98). -/
structure CohereEntry where
  Index : Int
  RelevanceScore : ℚ
  deriving DecidableEq, Repr

/-- The index expression `documents[i]`: `none` is the out-of-range panic. -/
def indexDocument (documents : List String) (i : Int) : Option String :=
  if 0 ≤ i ∧ i < documents.length then documents[i.toNat]? else none

/-- The loop that builds the results in `BGERerankClient.Rerank` (bge.go, lines 87-99),
run on the decoded response; `results` is the slice built so far. -/
def bgeBuildResults (documents : List String) :
    List BGEEntry → List RerankResult → Option (List RerankResult)
  | [], results => some results
  | r :: rest, results =>
    if r.Index < documents.length then
      match indexDocument documents r.Index with
      | none => none
      | some document =>
        bgeBuildResults documents rest
          (results ++ [{ Index := r.Index, RelevanceScore := r.Score, Document := document }])
    else bgeBuildResults documents rest results

/-- The loop that builds the results in `CohereRerankClient.Rerank` (cohere.go,
lines 104-116), run on the decoded response; `results` is the slice built so far. -/
def cohereBuildResults (documents : List String) :
    List CohereEntry → List RerankResult → Option (List RerankResult)
  | [], results => some results
  | r :: rest, results =>
    if r.Index < documents.length then
      match indexDocument documents r.Index with
      | none => none
      | some document =>
        cohereBuildResults documents rest
          (results ++ [{ Index := r.Index, RelevanceScore := r.RelevanceScore,
                         Document := document }])
    else cohereBuildResults documents rest results

/-- A triage request with a negative expand count. -/
def expandMinusOne : REFRAGQueryRequest :=
  { Question := "what is go", DocType := "", Language := "", OverFetchK := 0, ExpandK := -1,
    CompressionRatio := 0 }

/-- The question of `TestREFRAGService_ScoreChunks`. -/
def scoreQuestion : String := "Go 语言的特点是什么？"

/-- The first candidate of `TestREFRAGService_ScoreChunks`: its content names Go. -/
def goCandidate : CompressedChunk :=
  { OriginalChunk := fragment 0 "Go 语言是一种开源的编程语言，由 Google 开发。",
    CompressedVector := [], Score := 0, IsExpanded := false, TokenCount := 0,
    CompressedTokenCount := 0 }

/-- The second candidate of `TestREFRAGService_ScoreChunks`: its content is on Python. -/
def pythonCandidate : CompressedChunk :=
  { OriginalChunk := fragment 0 "Python 是一种高级编程语言。",
    CompressedVector := [], Score := 0, IsExpanded := false, TokenCount := 0,
    CompressedTokenCount := 0 }

/-- A triage request with every parameter unset. -/
def plainRequest : REFRAGQueryRequest :=
  { Question := "what is go", DocType := "", Language := "", OverFetchK := 0, ExpandK := 0,
    CompressionRatio := 0 }

/-- The lines of the sub-questions, in order, numbered from `i + 1`. -/
def subQueryLines : Nat → List String → String
  | _, [] => ""
  | i, subQ :: rest => (toString (i + 1) ++ ". " ++ subQ ++ "\n") ++ subQueryLines (i + 1) rest

/-- The evidence entries of the fragments, in order, numbered from `i + 1`. -/
def documentEntries : Nat → List DocumentChunk → String
  | _, [] => ""
  | i, chunk :: rest =>
    ("### [文档 " ++ toString (i + 1) ++ "]\n" ++ chunk.Content ++ "\n\n") ++
      documentEntries (i + 1) rest

/-- A plan in structured form, as a planner may return it inside a code fence. -/
def planText : String := "\x7b\"is_simple\": true\x7d"

/-! ## Modality preference: `g4/multimodal_repository.go` -/

/-- `ContentType` (g4/model.go): a string. -/
abbrev ContentType := String

/-- `ContentUnit` (g4/model.go), with the fields that tell units apart here; the
preference code reads the field `Type` only, which is `UnitType` here. -/
structure ContentUnit where
  ID : Int
  UnitType : ContentType
  Content : String
  deriving DecidableEq, Repr

/-- The statement `groups[unit.UnitType] = append(groups[unit.UnitType], unit)`; the map `groups`
is listed by key. -/
def appendToGroup :
    List (ContentType × List ContentUnit) → ContentUnit → List (ContentType × List ContentUnit)
  | [], unit => [(unit.UnitType, [unit])]
  | (t, g) :: rest, unit =>
    if t = unit.UnitType then (t, g ++ [unit]) :: rest else (t, g) :: appendToGroup rest unit

/-- The first loop of `applyModalityPreference`: the units grouped by type. -/
def groupUnits (units : List ContentUnit) : List (ContentType × List ContentUnit) :=
  units.foldl appendToGroup []

/-- The map access `groups[contentType]`, which is empty for a missing key. -/
def groupOf (groups : List (ContentType × List ContentUnit)) (contentType : ContentType) :
    List ContentUnit :=
  (groups.lookup contentType).getD []

/-- The weight of a type: its preference when the map has one, and 1.0 otherwise. -/
def weightOf (preferences : ContentType → Option ℚ) (contentType : ContentType) : ℚ :=
  match preferences contentType with
  | some w => w
  | none => 1.0

/-- Body of the second loop of `applyModalityPreference`. -/
def preferenceStep (groups : List (ContentType × List ContentUnit))
    (preferences : ContentType → Option ℚ) (result : List ContentUnit)
    (contentType : ContentType) : List ContentUnit :=
  let weight := weightOf preferences contentType
  if weight > 1.0 then groupOf groups contentType ++ result
  else result ++ groupOf groups contentType

/-- `MultimodalRepository.applyModalityPreference`. The map `preferences` is given by its
lookup. Go leaves the order in which `range groups` yields the keys open; `visit` is that
order. -/
def applyModalityPreference (visit : List ContentType) (units : List ContentUnit)
    (preferences : ContentType → Option ℚ) : List ContentUnit :=
  let groups := groupUnits units
  visit.foldl (preferenceStep groups preferences) []

/-- The units of one type, in input order. -/
def unitsOfType (units : List ContentUnit) (t : ContentType) : List ContentUnit :=
  units.filter (fun u => decide (u.UnitType = t))

/-- Five units of three types for the examples. -/
def fiveUnits : List ContentUnit :=
  [⟨1, "text", "a"⟩, ⟨2, "image", "b"⟩, ⟨3, "text", "c"⟩, ⟨4, "table", "d"⟩,
   ⟨5, "image", "e"⟩]

/-- A preference for images over the default, and against tables. -/
def preferImages (t : ContentType) : Option ℚ :=
  if t = "image" then some 2 else if t = "table" then some (1 / 2) else none

/-! ## `sort.Slice` of the Go standard library (`sort/zsortfunc.go`, Go 1.19 and later)

The slice under sort is the list `data`; `a`, `b`, `i`, `j` are indices into it. The loops
of the library run on a counter `fuel` that is set high enough for them to end by their
own test. -/

/-- `data.Less(i, j)`: the comparison of `sort.Slice` on the elements now at `i` and
`j`. -/
def lessAt {α : Type} (less : α → α → Bool) (data : List α) (i j : Nat) : Bool :=
  match data[i]?, data[j]? with
  | some x, some y => less x y
  | _, _ => false

/-- `data.Swap(i, j)`. -/
def swapAt {α : Type} (data : List α) (i j : Nat) : List α :=
  match data[i]?, data[j]? with
  | some x, some y => (data.set i y).set j x
  | _, _ => data

/-- Inner loop of `insertionSort_func`: `for j := i; j > a && data.Less(j, j-1); j--`. -/
def insertDown {α : Type} (less : α → α → Bool) (a : Nat) : Nat → List α → List α
  | 0, data => data
  | j + 1, data =>
    if a < j + 1 ∧ lessAt less data (j + 1) j = true then
      insertDown less a j (swapAt data (j + 1) j)
    else data

/-- `insertionSort_func(data, a, b)`. -/
def insertionSortFunc {α : Type} (less : α → α → Bool) (data : List α) (a b : Nat) : List α :=
  (List.range' (a + 1) (b - (a + 1))).foldl (fun data i => insertDown less a i data) data

/-- `siftDown_func(data, lo, hi, first)`, the loop from `root`. -/
def siftDownFunc {α : Type} (less : α → α → Bool) (hi first : Nat) :
    Nat → Nat → List α → List α
  | 0, _, data => data
  | fuel + 1, root, data =>
    if 2 * root + 1 ≥ hi then data
    else
      let child :=
        if 2 * root + 2 < hi ∧
            lessAt less data (first + (2 * root + 1)) (first + (2 * root + 1) + 1) = true then
          2 * root + 2
        else 2 * root + 1
      if lessAt less data (first + root) (first + child) = false then data
      else siftDownFunc less hi first fuel child (swapAt data (first + root) (first + child))

/-- `heapSort_func(data, a, b)`. -/
def heapSortFunc {α : Type} (less : α → α → Bool) (data : List α) (a b : Nat) : List α :=
  let first := a
  let hi := b - a
  let data := (List.range ((hi - 1) / 2 + 1)).reverse.foldl
    (fun data i => siftDownFunc less hi first hi i data) data
  (List.range hi).reverse.foldl
    (fun data i => siftDownFunc less i first hi 0 (swapAt data first (first + i))) data

/-- `bits.Len`, with `fuel` at least the number of bits. -/
def bitsLenAux : Nat → Nat → Nat
  | 0, _ => 0
  | fuel + 1, x => if x = 0 then 0 else bitsLenAux fuel (x / 2) + 1

/-- `bits.Len(uint(x))`. -/
def bitsLen (x : Nat) : Nat := bitsLenAux x x

/-- `xorshift.Next` on 64 bits. -/
def xorshiftNext (r : Nat) : Nat :=
  let r := r ^^^ ((r <<< 13) % 18446744073709551616)
  let r := r ^^^ (r >>> 7)
  r ^^^ ((r <<< 17) % 18446744073709551616)

/-- The index `other` of `breakPatterns_func` for the random number `random`. -/
def otherIndex (length random : Nat) : Nat :=
  let other := random % 2 ^ bitsLen length
  if other ≥ length then other - length else other

/-- `breakPatterns_func(data, a, b)`. -/
def breakPatternsFunc {α : Type} (data : List α) (a b : Nat) : List α :=
  let length := b - a
  if length ≥ 8 then
    let idx := a + (length / 4) * 2 - 1
    let r1 := xorshiftNext length
    let r2 := xorshiftNext r1
    let r3 := xorshiftNext r2
    let data := swapAt data (idx - 1 + 0) (a + otherIndex length r1)
    let data := swapAt data (idx - 1 + 1) (a + otherIndex length r2)
    swapAt data (idx - 1 + 2) (a + otherIndex length r3)
  else data

/-- The type `sortedHint`. -/
inductive SortedHint where
  | unknownHint
  | increasingHint
  | decreasingHint
  deriving DecidableEq, Repr

/-- `order2_func(data, a, b, swaps)`: the two indices in order, and the new count. -/
def order2Func {α : Type} (less : α → α → Bool) (data : List α) (a b swaps : Nat) :
    Nat × Nat × Nat :=
  if lessAt less data b a = true then (b, a, swaps + 1) else (a, b, swaps)

/-- `median_func(data, a, b, c, swaps)`: the index of the median, and the new count. -/
def medianFunc {α : Type} (less : α → α → Bool) (data : List α) (a b c swaps : Nat) :
    Nat × Nat :=
  let ab := order2Func less data a b swaps
  let bc := order2Func less data ab.2.1 c ab.2.2
  let ab2 := order2Func less data ab.1 bc.1 bc.2.2
  (ab2.2.1, ab2.2.2)

/-- `medianAdjacent_func(data, a, swaps)`. -/
def medianAdjacentFunc {α : Type} (less : α → α → Bool) (data : List α) (a swaps : Nat) :
    Nat × Nat :=
  medianFunc less data (a - 1) a (a + 1) swaps

/-- `choosePivot_func(data, a, b)`. -/
def choosePivotFunc {α : Type} (less : α → α → Bool) (data : List α) (a b : Nat) :
    Nat × SortedHint :=
  let l := b - a
  let i := a + l / 4 * 1
  let j := a + l / 4 * 2
  let k := a + l / 4 * 3
  let js : Nat × Nat :=
    if l ≥ 8 then
      if l ≥ 50 then
        let i2 := medianAdjacentFunc less data i 0
        let j2 := medianAdjacentFunc less data j i2.2
        let k2 := medianAdjacentFunc less data k j2.2
        medianFunc less data i2.1 j2.1 k2.1 k2.2
      else medianFunc less data i j k 0
    else (j, 0)
  if js.2 = 0 then (js.1, .increasingHint)
  else if js.2 = 12 then (js.1, .decreasingHint)
  else (js.1, .unknownHint)

/-- `reverseRange_func(data, a, b)`, the loop `for i < j` from `i` and `j`. -/
def reverseRangeLoop {α : Type} : Nat → Nat → Nat → List α → List α
  | 0, _, _, data => data
  | fuel + 1, i, j, data =>
    if i < j then reverseRangeLoop fuel (i + 1) (j - 1) (swapAt data i j) else data

/-- `reverseRange_func(data, a, b)`. -/
def reverseRangeFunc {α : Type} (data : List α) (a b : Nat) : List α :=
  reverseRangeLoop (b - a) a (b - 1) data

/-- A loop `for i <= j && p(i)` that advances `i`: the value of `i` after it. -/
def scanUp (p : Nat → Bool) (j : Nat) : Nat → Nat → Nat
  | 0, i => i
  | fuel + 1, i => if i ≤ j ∧ p i = true then scanUp p j fuel (i + 1) else i

/-- A loop `for i <= j && p(j)` that lowers `j`: the value of `j` after it. -/
def scanDown (p : Nat → Bool) (i : Nat) : Nat → Nat
  | 0 => 0
  | j + 1 => if i ≤ j + 1 ∧ p (j + 1) = true then scanDown p i j else j + 1

/-- In `partialInsertionSort_func`, the loop `for j := i - 1; j >= 1; j--` that shifts the
smaller element to the left. -/
def shiftSmaller {α : Type} (less : α → α → Bool) : Nat → List α → List α
  | 0, data => data
  | j + 1, data =>
    if lessAt less data (j + 1) j = false then data
    else shiftSmaller less j (swapAt data (j + 1) j)

/-- In `partialInsertionSort_func`, the loop `for j := i + 1; j < b; j++` that shifts the
greater element to the right. -/
def shiftGreater {α : Type} (less : α → α → Bool) (b : Nat) : Nat → Nat → List α → List α
  | 0, _, data => data
  | fuel + 1, j, data =>
    if j < b then
      if lessAt less data j (j - 1) = false then data
      else shiftGreater less b fuel (j + 1) (swapAt data j (j - 1))
    else data

/-- `partialInsertionSort_func(data, a, b)`, the loop over the steps that are left, from
the index `i`: the slice and the result. -/
def partialInsertionSortLoop {α : Type} (less : α → α → Bool) (a b : Nat) :
    Nat → Nat → List α → List α × Bool
  | 0, _, data => (data, false)
  | steps + 1, i, data =>
    let i := scanUp (fun i => !lessAt less data i (i - 1)) (b - 1) b i
    if i = b then (data, true)
    else if b - a < 50 then (data, false)
    else
      let data := swapAt data i (i - 1)
      let data := if i - a ≥ 2 then shiftSmaller less (i - 1) data else data
      let data := if b - i ≥ 2 then shiftGreater less b b (i + 1) data else data
      partialInsertionSortLoop less a b steps i data

/-- `partialInsertionSort_func(data, a, b)`. -/
def partialInsertionSortFunc {α : Type} (less : α → α → Bool) (data : List α) (a b : Nat) :
    List α × Bool :=
  partialInsertionSortLoop less a b 5 (a + 1) data

/-- The loop of `partitionEqual_func`, from `i` and `j`: the value of `i` at the break and
the slice. -/
def partitionEqualLoop {α : Type} (less : α → α → Bool) (a : Nat) :
    Nat → Nat → Nat → List α → Nat × List α
  | 0, i, _, data => (i, data)
  | fuel + 1, i, j, data =>
    let i := scanUp (fun i => !lessAt less data a i) j (j + 1) i
    let j := scanDown (fun j => lessAt less data a j) i j
    if i > j then (i, data)
    else partitionEqualLoop less a fuel (i + 1) (j - 1) (swapAt data i j)

/-- `partitionEqual_func(data, a, b, pivot)`: the new pivot and the slice. -/
def partitionEqualFunc {α : Type} (less : α → α → Bool) (data : List α) (a b pivot : Nat) :
    Nat × List α :=
  partitionEqualLoop less a (b - a + 1) (a + 1) (b - 1) (swapAt data a pivot)

/-- The second loop of `partition_func`, from `i` and `j`: the value of `j` at the break
and the slice. -/
def partitionLoop {α : Type} (less : α → α → Bool) (a : Nat) :
    Nat → Nat → Nat → List α → Nat × List α
  | 0, _, j, data => (j, data)
  | fuel + 1, i, j, data =>
    let i := scanUp (fun i => lessAt less data i a) j (j + 1) i
    let j := scanDown (fun j => !lessAt less data j a) i j
    if i > j then (j, data)
    else partitionLoop less a fuel (i + 1) (j - 1) (swapAt data i j)

/-- `partition_func(data, a, b, pivot)`: the new pivot, whether the slice was already
partitioned, and the slice. -/
def partitionFunc {α : Type} (less : α → α → Bool) (data : List α) (a b pivot : Nat) :
    Nat × Bool × List α :=
  let data := swapAt data a pivot
  let i := scanUp (fun i => lessAt less data i a) (b - 1) b (a + 1)
  let j := scanDown (fun j => !lessAt less data j a) i (b - 1)
  if i > j then (j, true, swapAt data j a)
  else
    let rest := partitionLoop less a (b - a + 1) (i + 1) (j - 1) (swapAt data i j)
    (rest.1, false, swapAt rest.2 rest.1 a)

/-- `pdqsort_func(data, a, b, limit)`, from the top of its loop with the flags
`wasBalanced` and `wasPartitioned`. -/
def pdqsortFunc {α : Type} (less : α → α → Bool) :
    Nat → List α → Nat → Nat → Nat → Bool → Bool → List α
  | 0, data, _, _, _, _, _ => data
  | fuel + 1, data, a, b, limit, wasBalanced, wasPartitioned =>
    let length := b - a
    if length ≤ 12 then insertionSortFunc less data a b
    else if limit = 0 then heapSortFunc less data a b
    else
      let data := if wasBalanced then data else breakPatternsFunc data a b
      let limit := if wasBalanced then limit else limit - 1
      let chosen := choosePivotFunc less data a b
      let data := if chosen.2 = .decreasingHint then reverseRangeFunc data a b else data
      let pivot := if chosen.2 = .decreasingHint then (b - 1) - (chosen.1 - a) else chosen.1
      let hint := if chosen.2 = .decreasingHint then SortedHint.increasingHint else chosen.2
      let tried : List α × Bool :=
        if wasBalanced ∧ wasPartitioned ∧ hint = .increasingHint then
          partialInsertionSortFunc less data a b
        else (data, false)
      if tried.2 = true then tried.1
      else
        let data := tried.1
        if 0 < a ∧ lessAt less data (a - 1) pivot = false then
          let equal := partitionEqualFunc less data a b pivot
          pdqsortFunc less fuel equal.2 equal.1 b limit wasBalanced wasPartitioned
        else
          let parted := partitionFunc less data a b pivot
          let mid := parted.1
          let leftLen := mid - a
          let rightLen := b - mid
          let balanceThreshold := length / 8
          if leftLen < rightLen then
            pdqsortFunc less fuel (pdqsortFunc less fuel parted.2.2 a mid limit true true)
              (mid + 1) b limit (decide (leftLen ≥ balanceThreshold)) parted.2.1
          else
            pdqsortFunc less fuel (pdqsortFunc less fuel parted.2.2 (mid + 1) b limit true true)
              a mid limit (decide (rightLen ≥ balanceThreshold)) parted.2.1

/-- `sort.Slice(x, less)`. -/
def goSortSlice {α : Type} (less : α → α → Bool) (xs : List α) : List α :=
  pdqsortFunc less (xs.length + 1) xs 0 xs.length (bitsLen xs.length) true true

/-! ## Further test doubles and specification-side definitions -/

/-- The standard library with the sort of Go 1.19 and later; lower-casing, formats and
capacity limit as in `asciiStd`. -/
def goStd : GoStd := { asciiStd with sortSlice := goSortSlice }

/-- A triage request whose expand count is the largest `int` of a 64-bit platform. -/
def expandMax : REFRAGQueryRequest :=
  { Question := "what is go", DocType := "", Language := "", OverFetchK := 0,
    ExpandK := 9223372036854775807, CompressionRatio := 0 }

/-- The score in the words of the specification, which counts the content length in
characters: `0.5 + 0.3 * (|Q ∩ C| / |Q|) + shape + meta`. -/
def scoreByCharacters (std : GoStd) (question : String) (c : CompressedChunk) : ℚ :=
  0.5 +
    0.3 * overlapRatio (extractKeywords std question).toFinset
      (extractKeywords std c.OriginalChunk.Content).toFinset +
    shapeTerm (c.OriginalChunk.Content.length : Int) +
    metaTerm c.OriginalChunk.Metadata

/-! # Theorems -/

/-! ## Deduplication -/

theorem foldl_dedupStep (xs : List DocumentChunk) :
    ∀ (seen : List Int) (uniq : List DocumentChunk),
      (xs.foldl dedupStep (seen, uniq)).2 = uniq ++ keepFirst seen xs := by
  induction xs with
  | nil => intro seen uniq; simp [keepFirst]
  | cons c cs ih =>
    intro seen uniq
    by_cases h : c.ID ∈ seen
    · simp [List.foldl_cons, dedupStep, keepFirst, h, ih]
    · simp [List.foldl_cons, dedupStep, keepFirst, h, ih]

theorem dedup_eq_keepFirst (xs : List DocumentChunk) : dedup xs = keepFirst [] xs := by
  unfold dedup
  split
  · rename_i h
    have : xs = [] := List.length_eq_zero.mp h
    subst this
    simp [keepFirst]
  · simp [foldl_dedupStep]

theorem keepFirst_sublist (xs : List DocumentChunk) :
    ∀ seen : List Int, (keepFirst seen xs).Sublist xs := by
  induction xs with
  | nil => intro seen; simp [keepFirst]
  | cons c cs ih =>
    intro seen
    unfold keepFirst
    split
    · exact (ih seen).cons c
    · exact (ih _).cons₂ c

theorem keepFirst_not_seen (xs : List DocumentChunk) :
    ∀ (seen : List Int) (c : DocumentChunk), c ∈ keepFirst seen xs → c.ID ∉ seen := by
  induction xs with
  | nil => intro seen c hc; simp [keepFirst] at hc
  | cons d ds ih =>
    intro seen c hc
    unfold keepFirst at hc
    split at hc
    · exact ih seen c hc
    · rename_i hd
      rcases List.mem_cons.mp hc with rfl | hc
      · exact hd
      · intro hs
        exact ih _ c hc (List.mem_cons_of_mem _ hs)

theorem keepFirst_nodup (xs : List DocumentChunk) :
    ∀ seen : List Int, ((keepFirst seen xs).map (fun c => c.ID)).Nodup := by
  induction xs with
  | nil => intro seen; simp [keepFirst]
  | cons d ds ih =>
    intro seen
    unfold keepFirst
    split
    · exact ih seen
    · rw [List.map_cons, List.nodup_cons]
      refine ⟨?_, ih _⟩
      intro hmem
      obtain ⟨c, hc, hcd⟩ := List.mem_map.mp hmem
      exact keepFirst_not_seen ds _ c hc (by simp [hcd])

theorem keepFirst_covers (xs : List DocumentChunk) :
    ∀ (seen : List Int) (c : DocumentChunk), c ∈ xs →
      c.ID ∈ seen ∨ c.ID ∈ (keepFirst seen xs).map (fun c => c.ID) := by
  induction xs with
  | nil => intro seen c hc; simp at hc
  | cons d ds ih =>
    intro seen c hc
    unfold keepFirst
    rcases List.mem_cons.mp hc with rfl | hc
    · split
      · left; assumption
      · right; simp
    · split
      · exact ih seen c hc
      · rcases ih (d.ID :: seen) c hc with h | h
        · rcases List.mem_cons.mp h with h | h
          · right; simp [h]
          · left; exact h
        · right
          rw [List.map_cons]
          exact List.mem_cons_of_mem _ h

theorem keepFirst_snoc (xs : List DocumentChunk) (c : DocumentChunk) :
    ∀ seen : List Int,
      keepFirst seen (xs ++ [c]) =
        keepFirst seen xs ++
          (if c.ID ∈ seen ∨ c.ID ∈ xs.map (fun d => d.ID) then [] else [c]) := by
  induction xs with
  | nil =>
    intro seen
    by_cases h : c.ID ∈ seen <;> simp [keepFirst, h]
  | cons d ds ih =>
    intro seen
    have hcons : ∀ s : List Int, ∀ ys : List DocumentChunk, keepFirst s (d :: ys) =
        if d.ID ∈ s then keepFirst s ys else d :: keepFirst (d.ID :: s) ys :=
      fun s ys => by rw [keepFirst]
    rw [List.cons_append, hcons, hcons]
    by_cases hd : d.ID ∈ seen
    · rw [if_pos hd, if_pos hd, ih seen]
      by_cases h1 : c.ID ∈ seen
      · simp [h1]
      · have h2 : c.ID ≠ d.ID := fun h => h1 (h ▸ hd)
        simp [h1, h2]
    · rw [if_neg hd, if_neg hd, ih (d.ID :: seen)]
      by_cases h2 : c.ID = d.ID
      · simp [h2]
      · by_cases h1 : c.ID ∈ seen <;> simp [h1, h2]

theorem keepFirst_fixed (xs : List DocumentChunk) :
    ∀ seen : List Int, (xs.map (fun c => c.ID)).Nodup →
      (∀ c ∈ xs, c.ID ∉ seen) → keepFirst seen xs = xs := by
  induction xs with
  | nil => intro seen _ _; simp [keepFirst]
  | cons d ds ih =>
    intro seen hnd hdis
    rw [List.map_cons, List.nodup_cons] at hnd
    have hd : d.ID ∉ seen := hdis d (List.mem_cons_self _ _)
    unfold keepFirst
    rw [if_neg hd, ih (d.ID :: seen) hnd.2]
    intro c hc hmem
    rcases List.mem_cons.mp hmem with h | h
    · exact hnd.1 (List.mem_map.mpr ⟨c, hc, h⟩)
    · exact hdis c (List.mem_cons_of_mem _ hc) h

theorem dedup_snoc (xs : List DocumentChunk) (c : DocumentChunk) :
    dedup (xs ++ [c]) =
      if c.ID ∈ xs.map (fun d => d.ID) then dedup xs else dedup xs ++ [c] := by
  rw [dedup_eq_keepFirst, dedup_eq_keepFirst, keepFirst_snoc]
  by_cases h : c.ID ∈ xs.map (fun d => d.ID) <;> simp [h]

/-- C1: `dedup` keeps exactly the first occurrence of each identifier. Its result is a
subsequence of the input, so the kept fragments stand in arrival order; the identifiers of
the result are pairwise distinct; every identifier of the input occurs in the result; a
fragment arriving last is appended exactly when its identifier has not occurred before;
and the identifier is the only key: of two fragments the second is dropped exactly when
it carries the identifier of the first, whatever the contents. -/
theorem dedup_keeps_first_occurrences (xs : List DocumentChunk) :
    (dedup xs).Sublist xs ∧
    ((dedup xs).map (fun c => c.ID)).Nodup ∧
    (∀ c ∈ xs, c.ID ∈ (dedup xs).map (fun d => d.ID)) ∧
    (∀ c : DocumentChunk, dedup (xs ++ [c]) =
      if c.ID ∈ xs.map (fun d => d.ID) then dedup xs else dedup xs ++ [c]) ∧
    (∀ a b : DocumentChunk, dedup [a, b] = if a.ID = b.ID then [a] else [a, b]) := by
  refine ⟨?_, ?_, ?_, dedup_snoc xs, ?_⟩
  · rw [dedup_eq_keepFirst]; exact keepFirst_sublist xs []
  · rw [dedup_eq_keepFirst]; exact keepFirst_nodup xs []
  · intro c hc
    rw [dedup_eq_keepFirst]
    rcases keepFirst_covers xs [] c hc with h | h
    · simp at h
    · exact h
  · intro a b
    rw [dedup_eq_keepFirst]
    by_cases h : a.ID = b.ID
    · simp [keepFirst, h]
    · have h2 : ¬ b.ID = a.ID := fun e => h e.symm
      simp [keepFirst, h, h2]

/-- C1, the scenario of the specification: the rounds `[1,2]` and `[2,3]` give `[1,2,3]`,
and two fragments with one content and two identifiers are both kept. -/
theorem dedup_keeps_first_occurrences_witness :
    dedup ([fragment 1 "one", fragment 2 "two"] ++ [fragment 2 "two", fragment 3 "three"]) =
      [fragment 1 "one", fragment 2 "two", fragment 3 "three"] ∧
    dedup [fragment 1 "same", fragment 2 "same"] = [fragment 1 "same", fragment 2 "same"] ∧
    ((dedup ([fragment 1 "one", fragment 2 "two"] ++
        [fragment 2 "two", fragment 3 "three"])).map (fun c => c.ID)).Nodup := by
  refine ⟨by decide, ?_, (dedup_keeps_first_occurrences _).2.1⟩
  rw [(dedup_keeps_first_occurrences []).2.2.2.2 (fragment 1 "same") (fragment 2 "same")]
  decide

/-- C2: `dedup` is idempotent, on the empty list as on any other. -/
theorem dedup_idempotent (xs : List DocumentChunk) : dedup (dedup xs) = dedup xs := by
  rw [dedup_eq_keepFirst (dedup xs), dedup_eq_keepFirst xs]
  apply keepFirst_fixed _ [] (keepFirst_nodup xs [])
  intro c _
  simp

/-! ## Selection by width -/

theorem rerank_of_nonneg (question : String) (fs : List DocumentChunk) (w : Int)
    (hw : 0 ≤ w) :
    rerank question fs w =
      some (if (fs.length : Int) ≤ w then fs else fs.take w.toNat) := by
  unfold rerank sliceTo
  by_cases h : (fs.length : Int) ≤ w <;> simp [h, hw]

/-- C6: for a width `w ≥ 0`, `rerank` returns the fragments unchanged when there are at
most `w` of them and their first `w` otherwise; the result has `min(len, w)` fragments
and is the same for every question. -/
theorem rerank_truncates (question : String) (fs : List DocumentChunk) (w : Int)
    (hw : 0 ≤ w) :
    rerank question fs w =
      some (if (fs.length : Int) ≤ w then fs else fs.take w.toNat) ∧
    (∃ r, rerank question fs w = some r ∧ r = fs.take w.toNat ∧
      (r.length : Int) = Min.min (fs.length : Int) w) ∧
    (∀ other : String, rerank other fs w = rerank question fs w) := by
  have hfirst := rerank_of_nonneg question fs w hw
  refine ⟨hfirst, ⟨_, hfirst, ?_, ?_⟩, fun _ => rfl⟩
  · by_cases h : (fs.length : Int) ≤ w
    · rw [if_pos h]
      exact (List.take_of_length_le (by omega)).symm
    · rw [if_neg h]
  · by_cases h : (fs.length : Int) ≤ w
    · rw [if_pos h]; simp [h]
    · rw [if_neg h, List.length_take]
      have : w ≤ (fs.length : Int) := by omega
      rw [min_eq_right this]
      omega

/-- C6 on three fragments and width two: the first two fragments, in order. -/
theorem rerank_truncates_witness :
    (0 : Int) ≤ 2 ∧
    rerank "q" [fragment 7 "a", fragment 8 "b", fragment 9 "c"] 2 =
      some [fragment 7 "a", fragment 8 "b"] := by
  refine ⟨by decide, ?_⟩
  rw [(rerank_truncates "q" [fragment 7 "a", fragment 8 "b", fragment 9 "c"] 2
    (by decide)).1]
  decide

/-! ## Multi-round execution -/

theorem foldl_executeStep {σ : Type} (svc : RAGService σ) (req : RAGQueryRequest)
    (qs : List String) :
    ∀ (acc : ExecutionResults) (w : σ),
      qs.foldl (executeStep svc req) (acc, w) =
        ({ AllChunks := acc.AllChunks ++ ((roundOutcomes svc req qs w).map roundChunks).flatten
           Rounds := acc.Rounds + ((qs.length : Int) -
             ((roundOutcomes svc req qs w).countP roundFailed : Int)) },
         afterRounds svc req qs w) := by
  induction qs with
  | nil => intro acc w; simp [roundOutcomes, afterRounds]
  | cons q qs ih =>
    intro acc w
    rw [List.foldl_cons]
    have hstep : executeStep svc req (acc, w) q =
        ({ AllChunks := acc.AllChunks ++ roundChunks (executeRound svc q req w).1
           Rounds := acc.Rounds + (if roundFailed (executeRound svc q req w).1 then 0 else 1) },
         (executeRound svc q req w).2) := by
      unfold executeStep
      rcases hr : executeRound svc q req w with ⟨r, w1⟩
      cases r <;> simp [roundChunks, roundFailed]
    rw [hstep, ih]
    simp only [roundOutcomes, afterRounds, List.map_cons, List.flatten_cons, List.append_assoc,
      List.length_cons, List.countP_cons]
    congr 2
    by_cases hf : roundFailed (executeRound svc q req w).1 = true
    · simp only [hf, if_true]; push_cast; omega
    · simp only [hf]; push_cast; omega

theorem length_roundOutcomes {σ : Type} (svc : RAGService σ) (req : RAGQueryRequest)
    (qs : List String) : ∀ w : σ, (roundOutcomes svc req qs w).length = qs.length := by
  induction qs with
  | nil => intro w; rfl
  | cons q qs ih => intro w; simp [roundOutcomes, ih]

theorem Execute_eq {σ : Type} (svc : RAGService σ) (plan : QueryPlan)
    (req : RAGQueryRequest) (w : σ) :
    Execute svc plan req w =
      (.ok { AllChunks :=
               ((roundOutcomes svc req plan.SubQueries w).map roundChunks).flatten
             Rounds := (plan.SubQueries.length : Int) -
               ((roundOutcomes svc req plan.SubQueries w).countP roundFailed : Int) },
       afterRounds svc req plan.SubQueries w) := by
  unfold Execute
  rw [foldl_executeStep]
  simp

/-- C3: `Execute` runs one round per sub-question, each on the world left by the round
before it whether that round failed or not, and never returns an error. With `N`
sub-questions of which `F` rounds fail, `Rounds = N - F` and `AllChunks` is the
concatenation, in sub-question order, of the fragment lists of the successful rounds. -/
theorem Execute_tolerates_failed_rounds {σ : Type} (svc : RAGService σ) (plan : QueryPlan)
    (req : RAGQueryRequest) (w : σ) :
    (roundOutcomes svc req plan.SubQueries w).length = plan.SubQueries.length ∧
    Execute svc plan req w =
      (.ok { AllChunks :=
               ((roundOutcomes svc req plan.SubQueries w).map roundChunks).flatten
             Rounds := (plan.SubQueries.length : Int) -
               ((roundOutcomes svc req plan.SubQueries w).countP roundFailed : Int) },
       afterRounds svc req plan.SubQueries w) := by
  exact ⟨length_roundOutcomes svc req _ w, Execute_eq svc plan req w⟩

/-! ## Planning -/

/-- C7: when the response, stripped of its code fence, is rejected by the decoder,
`parsePlan` returns without error the degraded plan (simple, factual, the question as only
sub-question, no keyword, the fixed rationale); `parsePlan` returns a plan for every
response; and `Plan` fails exactly when the generation call fails, with that error. -/
theorem parsePlan_falls_back (unmarshal : String → Except String QueryPlan)
    (question response : String) :
    ((∃ e, unmarshal (extractJSON response) = .error e) →
      parsePlan unmarshal question response =
        .ok { IsSimple := true
              QuestionType := "factual"
              SubQueries := [question]
              Keywords := []
              Reasoning := "JSON parsing failed, fallback to simple mode" }) ∧
    (∃ plan, parsePlan unmarshal question response = .ok plan) ∧
    (∀ (σ : Type) (svc : RAGService σ) (w : σ) (e : String),
      (Plan svc unmarshal question w).1 = .error e ↔
        (svc.llmGenerate (buildPlanningPrompt question) w).1 = .error e) := by
  refine ⟨?_, ?_, ?_⟩
  · rintro ⟨e, he⟩
    simp [parsePlan, he, fallbackPlan]
  · simp only [parsePlan]
    cases unmarshal (extractJSON response) <;> exact ⟨_, rfl⟩
  · intro σ svc w e
    simp only [Plan]
    rcases hg : svc.llmGenerate (buildPlanningPrompt question) w with ⟨r, w1⟩
    cases r with
    | error err => simp
    | ok resp =>
      simp only [parsePlan, reduceCtorEq, iff_false]
      cases unmarshal (extractJSON resp) <;> simp

/-- C7 on a response that is no structured plan. -/
theorem parsePlan_falls_back_witness :
    (∃ e, toyUnmarshal (extractJSON "Sorry, I cannot help.") = .error e) ∧
    parsePlan toyUnmarshal "what is Go?" "Sorry, I cannot help." =
      .ok { IsSimple := true
            QuestionType := "factual"
            SubQueries := ["what is Go?"]
            Keywords := []
            Reasoning := "JSON parsing failed, fallback to simple mode" } :=
  have h : ∃ e, toyUnmarshal (extractJSON "Sorry, I cannot help.") = .error e :=
    ⟨"invalid character", by rfl⟩
  ⟨h, (parsePlan_falls_back toyUnmarshal "what is Go?" "Sorry, I cannot help.").1 h⟩

/-! ## The facade -/

theorem getTopK_pos (req : RAGQueryRequest) : 0 < getTopK req := by
  unfold getTopK
  cases req.TopK with
  | none => decide
  | some k =>
    by_cases h : k > 0
    · simp [h]
    · simp [h]

theorem head_data_append (p a : String) (c : Char) (cs : List Char) (hp : p.data = c :: cs) :
    (p ++ a).data.head? = some c := by
  rw [String.data_append, hp]; rfl

theorem generation_ne_planning (a b : String) :
    "generation failed: " ++ a ≠ "planning failed: " ++ b := by
  intro h
  have h1 := head_data_append "generation failed: " a 'g' _ rfl
  have h2 := head_data_append "planning failed: " b 'p' _ rfl
  rw [h] at h1
  rw [h1] at h2
  exact absurd h2 (by decide)

theorem generation_ne_execution (a b : String) :
    "generation failed: " ++ a ≠ "execution failed: " ++ b := by
  intro h
  have h1 := head_data_append "generation failed: " a 'g' _ rfl
  have h2 := head_data_append "execution failed: " b 'e' _ rfl
  rw [h] at h1
  rw [h1] at h2
  exact absurd h2 (by decide)

theorem Query_of_simple {σ : Type} (svc : RAGService σ)
    (unmarshal : String → Except String QueryPlan) (req : RAGQueryRequest) (w : σ)
    (plan : QueryPlan) (w1 : σ)
    (hplan : Plan svc unmarshal req.Question w = (.ok plan, w1))
    (hsimple : plan.IsSimple = true) :
    AgenticRAGService.Query svc unmarshal req w =
      (GoResult.ofExcept (svc.Query req w1).1, (svc.Query req w1).2) := by
  simp only [AgenticRAGService.Query, hplan, hsimple, if_true]

theorem Query_of_complex {σ : Type} (svc : RAGService σ)
    (unmarshal : String → Except String QueryPlan) (req : RAGQueryRequest) (w : σ)
    (plan : QueryPlan) (w1 : σ)
    (hplan : Plan svc unmarshal req.Question w = (.ok plan, w1))
    (hcomplex : plan.IsSimple = false)
    (results : ExecutionResults) (w2 : σ)
    (hexec : Execute svc plan req w1 = (.ok results, w2))
    (sources : List DocumentChunk)
    (hrerank : rerank req.Question (dedup results.AllChunks) (getTopK req) = some sources) :
    AgenticRAGService.Query svc unmarshal req w =
      match svc.llmGenerate (buildAgenticPrompt req.Question plan results sources) w2 with
      | (.error err, w3) => (.error ("generation failed: " ++ err), w3)
      | (.ok answer, w3) =>
        (.ok { Answer := answer
               Sources := sources
               Metadata :=
                 [("mode", .str "agentic_rag_v3"),
                  ("is_simple", .bool plan.IsSimple),
                  ("question_type", .str plan.QuestionType),
                  ("sub_queries", .strs plan.SubQueries),
                  ("total_retrieved", .int (dedup results.AllChunks).length),
                  ("final_selected", .int sources.length),
                  ("rounds", .int results.Rounds)] }, w3) := by
  simp only [AgenticRAGService.Query, hplan, hcomplex, hexec, hrerank]
  simp

/-- C8: when the plan is simple, whatever its sub-questions, `Query` returns what the
base single-round query returns on the same request, run on the world left by planning:
the response or the error of the base query, not wrapped, and the final world of the base
query. No round, no deduplication or selection and no generation call of the facade takes
place in between. -/
theorem Query_simple_bypasses_executor {σ : Type} (svc : RAGService σ)
    (unmarshal : String → Except String QueryPlan) (req : RAGQueryRequest) (w : σ)
    (plan : QueryPlan) (w1 : σ)
    (hplan : Plan svc unmarshal req.Question w = (.ok plan, w1))
    (hsimple : plan.IsSimple = true) :
    (AgenticRAGService.Query svc unmarshal req w).2 = (svc.Query req w1).2 ∧
    (∀ resp, (svc.Query req w1).1 = .ok resp →
      (AgenticRAGService.Query svc unmarshal req w).1 = .ok resp) ∧
    (∀ err, (svc.Query req w1).1 = .error err →
      (AgenticRAGService.Query svc unmarshal req w).1 = .error err) := by
  rw [Query_of_simple svc unmarshal req w plan w1 hplan hsimple]
  refine ⟨rfl, ?_, ?_⟩
  · intro resp h; simp [h, GoResult.ofExcept]
  · intro err h; simp [h, GoResult.ofExcept]

/-- C8 on counting doubles: the planner answers with a simple plan that has two
sub-questions; afterwards generation was called once (by the planner), the base query
once, and embedding and retrieval never. -/
theorem Query_simple_bypasses_executor_witness :
    Plan (countingRAG (fun _ => .ok "simple") [] [fragment 1 "one"]) toyUnmarshal "q"
        { generate := 0, embed := 0, search := 0, base := 0 } =
      (.ok { IsSimple := true, QuestionType := "factual", SubQueries := ["a", "b"],
             Keywords := [], Reasoning := "" },
       { generate := 1, embed := 0, search := 0, base := 0 }) ∧
    (AgenticRAGService.Query (countingRAG (fun _ => .ok "simple") [] [fragment 1 "one"])
        toyUnmarshal { Question := "q", DocType := "", Language := "", TopK := none }
        { generate := 0, embed := 0, search := 0, base := 0 }).2 =
      { generate := 1, embed := 0, search := 0, base := 1 } :=
  ⟨rfl,
   (Query_simple_bypasses_executor (countingRAG (fun _ => .ok "simple") [] [fragment 1 "one"])
      toyUnmarshal { Question := "q", DocType := "", Language := "", TopK := none }
      { generate := 0, embed := 0, search := 0, base := 0 } _ _ rfl rfl).1.trans rfl⟩

theorem Plan_of_generate_error {σ : Type} (svc : RAGService σ)
    (unmarshal : String → Except String QueryPlan) (question : String) (w : σ)
    (e : String) (w1 : σ)
    (hgen : svc.llmGenerate (buildPlanningPrompt question) w = (.error e, w1)) :
    Plan svc unmarshal question w = (.error e, w1) := by
  simp only [Plan, hgen]

theorem Plan_of_generate_ok {σ : Type} (svc : RAGService σ)
    (unmarshal : String → Except String QueryPlan) (question : String) (w : σ)
    (response : String) (w1 : σ)
    (hgen : svc.llmGenerate (buildPlanningPrompt question) w = (.ok response, w1)) :
    ∃ plan, Plan svc unmarshal question w = (.ok plan, w1) := by
  simp only [Plan, hgen, parsePlan]
  cases unmarshal (extractJSON response) <;> exact ⟨_, rfl⟩

/-- C9: the errors of `Query`, stage by stage.
* When the planner's generation call fails with `e`, `Query` returns the error
  `planning failed: e`; when that call succeeds, planning yields a plan.
* `Execute` returns no error, whatever the rounds do.
* For a simple plan the result is the one of the base query, passed on as it is.
* For a plan that is not simple, the rounds run, selection yields the sources, and `Query`
  fails exactly when the final generation call fails: with `e` there, it returns
  `generation failed: e`, and with an answer it returns a response. On this path the
  result is never a `planning failed` or `execution failed` error, and never a panic. -/
theorem Query_fails_by_stage {σ : Type} (svc : RAGService σ)
    (unmarshal : String → Except String QueryPlan) (req : RAGQueryRequest) (w : σ) :
    (∀ e w1, svc.llmGenerate (buildPlanningPrompt req.Question) w = (.error e, w1) →
      AgenticRAGService.Query svc unmarshal req w = (.error ("planning failed: " ++ e), w1)) ∧
    (∀ response w1, svc.llmGenerate (buildPlanningPrompt req.Question) w = (.ok response, w1) →
      ∃ plan, Plan svc unmarshal req.Question w = (.ok plan, w1)) ∧
    (∀ (plan : QueryPlan) (w1 : σ), ∃ results w2, Execute svc plan req w1 = (.ok results, w2)) ∧
    (∀ plan w1, Plan svc unmarshal req.Question w = (.ok plan, w1) → plan.IsSimple = true →
      AgenticRAGService.Query svc unmarshal req w =
        (GoResult.ofExcept (svc.Query req w1).1, (svc.Query req w1).2)) ∧
    (∀ plan w1, Plan svc unmarshal req.Question w = (.ok plan, w1) → plan.IsSimple = false →
      ∃ results w2 sources,
        Execute svc plan req w1 = (.ok results, w2) ∧
        rerank req.Question (dedup results.AllChunks) (getTopK req) = some sources ∧
        (∀ e w3,
          svc.llmGenerate (buildAgenticPrompt req.Question plan results sources) w2 =
            (.error e, w3) →
          AgenticRAGService.Query svc unmarshal req w =
            (.error ("generation failed: " ++ e), w3)) ∧
        (∀ answer w3,
          svc.llmGenerate (buildAgenticPrompt req.Question plan results sources) w2 =
            (.ok answer, w3) →
          ∃ resp, AgenticRAGService.Query svc unmarshal req w = (.ok resp, w3) ∧
            resp.Answer = answer ∧ resp.Sources = sources) ∧
        (∀ e, (AgenticRAGService.Query svc unmarshal req w).1 ≠
          .error ("planning failed: " ++ e)) ∧
        (∀ e, (AgenticRAGService.Query svc unmarshal req w).1 ≠
          .error ("execution failed: " ++ e)) ∧
        (∀ m, (AgenticRAGService.Query svc unmarshal req w).1 ≠ .panic m)) := by
  refine ⟨?_, ?_, ?_, ?_, ?_⟩
  · intro e w1 hgen
    simp only [AgenticRAGService.Query, Plan_of_generate_error svc unmarshal _ w e w1 hgen]
  · intro response w1 hgen
    exact Plan_of_generate_ok svc unmarshal _ w response w1 hgen
  · intro plan w1
    exact ⟨_, _, Execute_eq svc plan req w1⟩
  · intro plan w1 hplan hsimple
    exact Query_of_simple svc unmarshal req w plan w1 hplan hsimple
  · intro plan w1 hplan hcomplex
    have hexec := Execute_eq svc plan req w1
    have hrerank := rerank_of_nonneg req.Question
      (dedup ((roundOutcomes svc req plan.SubQueries w1).map roundChunks).flatten)
      (getTopK req) (le_of_lt (getTopK_pos req))
    have hq := Query_of_complex svc unmarshal req w plan w1 hplan hcomplex _ _ hexec _ hrerank
    refine ⟨_, _, _, hexec, hrerank, ?_, ?_, ?_, ?_, ?_⟩
    · intro e w3 hgen
      rw [hq, hgen]
    · intro answer w3 hgen
      rw [hq, hgen]
      exact ⟨_, rfl, rfl, rfl⟩
    · intro e
      rw [hq]
      split
      · intro h
        exact generation_ne_planning _ _ (GoResult.error.inj h)
      · intro h; cases h
    · intro e
      rw [hq]
      split
      · intro h
        exact generation_ne_execution _ _ (GoResult.error.inj h)
      · intro h; cases h
    · intro m
      rw [hq]
      split <;> (intro h; cases h)

/-- C9 on counting doubles. A failing planner call gives `planning failed: timeout`. With
a plan of three sub-questions whose rounds all fail at embedding, `Query` still succeeds:
three embedding calls, no retrieval, two generation calls, zero rounds, no source. -/
theorem Query_fails_by_stage_witness :
    AgenticRAGService.Query (countingRAG (fun _ => .error "timeout") [] []) toyUnmarshal
        { Question := "q", DocType := "", Language := "", TopK := none }
        { generate := 0, embed := 0, search := 0, base := 0 } =
      (.error "planning failed: timeout", { generate := 1, embed := 0, search := 0, base := 0 }) ∧
    AgenticRAGService.Query
        (countingRAG (fun n => if n = 0 then .ok "complex" else .ok "final answer")
          ["a", "b", "c"] [fragment 1 "one"]) toyUnmarshal
        { Question := "q", DocType := "", Language := "", TopK := some 4 }
        { generate := 0, embed := 0, search := 0, base := 0 } =
      (.ok { Answer := "final answer"
             Sources := []
             Metadata :=
               [("mode", .str "agentic_rag_v3"),
                ("is_simple", .bool false),
                ("question_type", .str "comparison"),
                ("sub_queries", .strs ["a", "b", "c"]),
                ("total_retrieved", .int 0),
                ("final_selected", .int 0),
                ("rounds", .int 0)] },
       { generate := 2, embed := 3, search := 0, base := 0 }) :=
  ⟨((Query_fails_by_stage (countingRAG (fun _ => .error "timeout") [] []) toyUnmarshal
      { Question := "q", DocType := "", Language := "", TopK := none }
      { generate := 0, embed := 0, search := 0, base := 0 }).1 "timeout" _ rfl).trans rfl,
   rfl⟩

/-! ## Volume triage -/

/-- C10: when embedding succeeds and the over-fetch retrieval succeeds with zero
candidates, `REFRAGService.Query` returns, without error, the fixed apology answer with an
empty expanded list and an empty compressed list, and the world it leaves is the one the
retrieval call left: the generation service is not called. -/
theorem REFRAG_Query_no_candidates {σ : Type} (s : REFRAGService σ) (std : GoStd)
    (req : REFRAGQueryRequest) (w : σ) (queryVector : List ℚ) (w1 w2 : σ)
    (chunks : List DocumentChunk)
    (hembed : s.embedderEmbed req.Question w = (.ok queryVector, w1))
    (hsearch : s.repoVectorSearch queryVector req.DocType req.Language
      (if req.OverFetchK = 0 then 100 else req.OverFetchK) w1 = (.ok chunks, w2))
    (hzero : chunks.length = 0) :
    REFRAGService.Query s std req w =
      (.ok { Answer := "抱歉，没有找到相关文档。"
             ExpandedChunks := []
             CompressedChunks := []
             Metadata :=
               [("chunks_found", .int 0),
                ("over_fetch_k", .int (if req.OverFetchK = 0 then 100 else req.OverFetchK))] },
       w2) := by
  simp only [REFRAGService.Query, hembed, hsearch, hzero, if_true]

/-- C10 on a counting double whose storage holds nothing: the apology answer, both lists
empty, one embedding call, one retrieval call, and a generation call count of zero. -/
theorem REFRAG_Query_no_candidates_witness :
    REFRAGService.Query (countingREFRAG []) toyStd
        { Question := "Go?", DocType := "", Language := "", OverFetchK := 0, ExpandK := 0,
          CompressionRatio := 0 }
        { generate := 0, embed := 0, search := 0, base := 0 } =
      (.ok { Answer := "抱歉，没有找到相关文档。"
             ExpandedChunks := []
             CompressedChunks := []
             Metadata := [("chunks_found", .int 0), ("over_fetch_k", .int 100)] },
       { generate := 0, embed := 1, search := 1, base := 0 }) :=
  REFRAG_Query_no_candidates (countingREFRAG []) toyStd
    { Question := "Go?", DocType := "", Language := "", OverFetchK := 0, ExpandK := 0,
      CompressionRatio := 0 }
    { generate := 0, embed := 0, search := 0, base := 0 } [] _ _ [] rfl rfl rfl

theorem foldl_selectStep (K : Int) (hK : 0 ≤ K) (ys : List CompressedChunk) :
    ∀ (n : Nat) (e c : List CompressedChunk),
      (ys.enumFrom n).foldl (selectStep K) (e, c) =
        (e ++ (ys.take (K.toNat - n)).map markExpanded, c ++ ys.drop (K.toNat - n)) := by
  induction ys with
  | nil => intro n e c; simp
  | cons y ys ih =>
    intro n e c
    rw [List.enumFrom_cons, List.foldl_cons]
    by_cases h : (n : Int) < K
    · have hstep : selectStep K (e, c) (n, y) = (e ++ [markExpanded y], c) := by
        simp [selectStep, h, markExpanded]
      have hn : K.toNat - n = (K.toNat - (n + 1)) + 1 := by omega
      rw [hstep, ih, hn, List.take_succ_cons, List.drop_succ_cons]
      simp
    · have hstep : selectStep K (e, c) (n, y) = (e, c ++ [y]) := by
        simp [selectStep, h]
      have hn : K.toNat - n = 0 := by omega
      have hn1 : K.toNat - (n + 1) = 0 := by omega
      rw [hstep, ih, hn, hn1]
      simp

theorem makeRefused_eq_true (std : GoStd) (held : Nat) (K : Int) :
    makeRefused std held K = true ↔ K < 0 ∨ (std.maxCap < K ∧ (held : Int) < K) := by
  simp [makeRefused]

theorem makeRefused_eq_false (std : GoStd) (held : Nat) (K : Int) :
    makeRefused std held K = false ↔ 0 ≤ K ∧ (K ≤ std.maxCap ∨ K ≤ (held : Int)) := by
  rw [← Bool.not_eq_true, makeRefused_eq_true]
  constructor
  · intro h
    constructor
    · by_contra hneg
      exact h (Or.inl (not_le.mp hneg))
    · by_cases hcap : K ≤ std.maxCap
      · exact Or.inl hcap
      · right
        by_contra hheld
        exact h (Or.inr ⟨not_le.mp hcap, not_le.mp hheld⟩)
  · rintro ⟨h0, hgrant⟩ (hneg | ⟨hcap, hheld⟩)
    · omega
    · rcases hgrant with h | h <;> omega

theorem selectAndExpand_refused (std : GoStd) (cs : List CompressedChunk) (K : Int)
    (h : makeRefused std cs.length K = true) : selectAndExpand std cs K = none := by
  simp only [selectAndExpand, h, if_true]

theorem selectAndExpand_eq (std : GoStd) (cs : List CompressedChunk) (K : Int)
    (hgrant : makeRefused std cs.length K = false) :
    selectAndExpand std cs K =
      some (((std.sortSlice byScoreDesc cs).take K.toNat).map markExpanded,
        (std.sortSlice byScoreDesc cs).drop K.toNat) := by
  have hK : 0 ≤ K := ((makeRefused_eq_false std cs.length K).mp hgrant).1
  have h := foldl_selectStep K hK (std.sortSlice byScoreDesc cs) 0 [] []
  simp only [selectAndExpand, hgrant, Bool.false_eq_true, if_false, List.enum]
  rw [show (fun a b : CompressedChunk => decide (a.Score > b.Score)) = byScoreDesc from rfl, h]
  simp

theorem byScoreDesc_sorted (std : GoStd) (hsort : SortSliceSpec std.sortSlice)
    (cs : List CompressedChunk) :
    (std.sortSlice byScoreDesc cs).Pairwise (fun a b => a.Score ≥ b.Score) := by
  have h := hsort.sorted byScoreDesc cs
    (by intro a; simp [byScoreDesc])
    (by
      intro a b c hab hbc
      simp only [byScoreDesc, decide_eq_true_eq] at *
      exact lt_trans hbc hab)
    (by
      intro a b c hab hbc
      simp only [byScoreDesc, decide_eq_false_iff_not, not_lt] at *
      exact le_trans hab hbc)
  refine h.imp ?_
  intro a b hba
  simp only [byScoreDesc, decide_eq_false_iff_not, not_lt] at hba
  exact hba

/-- C4: for an expand count `K` with `0 ≤ K ≤ len(cs)`, `selectAndExpand` returns
`K` expanded candidates, the two outputs together have as many candidates as the input,
and every expanded candidate scores at least as high as every compressed one. -/
theorem selectAndExpand_partitions_by_score (std : GoStd)
    (hsort : SortSliceSpec std.sortSlice) (cs : List CompressedChunk) (K : Int)
    (h0 : 0 ≤ K) (hK : K ≤ cs.length) :
    ∃ expanded compressed,
      selectAndExpand std cs K = some (expanded, compressed) ∧
      (expanded.length : Int) = K ∧
      expanded.length + compressed.length = cs.length ∧
      ∀ x ∈ expanded, ∀ y ∈ compressed, x.Score ≥ y.Score := by
  have hlen : (std.sortSlice byScoreDesc cs).length = cs.length :=
    (hsort.perm byScoreDesc cs).length_eq
  refine ⟨_, _, selectAndExpand_eq std cs K
    ((makeRefused_eq_false std cs.length K).mpr ⟨h0, Or.inr hK⟩), ?_, ?_, ?_⟩
  · rw [List.length_map, List.length_take, hlen]
    omega
  · rw [List.length_map, List.length_take, List.length_drop, hlen]
    omega
  · intro x hx y hy
    obtain ⟨x0, hx0, rfl⟩ := List.mem_map.mp hx
    have hp := byScoreDesc_sorted std hsort cs
    rw [← List.take_append_drop K.toNat (std.sortSlice byScoreDesc cs),
      List.pairwise_append] at hp
    exact hp.2.2 x0 hx0 y hy

theorem toyStd_sortSlice : SortSliceSpec toyStd.sortSlice where
  perm := fun less xs => List.perm_insertionSort _ xs
  sorted := by
    intro less xs hirr htrans hneg
    haveI : IsTotal CompressedChunk (fun a b => less b a = false) :=
      ⟨fun a b => by
        by_cases h1 : less b a = true
        · by_cases h2 : less a b = true
          · have := htrans a b a h2 h1
            rw [hirr a] at this
            cases this
          · right; simpa using h2
        · left; simpa using h1⟩
    haveI : IsTrans CompressedChunk (fun a b => less b a = false) :=
      ⟨fun a b c hab hbc => hneg c b a hbc hab⟩
    exact List.sorted_insertionSort (fun a b => less b a = false) xs

theorem fiveCandidates_flags : ∀ c ∈ fiveCandidates, c.IsExpanded = false := by
  intro c hc
  simp only [fiveCandidates, List.mem_cons, List.mem_singleton, List.not_mem_nil,
    or_false] at hc
  rcases hc with rfl | rfl | rfl | rfl | rfl <;> rfl

/-- C4 on the scores 0.9, 0.8, 0.7, 0.6, 0.5 with `K = 2`: two expanded candidates
and three compressed ones. -/
theorem selectAndExpand_partitions_by_score_witness :
    (0 : Int) ≤ 2 ∧ (2 : Int) ≤ fiveCandidates.length ∧
    ∃ expanded compressed,
      selectAndExpand toyStd fiveCandidates 2 = some (expanded, compressed) ∧
      expanded.length = 2 ∧ compressed.length = 3 := by
  have h0 : (0 : Int) ≤ 2 := by decide
  have hK : (2 : Int) ≤ fiveCandidates.length := by decide
  obtain ⟨e, c, hsel, he, hsum, _⟩ :=
    selectAndExpand_partitions_by_score toyStd toyStd_sortSlice fiveCandidates 2 h0 hK
  have hlen : fiveCandidates.length = 5 := rfl
  exact ⟨h0, hK, e, c, hsel, by omega, by omega⟩

/-- C5: on candidates whose flags are all false, `selectAndExpand` returns for every
`K ≥ 0` that `make` grants as a capacity, and whenever it returns, it has chosen a list
`kept` of candidates and returns them, with the flag set and nothing else changed, as the
expanded output; `kept` and the compressed output together are a rearrangement of the
input, so each input candidate lies in exactly one output; every expanded candidate has
its flag set, every compressed one has it clear, and the scores of the two outputs are
those of the input. -/
theorem selectAndExpand_flags_and_scores (std : GoStd)
    (hperm : ∀ less xs, (std.sortSlice less xs).Perm xs)
    (cs : List CompressedChunk) (K : Int)
    (hflags : ∀ c ∈ cs, c.IsExpanded = false) :
    (0 ≤ K → (K ≤ std.maxCap ∨ K ≤ (cs.length : Int)) →
      ∃ expanded compressed, selectAndExpand std cs K = some (expanded, compressed)) ∧
    (∀ expanded compressed, selectAndExpand std cs K = some (expanded, compressed) →
      0 ≤ K ∧
      ∃ kept,
        expanded = kept.map (fun x => { x with IsExpanded := true }) ∧
        (kept ++ compressed).Perm cs ∧
        (∀ x ∈ expanded, x.IsExpanded = true) ∧
        (∀ y ∈ compressed, y.IsExpanded = false) ∧
        ((expanded ++ compressed).map (fun x => x.Score)).Perm
          (cs.map (fun x => x.Score))) := by
  have hp : ((std.sortSlice byScoreDesc cs).take K.toNat ++
      (std.sortSlice byScoreDesc cs).drop K.toNat).Perm cs := by
    rw [List.take_append_drop]
    exact hperm byScoreDesc cs
  constructor
  · intro h0 hcap
    exact ⟨_, _, selectAndExpand_eq std cs K
      ((makeRefused_eq_false std cs.length K).mpr ⟨h0, hcap⟩)⟩
  · intro expanded compressed hsel
    cases hgrant : makeRefused std cs.length K with
    | true =>
      rw [selectAndExpand_refused std cs K hgrant] at hsel
      cases hsel
    | false =>
      rw [selectAndExpand_eq std cs K hgrant] at hsel
      have hpair := Option.some.inj hsel
      have he : expanded = ((std.sortSlice byScoreDesc cs).take K.toNat).map markExpanded :=
        (congrArg Prod.fst hpair).symm
      have hc : compressed = (std.sortSlice byScoreDesc cs).drop K.toNat :=
        (congrArg Prod.snd hpair).symm
      subst he hc
      refine ⟨((makeRefused_eq_false std cs.length K).mp hgrant).1,
        (std.sortSlice byScoreDesc cs).take K.toNat, rfl, hp, ?_, ?_, ?_⟩
      · intro x hx
        obtain ⟨x0, _, rfl⟩ := List.mem_map.mp hx
        rfl
      · intro y hy
        exact hflags y ((hperm byScoreDesc cs).subset (List.mem_of_mem_drop hy))
      · have hscore : (List.map markExpanded ((std.sortSlice byScoreDesc cs).take K.toNat) ++
            (std.sortSlice byScoreDesc cs).drop K.toNat).map (fun x => x.Score) =
            ((std.sortSlice byScoreDesc cs).take K.toNat ++
              (std.sortSlice byScoreDesc cs).drop K.toNat).map (fun x => x.Score) := by
          simp [markExpanded, Function.comp_def]
        rw [hscore]
        exact hp.map _

/-- C5 on the scores 0.9, 0.8, 0.7, 0.6, 0.5 with `K = 2`. -/
theorem selectAndExpand_flags_and_scores_witness :
    (∀ c ∈ fiveCandidates, c.IsExpanded = false) ∧
    ∃ expanded compressed,
      selectAndExpand toyStd fiveCandidates 2 = some (expanded, compressed) ∧
      (∀ x ∈ expanded, x.IsExpanded = true) ∧
      (∀ y ∈ compressed, y.IsExpanded = false) := by
  obtain ⟨hreturns, hinv⟩ :=
    selectAndExpand_flags_and_scores toyStd toyStd_sortSlice.perm fiveCandidates 2
      fiveCandidates_flags
  obtain ⟨e, c, hsel⟩ := hreturns (by decide) (Or.inl (by decide))
  obtain ⟨_, _, _, _, he, hc, _⟩ := hinv e c hsel
  exact ⟨fiveCandidates_flags, e, c, hsel, he, hc⟩

/-! ## Per-round width -/

theorem tdiv_two_nonpos (k : Int) (hk : k ≤ 0) : Int.tdiv k 2 ≤ 0 := by
  have h : Int.tdiv k 2 = -(Int.tdiv (-k) 2) := by
    rw [Int.neg_tdiv, neg_neg]
  rw [h]
  have := Int.tdiv_nonneg (a := -k) (b := 2) (by omega) (by decide)
  omega

/-- C13: the width computed for a round is `max(3, topK / 2)`, with the truncating
division, for every integer `topK` the caller specified, and 3 when `TopK` is unset; it is
at least 3; and it is the limit handed to the retrieval call of a round whose embedding
succeeded. -/
theorem roundTopK_is_max (req : RAGQueryRequest) :
    roundTopK req =
      (match req.TopK with
       | some k => Max.max 3 (Int.tdiv k 2)
       | none => 3) ∧
    3 ≤ roundTopK req ∧
    (∀ (σ : Type) (svc : RAGService σ) (query : String) (w : σ) (v : List ℚ) (w1 : σ),
      svc.embedderEmbed query w = (.ok v, w1) →
      executeRound svc query req w =
        svc.repoVectorSearch v req.DocType req.Language (roundTopK req) w1) := by
  refine ⟨?_, ?_, ?_⟩
  · unfold roundTopK
    cases req.TopK with
    | none => rfl
    | some k =>
      simp only
      by_cases hk : k > 0
      · rw [if_pos hk]
        by_cases h3 : Int.tdiv k 2 < 3
        · rw [if_pos h3, max_eq_left (le_of_lt h3)]
        · rw [if_neg h3, max_eq_right (not_lt.mp h3)]
      · rw [if_neg hk, max_eq_left]
        have := tdiv_two_nonpos k (not_lt.mp hk)
        omega
  · unfold roundTopK
    cases req.TopK with
    | none => simp
    | some k =>
      simp only
      by_cases hk : k > 0
      · rw [if_pos hk]
        by_cases h3 : Int.tdiv k 2 < 3
        · rw [if_pos h3]
        · rw [if_neg h3]; exact not_lt.mp h3
      · rw [if_neg hk]
  · intro σ svc query w v w1 hembed
    simp only [executeRound, hembed]

/-- C13 on a counting double and `TopK = 9`: the round asks the storage for
`max(3, 9 / 2) = 4` results; with `TopK = -7` and with `TopK = 1` it asks for 3. -/
theorem roundTopK_is_max_witness :
    roundTopK { Question := "q", DocType := "", Language := "", TopK := some 9 } = 4 ∧
    roundTopK { Question := "q", DocType := "", Language := "", TopK := some (-7) } = 3 ∧
    roundTopK { Question := "q", DocType := "", Language := "", TopK := some 1 } = 3 ∧
    executeRound (countingRAG (fun _ => .ok "") [] []) "a"
        { Question := "q", DocType := "", Language := "", TopK := some 9 }
        { generate := 0, embed := 0, search := 0, base := 0 } =
      (countingRAG (fun _ => .ok "") [] []).repoVectorSearch [] "" "" 4
        { generate := 0, embed := 1, search := 0, base := 0 } :=
  ⟨by decide, by decide, by decide,
   (roundTopK_is_max { Question := "q", DocType := "", Language := "", TopK := some 9 }).2.2
     Calls (countingRAG (fun _ => .ok "") [] []) "a"
     { generate := 0, embed := 0, search := 0, base := 0 } [] _ rfl⟩

/-! ## Compression -/

/-- C12: for a ratio other than zero, `compressChunks` returns one candidate per fragment,
in the order of the fragments, with `TokenCount = len(content) / 4`,
`CompressedTokenCount = max(1, TokenCount / R)` (truncating divisions), the first
`min(32, len(embedding))` components of the embedding as compressed vector, score 0 and
the flag clear. -/
theorem compressChunks_shape (chunks : List DocumentChunk) (queryVector : List ℚ) (R : Int)
    (hR : R ≠ 0) :
    compressChunks chunks queryVector R =
      some (chunks.map (fun chunk =>
        { OriginalChunk := chunk
          CompressedVector := chunk.Embedding.take (Min.min 32 chunk.Embedding.length)
          Score := 0
          IsExpanded := false
          TokenCount := Int.tdiv (strLen chunk.Content) 4
          CompressedTokenCount :=
            Max.max 1 (Int.tdiv (Int.tdiv (strLen chunk.Content) 4) R) })) := by
  induction chunks with
  | nil => rfl
  | cons chunk rest ih =>
    rw [compressChunks, if_neg hR, ih, Option.map_some', List.map_cons]
    congr 2
    unfold compressChunk
    have hvec : (RagApp.min 32 (chunk.Embedding.length : Int)).toNat =
        Min.min 32 chunk.Embedding.length := by
      unfold RagApp.min
      split <;> omega
    have hmax : ∀ x : Int, (if x < 1 then 1 else x) = Max.max 1 x := by
      intro x
      by_cases hx : x < 1
      · rw [if_pos hx, max_eq_left (le_of_lt hx)]
      · rw [if_neg hx, max_eq_right (not_lt.mp hx)]
    simp only [hvec, hmax]

/-- C12 on a fragment of forty bytes and ratio 4: ten tokens, two compressed tokens. -/
theorem compressChunks_shape_witness :
    (4 : Int) ≠ 0 ∧
    compressChunks [fortyBytes] [] 4 =
      some [{ OriginalChunk := fortyBytes
              CompressedVector := [1, 2, 3]
              Score := 0
              IsExpanded := false
              TokenCount := 10
              CompressedTokenCount := 2 }] :=
  ⟨by decide, (compressChunks_shape [fortyBytes] [] 4 (by decide)).trans rfl⟩

/-! ## Scoring -/

theorem extractKeywords_eq (std : GoStd) (text : String) :
    extractKeywords std text =
      (fields (replaceAll (replaceAll (replaceAll (replaceAll (replaceAll (replaceAll
        (replaceAll (replaceAll ⟨text.data.map std.toLower⟩ ',' ' ') '.' ' ') '?' ' ')
        '!' ' ') '。' ' ') '，' ' ') '？' ' ') '！' ' ')).foldl addKeyword [] := rfl

theorem foldl_addKeyword_nodup (parts : List String) :
    ∀ words : List String, words.Nodup → (parts.foldl addKeyword words).Nodup := by
  induction parts with
  | nil => intro words h; exact h
  | cons part rest ih =>
    intro words h
    rw [List.foldl_cons]
    apply ih
    unfold addKeyword
    split
    · split
      · exact h
      · rename_i hnot
        have hmem : part ∉ words := by simpa using hnot
        exact List.Nodup.append h (List.nodup_singleton part) (by simpa using hmem)
    · exact h

theorem extractKeywords_nodup (std : GoStd) (text : String) :
    (extractKeywords std text).Nodup := by
  rw [extractKeywords_eq]
  exact foldl_addKeyword_nodup _ [] List.nodup_nil

theorem foldl_matchCount (contentWords : List String) (queryWords : List String) :
    ∀ n : Int,
      queryWords.foldl (fun n word => if contentWords.contains word then n + 1 else n) n =
        n + ((queryWords.filter (fun word => contentWords.contains word)).length : Int) := by
  induction queryWords with
  | nil => intro n; simp
  | cons word rest ih =>
    intro n
    rw [List.foldl_cons, ih]
    by_cases h : contentWords.contains word = true
    · simp only [h, if_true, List.filter_cons_of_pos, List.length_cons]
      push_cast; ring
    · simp only [h, Bool.false_eq_true, if_false, List.filter_cons_of_neg, not_false_eq_true]

theorem card_inter_toFinset (Q C : List String) (hQ : Q.Nodup) :
    (Q.toFinset ∩ C.toFinset).card =
      (Q.filter (fun word => C.contains word)).length := by
  have h : Q.toFinset ∩ C.toFinset = (Q.filter (fun word => C.contains word)).toFinset := by
    ext x
    simp [List.mem_filter]
  rw [h, List.toFinset_card_of_nodup (hQ.filter _)]

theorem calculateKeywordMatch_eq (Q C : List String) (hQ : Q.Nodup) :
    calculateKeywordMatch Q C = overlapRatio Q.toFinset C.toFinset := by
  unfold calculateKeywordMatch overlapRatio
  rw [List.toFinset_card_of_nodup hQ]
  by_cases h : Q.length = 0
  · simp [h]
  · rw [if_neg h, if_neg h, foldl_matchCount, card_inter_toFinset Q C hQ]
    simp

theorem scoreChunk_eq (std : GoStd) (questionWords : List String)
    (hQ : questionWords.Nodup) (chunk : CompressedChunk) :
    scoreChunk std questionWords chunk =
      { chunk with
        Score := 0.5 +
          0.3 * overlapRatio questionWords.toFinset
            (extractKeywords std chunk.OriginalChunk.Content).toFinset +
          shapeTerm (strLen chunk.OriginalChunk.Content) +
          metaTerm chunk.OriginalChunk.Metadata } := by
  simp only [scoreChunk]
  rw [calculateKeywordMatch_eq _ _ hQ]
  congr 1
  unfold shapeTerm metaTerm
  by_cases hm : chunk.OriginalChunk.Metadata = ""
  · by_cases h1 : 100 ≤ strLen chunk.OriginalChunk.Content ∧
        strLen chunk.OriginalChunk.Content ≤ 500
    · simp only [hm, h1, ge_iff_le, and_self, if_true, ne_eq, not_true_eq_false, if_false]
      ring
    · by_cases h2 : strLen chunk.OriginalChunk.Content < 50
      · simp only [hm, h1, h2, ge_iff_le, if_true, if_false, ne_eq, not_true_eq_false]
        ring
      · simp only [hm, h1, h2, ge_iff_le, if_true, if_false, ne_eq, not_true_eq_false]
        ring
  · by_cases h1 : 100 ≤ strLen chunk.OriginalChunk.Content ∧
        strLen chunk.OriginalChunk.Content ≤ 500
    · simp only [hm, h1, ge_iff_le, and_self, if_true, ne_eq, not_false_eq_true, if_false]
      ring
    · by_cases h2 : strLen chunk.OriginalChunk.Content < 50
      · simp only [hm, h1, h2, ge_iff_le, if_true, if_false, ne_eq, not_false_eq_true]
        ring
      · simp only [hm, h1, h2, ge_iff_le, if_true, if_false, ne_eq, not_false_eq_true]
        ring

/-- C11 fails with the content length counted in characters: the first content of
`TestREFRAGService_ScoreChunks` has 28 characters and 62 bytes and shares one of the two
keywords of the question; `scoreChunks` gives it the score 0.65, with a shape term of 0
for 62 bytes, and the formula on characters gives 0.55, with a shape term of -0.1 for 28
characters. -/
theorem scoreChunks_counts_bytes :
    goCandidate.OriginalChunk.Content.length = 28 ∧
    strLen goCandidate.OriginalChunk.Content = 62 ∧
    (scoreChunks asciiStd [goCandidate] scoreQuestion).map (fun c => c.Score) = [0.65] ∧
    scoreByCharacters asciiStd scoreQuestion goCandidate = 0.55 := by
  refine ⟨by decide, by decide, by with_unfolding_all rfl, ?_⟩
  have hq : extractKeywords asciiStd scoreQuestion = ["go", "语言的特点是什么"] := by decide
  have hc : extractKeywords asciiStd goCandidate.OriginalChunk.Content =
      ["go", "语言是一种开源的编程语言", "由", "google", "开发"] := by decide
  have hinter : (["go", "语言的特点是什么"] : List String).toFinset ∩
      (["go", "语言是一种开源的编程语言", "由", "google", "开发"] : List String).toFinset =
      {"go"} := by decide
  have hcard : (["go", "语言的特点是什么"] : List String).toFinset.card = 2 := by decide
  have hlen : (goCandidate.OriginalChunk.Content.length : Int) = 28 := by decide
  have hmeta : goCandidate.OriginalChunk.Metadata = "" := rfl
  unfold scoreByCharacters overlapRatio shapeTerm metaTerm
  rw [hq, hc, hinter, hcard, hlen, hmeta]
  norm_num

/-- C11 as amended: `scoreChunks` gives every candidate, whatever the other candidates and
its place in the list, the score `0.5 + 0.3 * (|Q ∩ C| / |Q|) + shape + meta`: `Q` and `C`
are the keyword sets of the question and of the candidate's content (the extracted keys
are pairwise distinct, and the ratio counts as 0 when `Q` is empty), `shape` is `+0.1` for
a content length in bytes in `[100, 500]`, `-0.1` below 50 bytes and 0 otherwise, and
`meta` is `+0.1` for a non-empty metadata string and 0 otherwise. Nothing but the score is
changed. -/
theorem scoreChunks_formula (std : GoStd) (question : String) (chunks : List CompressedChunk) :
    (extractKeywords std question).Nodup ∧
    (∀ c ∈ chunks, (extractKeywords std c.OriginalChunk.Content).Nodup) ∧
    scoreChunks std chunks question =
      chunks.map (fun c =>
        { c with
          Score := 0.5 +
            0.3 * (if (extractKeywords std question).toFinset.card = 0 then 0
              else ((((extractKeywords std question).toFinset ∩
                  (extractKeywords std c.OriginalChunk.Content).toFinset).card : ℚ) /
                ((extractKeywords std question).toFinset.card : ℚ))) +
            (if 100 ≤ strLen c.OriginalChunk.Content ∧ strLen c.OriginalChunk.Content ≤ 500
              then 0.1
              else if strLen c.OriginalChunk.Content < 50 then -0.1 else 0) +
            (if c.OriginalChunk.Metadata = "" then 0 else 0.1) }) := by
  refine ⟨extractKeywords_nodup std question,
    fun c _ => extractKeywords_nodup std _, ?_⟩
  unfold scoreChunks
  apply List.map_congr_left
  intro c _
  rw [scoreChunk_eq std _ (extractKeywords_nodup std question) c]
  rfl

/-! ## Keywords and excerpts -/

theorem foldl_addKeyword_long (parts : List String) :
    ∀ words : List String, (∀ k ∈ words, strLen k > 1) →
      ∀ k ∈ parts.foldl addKeyword words, strLen k > 1 := by
  induction parts with
  | nil => intro words h; exact h
  | cons part rest ih =>
    intro words h
    rw [List.foldl_cons]
    apply ih
    unfold addKeyword
    split
    · split
      · exact h
      · rename_i hlen _
        intro k hk
        rcases List.mem_append.mp hk with hk | hk
        · exact h k hk
        · rw [List.mem_singleton.mp hk]; exact hlen
    · exact h

/-- C15, the code at the question of the repository's own test: the token `和` is one
character and is returned as a keyword, because the test `len(part) > 1` counts its three
bytes. What the code does discard are the tokens of one byte: every keyword returned has
more than one byte. -/
theorem extractKeywords_keeps_one_wide_character :
    extractKeywords asciiStd testQuestion = ["go", "和", "rust", "在并发编程上有什么区别"] ∧
    "和".length = 1 ∧ strLen "和" = 3 ∧
    (∀ (std : GoStd) (text : String), ∀ k ∈ extractKeywords std text, strLen k > 1) := by
  refine ⟨by decide, by decide, by decide, ?_⟩
  intro std text
  rw [extractKeywords_eq]
  exact foldl_addKeyword_long _ [] (by simp)

/-- C16, the code at a content of the repository's own test: the content has 31
characters, at most 50, and yet the excerpt is cut, after 50 bytes; the cut falls inside
the character `数`, whose first byte `0xE6` ends the excerpt before the dots. In general
the excerpt is the content when it has at most 50 bytes, and its first 50 bytes followed
by the dots otherwise. -/
theorem summaryOf_cuts_inside_character :
    pythonContent.length = 31 ∧
    summaryOf pythonContent =
      utf8 "Python 是一种高级编程语言，广泛用于" ++ [0xe6] ++ utf8 "..." ∧
    utf8 "数" = [0xe6, 0x95, 0xb0] ∧
    (∀ content : String, summaryOf content =
      if strLen content ≤ 50 then utf8 content else (utf8 content).take 50 ++ utf8 "...") := by
  refine ⟨by decide, by decide, by decide, ?_⟩
  intro content
  unfold summaryOf strLen
  by_cases h : (utf8 content).length > 50
  · have h2 : ¬ ((utf8 content).length : Int) ≤ 50 := by omega
    simp only [h, if_true, h2, if_false]
  · have h2 : ((utf8 content).length : Int) ≤ 50 := by omega
    simp only [h, if_false, h2, if_true]

/-! ## The hybrid prompt -/

theorem writeExpanded_eq (std : GoStd) (cs : List CompressedChunk) :
    ∀ (i : Nat) (sb : Bytes),
      writeExpanded std i cs sb = sb ++ numberedFrom (expandedEntry std) i cs := by
  induction cs with
  | nil => intro i sb; simp [writeExpanded, numberedFrom]
  | cons c cs ih =>
    intro i sb
    rw [writeExpanded, ih]
    simp [numberedFrom, expandedEntry, List.enumFrom_cons, List.append_assoc]

theorem writeSummaries_eq (std : GoStd) (cs : List CompressedChunk) :
    ∀ (i : Nat) (sb : Bytes),
      writeSummaries std i cs sb = sb ++ numberedFrom (summaryLine std) i cs := by
  induction cs with
  | nil => intro i sb; simp [writeSummaries, numberedFrom]
  | cons c cs ih =>
    intro i sb
    rw [writeSummaries, ih]
    simp [numberedFrom, summaryLine, List.enumFrom_cons, List.append_assoc]

theorem toString_sub_ten (n : Nat) (h : 10 < n) :
    toString ((n : Int) - 10) = toString (n - 10) := by
  have : (n : Int) - 10 = ((n - 10 : Nat) : Int) := by omega
  rw [this]
  rfl

/-- C17: the prompt is the opening line, the core section, the background section, the
question and the closing instruction, in this order. The core section is empty when there
is no expanded candidate. The background section is empty when there is no compressed
candidate; otherwise it holds its heading with the total count, a note, one line for each
of the first ten compressed candidates (all of them when there are fewer), in order and
numbered from 1, and, exactly when there are more than ten, a last line that reports how
many more than ten there are. -/
theorem buildHybridPrompt_sections (std : GoStd) (question : String)
    (expanded compressed : List CompressedChunk) :
    buildHybridPrompt std question expanded compressed =
      utf8 "请根据以下文档内容回答问题。\n\n" ++
      (if expanded = [] then []
        else utf8 "【核心文档】（完整内容）：\n" ++
          ((expanded.enum.map (fun ic => expandedEntry std (ic.1 + 1) ic.2)).flatten)) ++
      (if compressed = [] then []
        else utf8 ("\n【背景文档】（已压缩，共 " ++ toString compressed.length ++ " 个）：\n") ++
          utf8 "以下文档与问题相关，但已压缩以节省 token。如需详细信息，请参考核心文档。\n" ++
          (((compressed.take 10).enum.map (fun ic => summaryLine std (ic.1 + 1) ic.2)).flatten) ++
          (if 10 < compressed.length then
            utf8 ("... 还有 " ++ toString (compressed.length - 10) ++ " 个相关文档已压缩\n")
          else [])) ++
      utf8 ("\n问题：" ++ question ++ "\n\n") ++
      utf8 "请基于上述文档内容进行回答。优先使用【核心文档】中的信息，【背景文档】提供补充上下文。" ∧
    (compressed.take 10).length = Min.min 10 compressed.length := by
  refine ⟨?_, by rw [List.length_take]⟩
  have hexp : (if expanded.length > 0 then
        writeExpanded std 0 expanded
          (([] : Bytes) ++ utf8 "请根据以下文档内容回答问题。\n\n" ++ utf8 "【核心文档】（完整内容）：\n")
      else ([] : Bytes) ++ utf8 "请根据以下文档内容回答问题。\n\n") =
      utf8 "请根据以下文档内容回答问题。\n\n" ++
      (if expanded = [] then []
        else utf8 "【核心文档】（完整内容）：\n" ++
          ((expanded.enum.map (fun ic => expandedEntry std (ic.1 + 1) ic.2)).flatten)) := by
    cases expanded with
    | nil => simp
    | cons c cs =>
      rw [if_pos (show (c :: cs).length > 0 by simp), if_neg (List.cons_ne_nil c cs),
        writeExpanded_eq]
      simp [numberedFrom, List.enum, List.append_assoc]
  have htake : compressed.take (RagApp.min 10 (compressed.length : Int)).toNat =
      compressed.take 10 := by
    unfold RagApp.min
    split
    · rfl
    · rename_i h
      rw [Int.toNat_ofNat, List.take_of_length_le (le_refl _), List.take_of_length_le]
      omega
  have hgt : ((compressed.length : Int) > RagApp.min 10 (compressed.length : Int)) ↔
      10 < compressed.length := by
    unfold RagApp.min
    split <;> omega
  have hsub : 10 < compressed.length →
      (compressed.length : Int) - RagApp.min 10 (compressed.length : Int) =
        (compressed.length : Int) - 10 := by
    intro h
    unfold RagApp.min
    rw [if_pos (by omega)]
  simp only [buildHybridPrompt]
  rw [hexp]
  cases compressed with
  | nil => simp
  | cons c cs =>
    rw [if_pos (show (c :: cs).length > 0 by simp), if_neg (List.cons_ne_nil c cs), htake,
      writeSummaries_eq]
    by_cases h10 : 10 < (c :: cs).length
    · rw [if_pos (hgt.mpr h10), if_pos h10, hsub h10, toString_sub_ten _ h10]
      simp [numberedFrom, List.enum, List.append_assoc]
    · rw [if_neg (fun h => h10 (hgt.mp h)), if_neg h10]
      simp [numberedFrom, List.enum, List.append_assoc]

/-! ## The triage query -/

theorem effectiveRatio_ne_zero (req : REFRAGQueryRequest) : effectiveRatio req ≠ 0 := by
  unfold effectiveRatio
  by_cases h : req.CompressionRatio = 0
  · rw [if_pos h]; decide
  · rw [if_neg h]; exact h

theorem compressChunks_eq_map (chunks : List DocumentChunk) (queryVector : List ℚ) (R : Int)
    (hR : R ≠ 0) :
    compressChunks chunks queryVector R = some (chunks.map (fun c => compressChunk c R)) := by
  induction chunks with
  | nil => rfl
  | cons chunk rest ih => rw [compressChunks, if_neg hR, ih]; rfl

theorem foldl_add_eq_sum {α : Type} (f : α → Int) (xs : List α) :
    ∀ n : Int, xs.foldl (fun t c => t + f c) n = n + (xs.map f).sum := by
  induction xs with
  | nil => intro n; simp
  | cons x xs ih => intro n; rw [List.foldl_cons, ih]; simp [add_assoc]

theorem REFRAG_Query_of_search_error {σ : Type} (s : REFRAGService σ) (std : GoStd)
    (req : REFRAGQueryRequest) (w : σ) (queryVector : List ℚ) (w1 w2 : σ) (err : String)
    (hembed : s.embedderEmbed req.Question w = (.ok queryVector, w1))
    (hsearch : s.repoVectorSearch queryVector req.DocType req.Language
      (effectiveOverFetchK req) w1 = (.error err, w2)) :
    REFRAGService.Query s std req w = (.error ("search failed: " ++ err), w2) := by
  unfold effectiveOverFetchK at hsearch
  simp only [REFRAGService.Query, hembed, hsearch]

theorem REFRAG_Query_of_nothing {σ : Type} (s : REFRAGService σ) (std : GoStd)
    (req : REFRAGQueryRequest) (w : σ) (queryVector : List ℚ) (w1 w2 : σ)
    (chunks : List DocumentChunk)
    (hembed : s.embedderEmbed req.Question w = (.ok queryVector, w1))
    (hsearch : s.repoVectorSearch queryVector req.DocType req.Language
      (effectiveOverFetchK req) w1 = (.ok chunks, w2))
    (hzero : chunks = []) :
    REFRAGService.Query s std req w =
      (.ok { Answer := "抱歉，没有找到相关文档。"
             ExpandedChunks := []
             CompressedChunks := []
             Metadata :=
               [("chunks_found", .int 0), ("over_fetch_k", .int (effectiveOverFetchK req))] },
       w2) := by
  unfold effectiveOverFetchK at hsearch
  subst hzero
  simp only [REFRAGService.Query, hembed, hsearch, List.length_nil, if_true, effectiveOverFetchK]

theorem length_scored (std : GoStd) (chunks : List DocumentChunk) (R : Int)
    (question : String) :
    (scoreChunks std (chunks.map (fun c => compressChunk c R)) question).length =
      chunks.length := by
  simp [scoreChunks]

theorem REFRAG_Query_of_refused {σ : Type} (s : REFRAGService σ) (std : GoStd)
    (req : REFRAGQueryRequest) (w : σ) (queryVector : List ℚ) (w1 w2 : σ)
    (chunks : List DocumentChunk)
    (hembed : s.embedderEmbed req.Question w = (.ok queryVector, w1))
    (hsearch : s.repoVectorSearch queryVector req.DocType req.Language
      (effectiveOverFetchK req) w1 = (.ok chunks, w2))
    (hfound : chunks ≠ [])
    (hK : makeRefused std chunks.length (effectiveExpandK req) = true) :
    REFRAGService.Query s std req w = (.panic "makeslice: cap out of range", w2) := by
  have hlen : ¬ chunks.length = 0 := fun h => hfound (List.length_eq_zero.mp h)
  have hcompress := compressChunks_eq_map chunks queryVector (effectiveRatio req)
    (effectiveRatio_ne_zero req)
  have hselect := selectAndExpand_refused std
    (scoreChunks std (chunks.map (fun c => compressChunk c (effectiveRatio req))) req.Question)
    (effectiveExpandK req) (by rw [length_scored]; exact hK)
  unfold effectiveOverFetchK at hsearch
  unfold effectiveRatio at hcompress hselect
  unfold effectiveExpandK at hselect
  simp only [REFRAGService.Query, hembed, hsearch, hlen, if_false, hcompress, hselect]

theorem REFRAG_Query_of_found {σ : Type} (s : REFRAGService σ) (std : GoStd)
    (req : REFRAGQueryRequest) (w : σ) (queryVector : List ℚ) (w1 w2 : σ)
    (chunks : List DocumentChunk)
    (hembed : s.embedderEmbed req.Question w = (.ok queryVector, w1))
    (hsearch : s.repoVectorSearch queryVector req.DocType req.Language
      (effectiveOverFetchK req) w1 = (.ok chunks, w2))
    (hfound : chunks ≠ [])
    (hK : makeRefused std chunks.length (effectiveExpandK req) = false) :
    REFRAGService.Query s std req w =
      match s.llmGenerate (buildHybridPrompt std req.Question (triageExpanded std req chunks)
          (triageCompressed std req chunks)) w2 with
      | (.error err, w3) => (.error ("llm generation failed: " ++ err), w3)
      | (.ok answer, w3) =>
        (.ok { Answer := answer
               ExpandedChunks := triageExpanded std req chunks
               CompressedChunks := triageCompressed std req chunks
               Metadata :=
                 [("chunks_found", .int chunks.length),
                  ("expanded_count", .int (triageExpanded std req chunks).length),
                  ("compressed_count", .int (triageCompressed std req chunks).length),
                  ("over_fetch_k", .int (effectiveOverFetchK req)),
                  ("expand_k", .int (effectiveExpandK req)),
                  ("compression_ratio", .int (effectiveRatio req)),
                  ("total_tokens",
                    .int ((triageExpanded std req chunks).map (fun c => c.TokenCount)).sum),
                  ("compressed_tokens",
                    .int ((triageCompressed std req chunks).map
                      (fun c => c.CompressedTokenCount)).sum),
                  ("token_reduction", .str (std.fmtPercent1
                    (if ((triageExpanded std req chunks).map (fun c => c.TokenCount)).sum +
                        ((triageCompressed std req chunks).map
                          (fun c => c.CompressedTokenCount)).sum = 0 then none
                     else some
                      (((((triageCompressed std req chunks).map
                          (fun c => c.CompressedTokenCount)).sum : Int) : ℚ) /
                        (((((triageExpanded std req chunks).map (fun c => c.TokenCount)).sum +
                          ((triageCompressed std req chunks).map
                            (fun c => c.CompressedTokenCount)).sum : Int)) : ℚ) * 100))))] },
         w3) := by
  have hlen : ¬ chunks.length = 0 := fun h => hfound (List.length_eq_zero.mp h)
  have hcompress := compressChunks_eq_map chunks queryVector (effectiveRatio req)
    (effectiveRatio_ne_zero req)
  have hselect := selectAndExpand_eq std
    (scoreChunks std (chunks.map (fun c => compressChunk c (effectiveRatio req))) req.Question)
    (effectiveExpandK req) (by rw [length_scored]; exact hK)
  unfold effectiveOverFetchK at hsearch
  unfold effectiveRatio at hcompress hselect
  unfold effectiveExpandK at hselect
  simp only [REFRAGService.Query, hembed, hsearch, hlen, if_false, hcompress, hselect,
    foldl_add_eq_sum, zero_add]
  rfl

theorem length_sortedCandidates (std : GoStd)
    (hperm : ∀ less xs, (std.sortSlice less xs).Perm xs)
    (req : REFRAGQueryRequest) (chunks : List DocumentChunk) :
    (sortedCandidates std req chunks).length = chunks.length := by
  unfold sortedCandidates
  rw [(hperm _ _).length_eq]
  simp [scoreChunks]

theorem REFRAG_Query_ok_cases {σ : Type} (s : REFRAGService σ) (std : GoStd)
    (req : REFRAGQueryRequest) (w : σ) (queryVector : List ℚ) (w1 w2 : σ)
    (chunks : List DocumentChunk)
    (hembed : s.embedderEmbed req.Question w = (.ok queryVector, w1))
    (hsearch : s.repoVectorSearch queryVector req.DocType req.Language
      (effectiveOverFetchK req) w1 = (.ok chunks, w2))
    (hfound : chunks ≠ [])
    (resp : REFRAGQueryResponse) (w3 : σ)
    (hq : REFRAGService.Query s std req w = (.ok resp, w3)) :
    0 ≤ effectiveExpandK req ∧
    resp.ExpandedChunks = triageExpanded std req chunks ∧
    resp.CompressedChunks = triageCompressed std req chunks ∧
    resp.Metadata.lookup "chunks_found" = some (.int chunks.length) ∧
    resp.Metadata.lookup "expanded_count" =
      some (.int (triageExpanded std req chunks).length) ∧
    resp.Metadata.lookup "compressed_count" =
      some (.int (triageCompressed std req chunks).length) ∧
    resp.Metadata.lookup "over_fetch_k" = some (.int (effectiveOverFetchK req)) ∧
    resp.Metadata.lookup "expand_k" = some (.int (effectiveExpandK req)) ∧
    resp.Metadata.lookup "compression_ratio" = some (.int (effectiveRatio req)) ∧
    resp.Metadata.lookup "total_tokens" =
      some (.int ((triageExpanded std req chunks).map (fun c => c.TokenCount)).sum) ∧
    resp.Metadata.lookup "compressed_tokens" =
      some (.int ((triageCompressed std req chunks).map
        (fun c => c.CompressedTokenCount)).sum) := by
  cases hK : makeRefused std chunks.length (effectiveExpandK req) with
  | false =>
    have h := REFRAG_Query_of_found s std req w queryVector w1 w2 chunks hembed hsearch
      hfound hK
    rw [h] at hq
    split at hq
    · cases hq
    · have hresp := (GoResult.ok.inj (Prod.mk.inj hq).1).symm
      subst hresp
      exact ⟨((makeRefused_eq_false std chunks.length _).mp hK).1, rfl, rfl, rfl, rfl, rfl,
        rfl, rfl, rfl, rfl, rfl⟩
  | true =>
    have h := REFRAG_Query_of_refused s std req w queryVector w1 w2 chunks hembed hsearch
      hfound hK
    rw [h] at hq
    cases hq

/-- C19 fails for a request whose retrieval finds nothing: the response reports the
over-fetch width in effect, and neither an expand count nor a compression ratio. -/
theorem REFRAG_Query_no_candidates_omits_parameters :
    REFRAGService.Query (countingREFRAG []) toyStd plainRequest
        { generate := 0, embed := 0, search := 0, base := 0 } =
      (.ok { Answer := "抱歉，没有找到相关文档。"
             ExpandedChunks := []
             CompressedChunks := []
             Metadata := [("chunks_found", .int 0), ("over_fetch_k", .int 100)] },
       { generate := 0, embed := 1, search := 1, base := 0 }) ∧
    List.lookup "expand_k" [("chunks_found", MetaValue.int 0), ("over_fetch_k", .int 100)] =
      none ∧
    List.lookup "compression_ratio"
      [("chunks_found", MetaValue.int 0), ("over_fetch_k", .int 100)] = none :=
  ⟨REFRAG_Query_of_nothing (countingREFRAG []) toyStd plainRequest
      { generate := 0, embed := 0, search := 0, base := 0 } []
      { generate := 0, embed := 1, search := 0, base := 0 }
      { generate := 0, embed := 1, search := 1, base := 0 } [] rfl rfl rfl,
   rfl, rfl⟩

/-- C19 as amended: after a successful embedding, the retrieval call is made with the
limit 100 when `OverFetchK` is 0 and `OverFetchK` otherwise. Its failure is the failure of
`Query`; when it finds nothing, the response reports that limit and no other parameter;
when it finds candidates, `Query` compresses them with the ratio 16 when
`CompressionRatio` is 0 and `CompressionRatio` otherwise, which is never 0, so that the
compression returns, partitions them with the expand count 5 when `ExpandK` is 0 and
`ExpandK` otherwise, and reports these three values in the metadata of its response. -/
theorem REFRAG_Query_effective_parameters {σ : Type} (s : REFRAGService σ) (std : GoStd)
    (req : REFRAGQueryRequest) (w : σ) (queryVector : List ℚ) (w1 : σ)
    (hembed : s.embedderEmbed req.Question w = (.ok queryVector, w1)) :
    (∀ err w2,
      s.repoVectorSearch queryVector req.DocType req.Language
        (if req.OverFetchK = 0 then 100 else req.OverFetchK) w1 = (.error err, w2) →
      REFRAGService.Query s std req w = (.error ("search failed: " ++ err), w2)) ∧
    (∀ w2,
      s.repoVectorSearch queryVector req.DocType req.Language
        (if req.OverFetchK = 0 then 100 else req.OverFetchK) w1 = (.ok [], w2) →
      REFRAGService.Query s std req w =
        (.ok { Answer := "抱歉，没有找到相关文档。"
               ExpandedChunks := []
               CompressedChunks := []
               Metadata :=
                 [("chunks_found", .int 0),
                  ("over_fetch_k",
                    .int (if req.OverFetchK = 0 then 100 else req.OverFetchK))] },
         w2)) ∧
    (∀ chunks w2,
      s.repoVectorSearch queryVector req.DocType req.Language
        (if req.OverFetchK = 0 then 100 else req.OverFetchK) w1 = (.ok chunks, w2) →
      chunks ≠ [] →
      (if req.CompressionRatio = 0 then 16 else req.CompressionRatio) ≠ 0 ∧
      compressChunks chunks queryVector
          (if req.CompressionRatio = 0 then 16 else req.CompressionRatio) =
        some (chunks.map (fun c =>
          compressChunk c (if req.CompressionRatio = 0 then 16 else req.CompressionRatio))) ∧
      REFRAGService.Query s std req w =
        match selectAndExpand std
          (scoreChunks std
            (chunks.map (fun c =>
              compressChunk c (if req.CompressionRatio = 0 then 16 else req.CompressionRatio)))
            req.Question)
          (if req.ExpandK = 0 then 5 else req.ExpandK) with
        | none => (.panic "makeslice: cap out of range", w2)
        | some (expanded, compressed) =>
          match s.llmGenerate (buildHybridPrompt std req.Question expanded compressed) w2 with
          | (.error err, w3) => (.error ("llm generation failed: " ++ err), w3)
          | (.ok answer, w3) =>
            (.ok { Answer := answer
                   ExpandedChunks := expanded
                   CompressedChunks := compressed
                   Metadata :=
                     [("chunks_found", .int chunks.length),
                      ("expanded_count", .int expanded.length),
                      ("compressed_count", .int compressed.length),
                      ("over_fetch_k",
                        .int (if req.OverFetchK = 0 then 100 else req.OverFetchK)),
                      ("expand_k", .int (if req.ExpandK = 0 then 5 else req.ExpandK)),
                      ("compression_ratio",
                        .int (if req.CompressionRatio = 0 then 16 else req.CompressionRatio)),
                      ("total_tokens", .int (expanded.map (fun c => c.TokenCount)).sum),
                      ("compressed_tokens",
                        .int (compressed.map (fun c => c.CompressedTokenCount)).sum),
                      ("token_reduction", .str (std.fmtPercent1
                        (if (expanded.map (fun c => c.TokenCount)).sum +
                            (compressed.map (fun c => c.CompressedTokenCount)).sum = 0
                         then none
                         else some
                          ((((compressed.map (fun c => c.CompressedTokenCount)).sum : Int) : ℚ) /
                            ((((expanded.map (fun c => c.TokenCount)).sum +
                              (compressed.map (fun c => c.CompressedTokenCount)).sum : Int)) : ℚ)
                            * 100))))] },
             w3)) := by
  refine ⟨?_, ?_, ?_⟩
  · intro err w2 hsearch
    exact REFRAG_Query_of_search_error s std req w queryVector w1 w2 err hembed hsearch
  · intro w2 hsearch
    exact REFRAG_Query_of_nothing s std req w queryVector w1 w2 [] hembed hsearch rfl
  · intro chunks w2 hsearch hfound
    have hlen : ¬ chunks.length = 0 := fun h => hfound (List.length_eq_zero.mp h)
    have hcompress := compressChunks_eq_map chunks queryVector (effectiveRatio req)
      (effectiveRatio_ne_zero req)
    refine ⟨effectiveRatio_ne_zero req, hcompress, ?_⟩
    unfold effectiveRatio at hcompress
    simp only [REFRAGService.Query, hembed, hsearch, hlen, if_false, hcompress,
      foldl_add_eq_sum, zero_add]

/-- C19 as amended, on a counting double that holds three fragments, for a request with
every parameter unset: the response reports the over-fetch width 100, the expand count 5
and the ratio 16, and the three candidates, compressed with the ratio 16, are all
expanded. -/
theorem REFRAG_Query_effective_parameters_witness :
    (countingREFRAG threeFragments).embedderEmbed plainRequest.Question
        { generate := 0, embed := 0, search := 0, base := 0 } =
      (.ok [], { generate := 0, embed := 1, search := 0, base := 0 }) ∧
    ∃ resp w3,
      REFRAGService.Query (countingREFRAG threeFragments) toyStd plainRequest
        { generate := 0, embed := 0, search := 0, base := 0 } = (.ok resp, w3) ∧
      resp.Metadata.lookup "over_fetch_k" = some (.int 100) ∧
      resp.Metadata.lookup "expand_k" = some (.int 5) ∧
      resp.Metadata.lookup "compression_ratio" = some (.int 16) ∧
      resp.ExpandedChunks.length = 3 ∧ resp.CompressedChunks = [] := by
  have hq := ((REFRAG_Query_effective_parameters (countingREFRAG threeFragments) toyStd
    plainRequest { generate := 0, embed := 0, search := 0, base := 0 } []
    { generate := 0, embed := 1, search := 0, base := 0 } rfl).2.2 threeFragments
    { generate := 0, embed := 1, search := 1, base := 0 } rfl (by decide)).2.2
  refine ⟨rfl, _, _, hq.trans rfl, rfl, rfl, rfl, ?_, ?_⟩
  · with_unfolding_all rfl
  · with_unfolding_all rfl

/-- C18: a successful query whose retrieval found at least one candidate reports the sum
of `TokenCount` over the expanded candidates as `total_tokens`, the sum of
`CompressedTokenCount` over the compressed candidates as `compressed_tokens`, and counts
with `expanded_count + compressed_count = chunks_found` and
`expanded_count = min(expand count in effect, chunks_found)`. -/
theorem REFRAG_Query_token_accounting {σ : Type} (s : REFRAGService σ) (std : GoStd)
    (hperm : ∀ less xs, (std.sortSlice less xs).Perm xs)
    (req : REFRAGQueryRequest) (w : σ) (queryVector : List ℚ) (w1 w2 : σ)
    (chunks : List DocumentChunk)
    (hembed : s.embedderEmbed req.Question w = (.ok queryVector, w1))
    (hsearch : s.repoVectorSearch queryVector req.DocType req.Language
      (if req.OverFetchK = 0 then 100 else req.OverFetchK) w1 = (.ok chunks, w2))
    (hfound : chunks ≠ [])
    (resp : REFRAGQueryResponse) (w3 : σ)
    (hq : REFRAGService.Query s std req w = (.ok resp, w3)) :
    resp.Metadata.lookup "total_tokens" =
      some (.int (resp.ExpandedChunks.map (fun c => c.TokenCount)).sum) ∧
    resp.Metadata.lookup "compressed_tokens" =
      some (.int (resp.CompressedChunks.map (fun c => c.CompressedTokenCount)).sum) ∧
    resp.Metadata.lookup "expanded_count" = some (.int resp.ExpandedChunks.length) ∧
    resp.Metadata.lookup "compressed_count" = some (.int resp.CompressedChunks.length) ∧
    resp.Metadata.lookup "chunks_found" = some (.int chunks.length) ∧
    resp.ExpandedChunks.length + resp.CompressedChunks.length = chunks.length ∧
    (resp.ExpandedChunks.length : Int) =
      Min.min (if req.ExpandK = 0 then 5 else req.ExpandK) (chunks.length : Int) := by
  obtain ⟨hK, he, hc, hfoundCount, hecount, hccount, _, _, _, htotal, hcomp⟩ :=
    REFRAG_Query_ok_cases s std req w queryVector w1 w2 chunks hembed hsearch hfound resp w3 hq
  have hlen := length_sortedCandidates std hperm req chunks
  rw [he, hc]
  refine ⟨htotal, hcomp, hecount, hccount, hfoundCount, ?_, ?_⟩
  · unfold triageExpanded triageCompressed
    rw [List.length_map, List.length_take, List.length_drop, hlen]
    omega
  · unfold triageExpanded
    rw [List.length_map, List.length_take, hlen]
    have hdef : (if req.ExpandK = 0 then 5 else req.ExpandK) = effectiveExpandK req := rfl
    rw [hdef]
    generalize effectiveExpandK req = K at hK
    omega

/-- C18 on a counting double that holds three fragments, with an expand count of two:
three candidates found, two of them expanded, one compressed. -/
theorem REFRAG_Query_token_accounting_witness :
    threeFragments ≠ [] ∧
    ∃ resp w3,
      REFRAGService.Query (countingREFRAG threeFragments) toyStd expandTwo
        { generate := 0, embed := 0, search := 0, base := 0 } = (.ok resp, w3) ∧
      resp.Metadata.lookup "chunks_found" = some (.int 3) ∧
      resp.ExpandedChunks.length = 2 ∧ resp.CompressedChunks.length = 1 := by
  have hfound : threeFragments ≠ [] := by decide
  obtain ⟨resp, w3, hq⟩ : ∃ resp w3,
      REFRAGService.Query (countingREFRAG threeFragments) toyStd expandTwo
        { generate := 0, embed := 0, search := 0, base := 0 } = (.ok resp, w3) :=
    ⟨_, _, (REFRAG_Query_of_found (countingREFRAG threeFragments) toyStd expandTwo
      { generate := 0, embed := 0, search := 0, base := 0 } []
      { generate := 0, embed := 1, search := 0, base := 0 }
      { generate := 0, embed := 1, search := 1, base := 0 } threeFragments rfl rfl hfound
      (by decide)).trans rfl⟩
  obtain ⟨_, _, _, _, hcount, hsum, hexp⟩ :=
    REFRAG_Query_token_accounting (countingREFRAG threeFragments) toyStd toyStd_sortSlice.perm
      expandTwo { generate := 0, embed := 0, search := 0, base := 0 } []
      { generate := 0, embed := 1, search := 0, base := 0 }
      { generate := 0, embed := 1, search := 1, base := 0 } threeFragments rfl rfl hfound
      resp w3 hq
  have h3 : threeFragments.length = 3 := rfl
  have h2 : (if expandTwo.ExpandK = 0 then (5 : Int) else expandTwo.ExpandK) = 2 := by decide
  rw [h2, h3] at hexp
  rw [h3] at hsum
  have hmin : Min.min (2 : Int) ((3 : Nat) : Int) = 2 := by decide
  rw [hmin] at hexp
  exact ⟨hfound, resp, w3, hq, hcount, by omega, by omega⟩

/-! ## Metadata of the multi-round path -/

theorem length_dedup (xs : List DocumentChunk) :
    (dedup xs).length = (xs.map (fun c => c.ID)).toFinset.card := by
  have hnodup : ((dedup xs).map (fun c => c.ID)).Nodup := by
    rw [dedup_eq_keepFirst]; exact keepFirst_nodup xs []
  have hset : ((dedup xs).map (fun c => c.ID)).toFinset = (xs.map (fun c => c.ID)).toFinset := by
    ext i
    simp only [List.mem_toFinset]
    constructor
    · intro hi
      have hsub : (dedup xs).Sublist xs := by
        rw [dedup_eq_keepFirst]; exact keepFirst_sublist xs []
      exact (hsub.map _).subset hi
    · intro hi
      obtain ⟨c, hc, rfl⟩ := List.mem_map.mp hi
      rw [dedup_eq_keepFirst]
      rcases keepFirst_covers xs [] c hc with h | h
      · simp at h
      · exact h
  rw [← hset, List.toFinset_card_of_nodup hnodup, List.length_map]

theorem successful_rounds (outcomes : List (Except String (List DocumentChunk))) :
    (outcomes.length : Int) - (outcomes.countP roundFailed : Int) =
      (outcomes.countP (fun o => !roundFailed o) : Int) := by
  have h := List.length_eq_countP_add_countP roundFailed outcomes
  have h2 : outcomes.countP (fun o => !roundFailed o) =
      outcomes.countP (fun a => ¬ roundFailed a = true) := by
    congr 1
    funext o
    cases roundFailed o <;> simp
  omega

/-- C20: a successful query with a plan that is not simple reports the mode
`agentic_rag_v3`, as `rounds` the number of rounds that did not fail, as `total_retrieved`
the number of distinct identifiers among the fragments of these rounds, and as
`final_selected` the number of its sources, which is `min(total_retrieved, k)` for `k`
the request's `TopK` when set and positive and 5 otherwise; the sources have pairwise
distinct identifiers. -/
theorem Query_complex_metadata {σ : Type} (svc : RAGService σ)
    (unmarshal : String → Except String QueryPlan) (req : RAGQueryRequest) (w : σ)
    (plan : QueryPlan) (w1 : σ)
    (hplan : Plan svc unmarshal req.Question w = (.ok plan, w1))
    (hcomplex : plan.IsSimple = false)
    (resp : RAGQueryResponse) (w3 : σ)
    (hq : AgenticRAGService.Query svc unmarshal req w = (.ok resp, w3)) :
    resp.Metadata.lookup "mode" = some (.str "agentic_rag_v3") ∧
    resp.Metadata.lookup "rounds" =
      some (.int ((roundOutcomes svc req plan.SubQueries w1).countP
        (fun o => !roundFailed o))) ∧
    resp.Metadata.lookup "total_retrieved" =
      some (.int ((((roundOutcomes svc req plan.SubQueries w1).map roundChunks).flatten.map
        (fun c => c.ID)).toFinset.card)) ∧
    resp.Metadata.lookup "final_selected" = some (.int resp.Sources.length) ∧
    (resp.Sources.length : Int) =
      Min.min
        (((((roundOutcomes svc req plan.SubQueries w1).map roundChunks).flatten.map
          (fun c => c.ID)).toFinset.card : Nat) : Int)
        (match req.TopK with
         | some k => if k > 0 then k else 5
         | none => 5) ∧
    (resp.Sources.map (fun c => c.ID)).Nodup := by
  have hexec := Execute_eq svc plan req w1
  have hpos := getTopK_pos req
  have hrerank := rerank_of_nonneg req.Question
    (dedup ((roundOutcomes svc req plan.SubQueries w1).map roundChunks).flatten)
    (getTopK req) (le_of_lt hpos)
  have h := Query_of_complex svc unmarshal req w plan w1 hplan hcomplex _ _ hexec _ hrerank
  rw [h] at hq
  split at hq
  · cases hq
  · have hresp := (GoResult.ok.inj (Prod.mk.inj hq).1).symm
    subst hresp
    have hlen := length_dedup ((roundOutcomes svc req plan.SubQueries w1).map roundChunks).flatten
    have hnodup : ((dedup ((roundOutcomes svc req plan.SubQueries w1).map
        roundChunks).flatten).map (fun c => c.ID)).Nodup := by
      rw [dedup_eq_keepFirst]; exact keepFirst_nodup _ []
    have hk : (match req.TopK with
        | some k => if k > 0 then k else 5
        | none => 5) = getTopK req := rfl
    refine ⟨rfl, ?_, ?_, rfl, ?_, ?_⟩
    · show some (MetaValue.int _) = _
      rw [← successful_rounds, length_roundOutcomes]
    · show some (MetaValue.int _) = _
      rw [hlen]
    · show ((if _ then _ else _ : List DocumentChunk).length : Int) = _
      rw [hk, ← hlen]
      split
      · rename_i hle
        rw [min_eq_left hle]
      · rename_i hle
        rw [List.length_take, min_eq_right (le_of_lt (not_le.mp hle))]
        omega
    · show ((if _ then _ else _ : List DocumentChunk).map _).Nodup
      split
      · exact hnodup
      · exact hnodup.sublist ((List.take_sublist _ _).map _)

/-- C20 on a counting double: three rounds return the same fragment, so one identifier
is retrieved and one source selected. -/
theorem Query_complex_metadata_witness :
    ∃ resp w3,
      AgenticRAGService.Query
        (countingRAG (fun n => if n = 0 then .ok "complex" else .ok "final answer") []
          [fragment 1 "one"]) toyUnmarshal
        { Question := "q", DocType := "", Language := "", TopK := none }
        { generate := 0, embed := 0, search := 0, base := 0 } = (.ok resp, w3) ∧
      resp.Metadata.lookup "mode" = some (.str "agentic_rag_v3") ∧
      resp.Metadata.lookup "rounds" = some (.int 3) ∧
      resp.Metadata.lookup "total_retrieved" = some (.int 1) ∧
      resp.Sources = [fragment 1 "one"] :=
  ⟨_, _, rfl,
   (Query_complex_metadata
      (countingRAG (fun n => if n = 0 then .ok "complex" else .ok "final answer") []
        [fragment 1 "one"]) toyUnmarshal
      { Question := "q", DocType := "", Language := "", TopK := none }
      { generate := 0, embed := 0, search := 0, base := 0 } _ _ rfl rfl _ _ rfl).1,
   rfl, rfl, rfl⟩

/-! ## Ties in the partition -/

/-- C14 fails on thirteen candidates, twelve of score 0.5 followed by one of score 0.9:
`sort.Slice` moves the candidate 6, which it takes as pivot, to the front and leaves it
second, before the candidates 0 to 5 of the same score that came before it in the input,
and it moves the candidate 1 to the end. With `K = 2` the candidate 6 is expanded and the
candidate 0 is compressed. -/
theorem selectAndExpand_ties_not_stable :
    (tied 0 0.5).Score = (tied 6 0.5).Score ∧
    [tied 0 0.5, tied 6 0.5].Sublist thirteen ∧
    goStd.sortSlice byScoreDesc thirteen =
      [tied 12 0.9, tied 6 0.5, tied 2 0.5, tied 3 0.5, tied 4 0.5, tied 5 0.5,
       tied 0 0.5, tied 7 0.5, tied 8 0.5, tied 9 0.5, tied 10 0.5, tied 11 0.5,
       tied 1 0.5] ∧
    ¬ [tied 0 0.5, tied 6 0.5].Sublist (goStd.sortSlice byScoreDesc thirteen) ∧
    selectAndExpand goStd thirteen 2 =
      some ([markExpanded (tied 12 0.9), markExpanded (tied 6 0.5)],
        [tied 2 0.5, tied 3 0.5, tied 4 0.5, tied 5 0.5, tied 0 0.5, tied 7 0.5,
         tied 8 0.5, tied 9 0.5, tied 10 0.5, tied 11 0.5, tied 1 0.5]) := by
  have hsorted : goStd.sortSlice byScoreDesc thirteen =
      [tied 12 0.9, tied 6 0.5, tied 2 0.5, tied 3 0.5, tied 4 0.5, tied 5 0.5,
       tied 0 0.5, tied 7 0.5, tied 8 0.5, tied 9 0.5, tied 10 0.5, tied 11 0.5,
       tied 1 0.5] := by
    with_unfolding_all rfl
  refine ⟨rfl, by with_unfolding_all decide, hsorted, ?_, ?_⟩
  · rw [hsorted]
    with_unfolding_all decide
  · rw [selectAndExpand_eq goStd thirteen 2 (by decide), hsorted]
    rfl

/-- C14 as amended: `selectAndExpand` orders the candidates by score only. For every sort
that keeps the promise of `sort.Slice` and every `K ≥ 0` that `make` grants as a capacity,
the sorted order is a rearrangement of the input in which a candidate never stands before
one of a strictly higher score; the expanded output is its first `K` candidates, with the
flag set, and the compressed output is the rest. Nothing is said on the order of
candidates of equal score. -/
theorem selectAndExpand_orders_by_score_only (std : GoStd)
    (hsort : SortSliceSpec std.sortSlice) (cs : List CompressedChunk) (K : Int)
    (h0 : 0 ≤ K) (hcap : K ≤ std.maxCap ∨ K ≤ (cs.length : Int)) :
    (std.sortSlice byScoreDesc cs).Perm cs ∧
    (∀ a b, [a, b].Sublist (std.sortSlice byScoreDesc cs) → ¬ a.Score < b.Score) ∧
    selectAndExpand std cs K =
      some (((std.sortSlice byScoreDesc cs).take K.toNat).map
          (fun x => { x with IsExpanded := true }),
        (std.sortSlice byScoreDesc cs).drop K.toNat) := by
  refine ⟨hsort.perm byScoreDesc cs, ?_, selectAndExpand_eq std cs K
    ((makeRefused_eq_false std cs.length K).mpr ⟨h0, hcap⟩)⟩
  intro a b hab
  have hp := (byScoreDesc_sorted std hsort cs).sublist hab
  rw [List.pairwise_pair] at hp
  exact not_lt.mpr hp

/-- C14 as amended, on the five scores of the repository test with insertion sort. -/
theorem selectAndExpand_orders_by_score_only_witness :
    SortSliceSpec toyStd.sortSlice ∧ (0 : Int) ≤ 2 ∧
    ((2 : Int) ≤ toyStd.maxCap ∨ (2 : Int) ≤ (fiveCandidates.length : Int)) ∧
    (toyStd.sortSlice byScoreDesc fiveCandidates).Perm fiveCandidates ∧
    ∃ expanded compressed,
      selectAndExpand toyStd fiveCandidates 2 = some (expanded, compressed) :=
  ⟨toyStd_sortSlice, by decide, Or.inl (by decide),
   (selectAndExpand_orders_by_score_only toyStd toyStd_sortSlice fiveCandidates 2
      (by decide) (Or.inl (by decide))).1,
   _, _,
   (selectAndExpand_orders_by_score_only toyStd toyStd_sortSlice fiveCandidates 2
      (by decide) (Or.inl (by decide))).2.2⟩

/-! ## Bounds of the round width -/

/-- C25, the code at `TopK = 20`: the round asks for 10 results, more than the five of
the comment on line 287. The width is at most 5 exactly when `TopK` is unset or below 12.
-/
theorem roundTopK_exceeds_five :
    roundTopK { Question := "q", DocType := "", Language := "", TopK := some 20 } = 10 ∧
    (∀ req : RAGQueryRequest, 3 ≤ roundTopK req) ∧
    (∀ req : RAGQueryRequest, roundTopK req ≤ 5 ↔
      match req.TopK with
      | some k => k < 12
      | none => True) := by
  refine ⟨by decide, ?_, ?_⟩
  · intro req
    unfold roundTopK
    cases req.TopK with
    | none => simp
    | some k =>
      simp only
      split
      · split
        · exact le_refl 3
        · omega
      · exact le_refl 3
  · intro req
    unfold roundTopK
    cases req.TopK with
    | none => simp
    | some k =>
      simp only
      by_cases hk : k > 0
      · rw [if_pos hk]
        have hdiv : Int.tdiv k 2 = k / 2 := Int.tdiv_eq_ediv (by omega) (by decide)
        rw [hdiv]
        split <;> omega
      · rw [if_neg hk]
        constructor
        · intro _; omega
        · intro _; decide

/-! ## Compression gain -/

/-- C23 fails on a short content: for the content `abc` and ratio 16 the candidate has
0 tokens and 1 compressed token. -/
theorem compressChunks_short_content_not_smaller :
    "abc" ≠ "" ∧
    compressChunks [fragment 1 "abc"] [] 16 =
      some [{ OriginalChunk := fragment 1 "abc", CompressedVector := [], Score := 0,
              IsExpanded := false, TokenCount := 0, CompressedTokenCount := 1 }] ∧
    ¬ ((1 : Int) < 0) := by
  refine ⟨by decide, ?_, by decide⟩
  rw [compressChunks_eq_map _ _ _ (by decide)]
  rfl

/-- C23 as amended: with ratio 16, `compressChunks` returns the candidate of every
fragment. For a fragment whose content has at least 8 bytes, that is at least two tokens,
the compressed token count is strictly less than the token count; for a shorter content
the token count is 0 or 1 and the compressed token count is 1, which is not less. -/
theorem compressChunks_smaller_from_eight_bytes (chunks : List DocumentChunk)
    (queryVector : List ℚ) (chunk : DocumentChunk) (hmem : chunk ∈ chunks) :
    ∃ compressed c,
      compressChunks chunks queryVector 16 = some compressed ∧
      c ∈ compressed ∧ c.OriginalChunk = chunk ∧
      c.TokenCount = Int.tdiv (strLen chunk.Content) 4 ∧
      (8 ≤ strLen chunk.Content → c.CompressedTokenCount < c.TokenCount) ∧
      (strLen chunk.Content < 8 →
        (c.TokenCount = 0 ∨ c.TokenCount = 1) ∧ c.CompressedTokenCount = 1 ∧
        ¬ c.CompressedTokenCount < c.TokenCount) := by
  have hnonneg : 0 ≤ strLen chunk.Content := by
    unfold strLen
    omega
  have h4 : Int.tdiv (strLen chunk.Content) 4 = strLen chunk.Content / 4 :=
    Int.tdiv_eq_ediv hnonneg (by decide)
  have h16 : Int.tdiv (strLen chunk.Content / 4) 16 = strLen chunk.Content / 4 / 16 :=
    Int.tdiv_eq_ediv (by omega) (by decide)
  have htoken : (compressChunk chunk 16).TokenCount = strLen chunk.Content / 4 := h4
  have hcompressed : (compressChunk chunk 16).CompressedTokenCount =
      if strLen chunk.Content / 4 / 16 < 1 then 1 else strLen chunk.Content / 4 / 16 := by
    show (if Int.tdiv (Int.tdiv (strLen chunk.Content) 4) 16 < 1 then 1
      else Int.tdiv (Int.tdiv (strLen chunk.Content) 4) 16) = _
    rw [h4, h16]
  refine ⟨_, compressChunk chunk 16, compressChunks_eq_map chunks queryVector 16 (by decide),
    List.mem_map.mpr ⟨chunk, hmem, rfl⟩, rfl, rfl, ?_, ?_⟩
  · intro hlen
    rw [htoken, hcompressed]
    split <;> omega
  · intro hlen
    rw [htoken, hcompressed]
    have hsmall : strLen chunk.Content / 4 / 16 < 1 := by omega
    rw [if_pos hsmall]
    omega

/-- C23 as amended, on the sentence of the repository test, 18 tokens and 1 compressed
token, and on a content of three bytes, no token and 1 compressed token. -/
theorem compressChunks_smaller_from_eight_bytes_witness :
    testSentence ∈ [testSentence] ∧ 8 ≤ strLen testSentence.Content ∧
    (∃ compressed c,
      compressChunks [testSentence] (List.replicate 768 0) 16 = some compressed ∧
      c ∈ compressed ∧ c.TokenCount = 18 ∧ c.CompressedTokenCount < c.TokenCount) ∧
    strLen (fragment 1 "abc").Content < 8 ∧
    (∃ compressed c,
      compressChunks [fragment 1 "abc"] [] 16 = some compressed ∧
      c ∈ compressed ∧ c.CompressedTokenCount = 1 ∧
      ¬ c.CompressedTokenCount < c.TokenCount) := by
  have hmem : testSentence ∈ [testSentence] := List.mem_singleton.mpr rfl
  have hlen : 8 ≤ strLen testSentence.Content := by decide
  have hshort : strLen (fragment 1 "abc").Content < 8 := by decide
  obtain ⟨compressed, c, h1, h2, _, h3, h4, _⟩ :=
    compressChunks_smaller_from_eight_bytes [testSentence] (List.replicate 768 0)
      testSentence hmem
  obtain ⟨compressed2, c2, k1, k2, _, _, _, k3⟩ :=
    compressChunks_smaller_from_eight_bytes [fragment 1 "abc"] [] (fragment 1 "abc")
      (List.mem_singleton.mpr rfl)
  have h18 : Int.tdiv (strLen testSentence.Content) 4 = 18 := by decide
  exact ⟨hmem, hlen, ⟨compressed, c, h1, h2, h3.trans h18, h4 hlen⟩, hshort,
    ⟨compressed2, c2, k1, k2, (k3 hshort).2.1, (k3 hshort).2.2⟩⟩

/-! ## Completion of the partition -/

/-- C27 fails for a capacity beyond the limit of the runtime: the expand count
9223372036854775807 is not negative, yet `make` refuses it as a capacity; the partition of
five candidates does not return, and a request with that `ExpandK` whose retrieval found
three candidates ends in the panic, without a response. -/
theorem selectAndExpand_refuses_huge_capacity :
    (0 : Int) ≤ 9223372036854775807 ∧
    selectAndExpand toyStd fiveCandidates 9223372036854775807 = none ∧
    REFRAGService.Query (countingREFRAG threeFragments) toyStd expandMax
        { generate := 0, embed := 0, search := 0, base := 0 } =
      (.panic "makeslice: cap out of range",
       { generate := 0, embed := 1, search := 1, base := 0 }) :=
  ⟨by decide, selectAndExpand_refused toyStd fiveCandidates _ (by decide),
   REFRAG_Query_of_refused (countingREFRAG threeFragments) toyStd expandMax
     { generate := 0, embed := 0, search := 0, base := 0 } []
     { generate := 0, embed := 1, search := 0, base := 0 }
     { generate := 0, embed := 1, search := 1, base := 0 } threeFragments rfl rfl
     (by decide) (by decide)⟩

/-- C27 as amended: `selectAndExpand` returns exactly when `expandK ≥ 0` and `make` grants
`expandK` as a capacity, that is when `expandK` is at most the limit `maxCap` or at most
the number `n` of candidates. It then returns `min(expandK, n)` expanded candidates: all
of them when `expandK > n`, none when `expandK = 0`. For `expandK < 0`, and for `expandK`
beyond both `maxCap` and `n`, the allocation stops the program; as `Query` replaces only
an `ExpandK` of 0, a request with such an `ExpandK` whose retrieval found a candidate
ends in that panic, without a response. -/
theorem selectAndExpand_completes_iff (std : GoStd)
    (hperm : ∀ less xs, (std.sortSlice less xs).Perm xs) (cs : List CompressedChunk)
    (K : Int) :
    ((selectAndExpand std cs K).isSome ↔
      0 ≤ K ∧ (K ≤ std.maxCap ∨ K ≤ (cs.length : Int))) ∧
    (0 ≤ K → (K ≤ std.maxCap ∨ K ≤ (cs.length : Int)) → ∃ expanded compressed,
      selectAndExpand std cs K = some (expanded, compressed) ∧
      (expanded.length : Int) = Min.min K (cs.length : Int) ∧
      ((cs.length : Int) < K → expanded.length = cs.length ∧ compressed = []) ∧
      (K = 0 → expanded = [] ∧ compressed.length = cs.length)) ∧
    (K < 0 → selectAndExpand std cs K = none) ∧
    (std.maxCap < K → (cs.length : Int) < K → selectAndExpand std cs K = none) ∧
    (∀ (σ : Type) (s : REFRAGService σ) (req : REFRAGQueryRequest) (w : σ)
        (queryVector : List ℚ) (w1 w2 : σ) (chunks : List DocumentChunk),
      s.embedderEmbed req.Question w = (.ok queryVector, w1) →
      s.repoVectorSearch queryVector req.DocType req.Language
        (if req.OverFetchK = 0 then 100 else req.OverFetchK) w1 = (.ok chunks, w2) →
      chunks ≠ [] →
      (req.ExpandK < 0 ∨
        (std.maxCap < req.ExpandK ∧ (chunks.length : Int) < req.ExpandK)) →
      REFRAGService.Query s std req w = (.panic "makeslice: cap out of range", w2)) := by
  have hlen : (std.sortSlice byScoreDesc cs).length = cs.length :=
    (hperm byScoreDesc cs).length_eq
  refine ⟨?_, ?_, ?_, ?_, ?_⟩
  · rw [← makeRefused_eq_false]
    cases hgrant : makeRefused std cs.length K with
    | true => simp [selectAndExpand_refused std cs K hgrant]
    | false => simp [selectAndExpand_eq std cs K hgrant]
  · intro h0 hcap
    have hgrant := (makeRefused_eq_false std cs.length K).mpr ⟨h0, hcap⟩
    refine ⟨_, _, selectAndExpand_eq std cs K hgrant, ?_, ?_, ?_⟩
    · rw [List.length_map, List.length_take, hlen]
      omega
    · intro hgt
      constructor
      · rw [List.length_map, List.length_take, hlen]
        omega
      · apply List.drop_eq_nil_of_le
        rw [hlen]
        omega
    · intro hzero
      subst hzero
      constructor
      · rfl
      · simp [hlen]
  · intro hneg
    exact selectAndExpand_refused std cs K
      ((makeRefused_eq_true std cs.length K).mpr (Or.inl hneg))
  · intro hcap hheld
    exact selectAndExpand_refused std cs K
      ((makeRefused_eq_true std cs.length K).mpr (Or.inr ⟨hcap, hheld⟩))
  · intro σ s req w queryVector w1 w2 chunks hembed hsearch hfound hK
    apply REFRAG_Query_of_refused s std req w queryVector w1 w2 chunks hembed hsearch hfound
    have hne : ¬ req.ExpandK = 0 := by
      rcases hK with h | ⟨_, h⟩ <;> omega
    have heff : effectiveExpandK req = req.ExpandK := by
      unfold effectiveExpandK
      rw [if_neg hne]
    rw [heff]
    exact (makeRefused_eq_true std chunks.length req.ExpandK).mpr hK

/-- C27 as amended, on the five scores of the repository test and on a counting double:
with `expandK = 2` the partition returns two expanded candidates, with `expandK = -1` it
does not return, and a request with `ExpandK = -1` ends in the panic after one embedding
call and one retrieval call. -/
theorem selectAndExpand_completes_iff_witness :
    (∃ expanded compressed,
      selectAndExpand toyStd fiveCandidates 2 = some (expanded, compressed) ∧
      (expanded.length : Int) = Min.min 2 (fiveCandidates.length : Int)) ∧
    selectAndExpand toyStd fiveCandidates (-1) = none ∧
    REFRAGService.Query (countingREFRAG threeFragments) toyStd expandMinusOne
        { generate := 0, embed := 0, search := 0, base := 0 } =
      (.panic "makeslice: cap out of range",
       { generate := 0, embed := 1, search := 1, base := 0 }) := by
  obtain ⟨e, c, hsel, hlen, _⟩ :=
    (selectAndExpand_completes_iff toyStd toyStd_sortSlice.perm fiveCandidates 2).2.1
      (by decide) (Or.inl (by decide))
  exact ⟨⟨e, c, hsel, hlen⟩,
    (selectAndExpand_completes_iff toyStd toyStd_sortSlice.perm fiveCandidates (-1)).2.2.1
      (by decide),
    (selectAndExpand_completes_iff toyStd toyStd_sortSlice.perm [] 0).2.2.2.2 Calls
      (countingREFRAG threeFragments) expandMinusOne
      { generate := 0, embed := 0, search := 0, base := 0 } []
      { generate := 0, embed := 1, search := 0, base := 0 }
      { generate := 0, embed := 1, search := 1, base := 0 } threeFragments rfl rfl
      (by decide) (Or.inl (by decide))⟩

/-! ## Results of the rerank clients -/

theorem indexDocument_isSome (documents : List String) (i : Int) (h0 : 0 ≤ i)
    (hlt : i < documents.length) : ∃ d, indexDocument documents i = some d := by
  unfold indexDocument
  rw [if_pos ⟨h0, hlt⟩]
  have : i.toNat < documents.length := by omega
  exact ⟨documents[i.toNat], List.getElem?_eq_getElem this⟩

theorem indexDocument_negative (documents : List String) (i : Int) (h : i < 0) :
    indexDocument documents i = none := by
  unfold indexDocument
  rw [if_neg (by omega)]

theorem bgeBuildResults_eq (documents : List String) (entries : List BGEEntry) :
    ∀ results : List RerankResult, (∀ e ∈ entries, 0 ≤ e.Index) →
      bgeBuildResults documents entries results =
        some (results ++ (entries.filter
          (fun e : BGEEntry => decide (e.Index < (documents.length : Int)))).map
          (fun e => { Index := e.Index, RelevanceScore := e.Score,
                      Document := (indexDocument documents e.Index).getD "" })) := by
  induction entries with
  | nil => intro results _; simp [bgeBuildResults]
  | cons r rest ih =>
    intro results h
    have h0 : 0 ≤ r.Index := h r (List.mem_cons_self _ _)
    have hrest : ∀ e ∈ rest, 0 ≤ e.Index := fun e he => h e (List.mem_cons_of_mem _ he)
    by_cases hlt : r.Index < documents.length
    · obtain ⟨d, hd⟩ := indexDocument_isSome documents r.Index h0 hlt
      simp only [bgeBuildResults, hlt, if_true, hd, ih _ hrest, List.filter_cons, decide_True,
        List.map_cons, Option.getD_some, List.append_assoc, List.singleton_append]
    · simp only [bgeBuildResults, hlt, if_false, ih _ hrest, List.filter_cons, decide_False,
        Bool.false_eq_true]

theorem bgeBuildResults_negative (documents : List String) (entries : List BGEEntry) :
    ∀ results : List RerankResult, (∃ e ∈ entries, e.Index < 0) →
      bgeBuildResults documents entries results = none := by
  induction entries with
  | nil => intro results h; obtain ⟨e, he, _⟩ := h; cases he
  | cons r rest ih =>
    intro results h
    by_cases hr : r.Index < 0
    · have hlt : r.Index < documents.length := by omega
      simp only [bgeBuildResults, hlt, if_true, indexDocument_negative documents r.Index hr]
    · have hrest : ∃ e ∈ rest, e.Index < 0 := by
        obtain ⟨e, he, hneg⟩ := h
        rcases List.mem_cons.mp he with rfl | he
        · exact absurd hneg hr
        · exact ⟨e, he, hneg⟩
      by_cases hlt : r.Index < documents.length
      · obtain ⟨d, hd⟩ := indexDocument_isSome documents r.Index (by omega) hlt
        simp only [bgeBuildResults, hlt, if_true, hd, ih _ hrest]
      · simp only [bgeBuildResults, hlt, if_false, ih _ hrest]

theorem cohereBuildResults_eq (documents : List String) (entries : List CohereEntry) :
    ∀ results : List RerankResult, (∀ e ∈ entries, 0 ≤ e.Index) →
      cohereBuildResults documents entries results =
        some (results ++ (entries.filter
          (fun e : CohereEntry => decide (e.Index < (documents.length : Int)))).map
          (fun e => { Index := e.Index, RelevanceScore := e.RelevanceScore,
                      Document := (indexDocument documents e.Index).getD "" })) := by
  induction entries with
  | nil => intro results _; simp [cohereBuildResults]
  | cons r rest ih =>
    intro results h
    have h0 : 0 ≤ r.Index := h r (List.mem_cons_self _ _)
    have hrest : ∀ e ∈ rest, 0 ≤ e.Index := fun e he => h e (List.mem_cons_of_mem _ he)
    by_cases hlt : r.Index < documents.length
    · obtain ⟨d, hd⟩ := indexDocument_isSome documents r.Index h0 hlt
      simp only [cohereBuildResults, hlt, if_true, hd, ih _ hrest, List.filter_cons,
        decide_True, List.map_cons, Option.getD_some, List.append_assoc,
        List.singleton_append]
    · simp only [cohereBuildResults, hlt, if_false, ih _ hrest, List.filter_cons,
        decide_False, Bool.false_eq_true]

theorem cohereBuildResults_negative (documents : List String) (entries : List CohereEntry) :
    ∀ results : List RerankResult, (∃ e ∈ entries, e.Index < 0) →
      cohereBuildResults documents entries results = none := by
  induction entries with
  | nil => intro results h; obtain ⟨e, he, _⟩ := h; cases he
  | cons r rest ih =>
    intro results h
    by_cases hr : r.Index < 0
    · have hlt : r.Index < documents.length := by omega
      simp only [cohereBuildResults, hlt, if_true, indexDocument_negative documents r.Index hr]
    · have hrest : ∃ e ∈ rest, e.Index < 0 := by
        obtain ⟨e, he, hneg⟩ := h
        rcases List.mem_cons.mp he with rfl | he
        · exact absurd hneg hr
        · exact ⟨e, he, hneg⟩
      by_cases hlt : r.Index < documents.length
      · obtain ⟨d, hd⟩ := indexDocument_isSome documents r.Index (by omega) hlt
        simp only [cohereBuildResults, hlt, if_true, hd, ih _ hrest]
      · simp only [cohereBuildResults, hlt, if_false, ih _ hrest]

/-- C30: in both clients the loop that builds the results returns exactly when every
returned index is at least 0. Then the results are, in the order of the response, the
entries whose index is below `len(documents)`, each with its index, its score and the
document at that index. An entry with a negative index passes the test
`Index < len(documents)`, and the access `documents[Index]` panics. -/
theorem rerank_results_complete_iff (documents : List String) (bge : List BGEEntry)
    (cohere : List CohereEntry) :
    ((bgeBuildResults documents bge []).isSome ↔ ∀ e ∈ bge, 0 ≤ e.Index) ∧
    ((cohereBuildResults documents cohere []).isSome ↔ ∀ e ∈ cohere, 0 ≤ e.Index) ∧
    ((∀ e ∈ bge, 0 ≤ e.Index) → ∃ results,
      bgeBuildResults documents bge [] = some results ∧
      results.map (fun r => (r.Index, r.RelevanceScore)) =
        (bge.filter (fun e : BGEEntry => decide (e.Index < (documents.length : Int)))).map
          (fun e => (e.Index, e.Score)) ∧
      ∀ r ∈ results, indexDocument documents r.Index = some r.Document) ∧
    ((∀ e ∈ cohere, 0 ≤ e.Index) → ∃ results,
      cohereBuildResults documents cohere [] = some results ∧
      results.map (fun r => (r.Index, r.RelevanceScore)) =
        (cohere.filter
          (fun e : CohereEntry => decide (e.Index < (documents.length : Int)))).map
          (fun e => (e.Index, e.RelevanceScore)) ∧
      ∀ r ∈ results, indexDocument documents r.Index = some r.Document) ∧
    (∀ i : Int, i < 0 → i < documents.length ∧ indexDocument documents i = none) := by
  refine ⟨?_, ?_, ?_, ?_, ?_⟩
  · constructor
    · intro h
      by_contra hall
      have hex : ∃ e ∈ bge, e.Index < 0 := by
        by_contra hno
        apply hall
        intro e he
        by_contra hlt
        exact hno ⟨e, he, not_le.mp hlt⟩
      rw [bgeBuildResults_negative documents bge [] hex] at h
      cases h
    · intro h
      rw [bgeBuildResults_eq documents bge [] h]
      rfl
  · constructor
    · intro h
      by_contra hall
      have hex : ∃ e ∈ cohere, e.Index < 0 := by
        by_contra hno
        apply hall
        intro e he
        by_contra hlt
        exact hno ⟨e, he, not_le.mp hlt⟩
      rw [cohereBuildResults_negative documents cohere [] hex] at h
      cases h
    · intro h
      rw [cohereBuildResults_eq documents cohere [] h]
      rfl
  · intro h
    refine ⟨_, bgeBuildResults_eq documents bge [] h, ?_, ?_⟩
    · simp [List.map_map, Function.comp_def]
    · intro r hr
      simp only [List.nil_append, List.mem_map, List.mem_filter, decide_eq_true_eq] at hr
      obtain ⟨e, ⟨he, hlt⟩, rfl⟩ := hr
      obtain ⟨d, hd⟩ := indexDocument_isSome documents e.Index (h e he) hlt
      simp [hd]
  · intro h
    refine ⟨_, cohereBuildResults_eq documents cohere [] h, ?_, ?_⟩
    · simp [List.map_map, Function.comp_def]
    · intro r hr
      simp only [List.nil_append, List.mem_map, List.mem_filter, decide_eq_true_eq] at hr
      obtain ⟨e, ⟨he, hlt⟩, rfl⟩ := hr
      obtain ⟨d, hd⟩ := indexDocument_isSome documents e.Index (h e he) hlt
      simp [hd]
  · intro i hi
    exact ⟨by omega, indexDocument_negative documents i hi⟩

/-- C30 on two documents: the entries with the indices 1, 5, 0 give the results for 1
and 0, in this order, and an entry with the index -1 makes either loop panic. -/
theorem rerank_results_complete_iff_witness :
    bgeBuildResults ["a", "b"] [⟨1, 9⟩, ⟨5, 8⟩, ⟨0, 7⟩] [] =
      some [⟨1, 9, "b"⟩, ⟨0, 7, "a"⟩] ∧
    bgeBuildResults ["a", "b"] [⟨1, 9⟩, ⟨-1, 8⟩] [] = none ∧
    cohereBuildResults ["a", "b"] [⟨-1, 9⟩] [] = none ∧
    ((cohereBuildResults ["a", "b"] [⟨1, 9⟩, ⟨5, 8⟩, ⟨0, 7⟩] []).isSome ↔
      ∀ e ∈ ([⟨1, 9⟩, ⟨5, 8⟩, ⟨0, 7⟩] : List CohereEntry), 0 ≤ e.Index) :=
  ⟨rfl, rfl, rfl, (rerank_results_complete_iff ["a", "b"] [] [⟨1, 9⟩, ⟨5, 8⟩, ⟨0, 7⟩]).2.1⟩

/-! ## Bounds and monotonicity of the score -/

theorem overlapRatio_nonneg (Q C : Finset String) : 0 ≤ overlapRatio Q C := by
  unfold overlapRatio
  split
  · exact le_refl 0
  · exact div_nonneg (Nat.cast_nonneg _) (Nat.cast_nonneg _)

theorem overlapRatio_le_one (Q C : Finset String) : overlapRatio Q C ≤ 1 := by
  unfold overlapRatio
  split
  · exact zero_le_one
  · rename_i h
    have hpos : (0 : ℚ) < Q.card := by exact_mod_cast Nat.pos_of_ne_zero h
    rw [div_le_one hpos]
    exact_mod_cast Finset.card_le_card Finset.inter_subset_left

theorem overlapRatio_eq_zero (Q C : Finset String) : overlapRatio Q C = 0 ↔ Q ∩ C = ∅ := by
  unfold overlapRatio
  split
  · rename_i h
    have hQ : Q = ∅ := Finset.card_eq_zero.mp h
    simp [hQ]
  · rename_i h
    have hne : ((Q.card : ℕ) : ℚ) ≠ 0 := by exact_mod_cast h
    rw [div_eq_zero_iff]
    constructor
    · intro h0
      rcases h0 with h0 | h0
      · exact Finset.card_eq_zero.mp (by exact_mod_cast h0)
      · exact absurd h0 hne
    · intro h0
      left
      rw [h0]
      simp

theorem overlapRatio_eq_one (Q C : Finset String) :
    overlapRatio Q C = 1 ↔ Q ≠ ∅ ∧ Q ⊆ C := by
  unfold overlapRatio
  split
  · rename_i h
    have hQ : Q = ∅ := Finset.card_eq_zero.mp h
    simp [hQ]
  · rename_i h
    have hne : ((Q.card : ℕ) : ℚ) ≠ 0 := by exact_mod_cast h
    have hQ : Q ≠ ∅ := fun e => h (by rw [e]; rfl)
    rw [div_eq_one_iff_eq hne]
    constructor
    · intro h1
      have hcard : (Q ∩ C).card = Q.card := by exact_mod_cast h1
      have hinter : Q ∩ C = Q :=
        Finset.eq_of_subset_of_card_le Finset.inter_subset_left (le_of_eq hcard.symm)
      exact ⟨hQ, Finset.inter_eq_left.mp hinter⟩
    · intro h1
      rw [Finset.inter_eq_left.mpr h1.2]

theorem shapeTerm_cases (n : Int) :
    (shapeTerm n = -0.1 ∧ n < 50) ∨
    (shapeTerm n = 0.1 ∧ 100 ≤ n ∧ n ≤ 500) ∨
    (shapeTerm n = 0 ∧ ¬ n < 50 ∧ ¬ (100 ≤ n ∧ n ≤ 500)) := by
  unfold shapeTerm
  by_cases h1 : 100 ≤ n ∧ n ≤ 500
  · right; left
    rw [if_pos h1]
    exact ⟨rfl, h1⟩
  · rw [if_neg h1]
    by_cases h2 : n < 50
    · left
      rw [if_pos h2]
      exact ⟨rfl, h2⟩
    · right; right
      rw [if_neg h2]
      exact ⟨rfl, h2, h1⟩

theorem metaTerm_cases (metadata : String) :
    (metaTerm metadata = 0 ∧ metadata = "") ∨ (metaTerm metadata = 0.1 ∧ metadata ≠ "") := by
  unfold metaTerm
  by_cases h : metadata = ""
  · left; rw [if_pos h]; exact ⟨rfl, h⟩
  · right; rw [if_neg h]; exact ⟨rfl, h⟩

theorem shapeTerm_values (n : Int) :
    (shapeTerm n = -0.1 ∨ shapeTerm n = 0 ∨ shapeTerm n = 0.1) ∧
    (shapeTerm n = -0.1 ↔ n < 50) ∧
    (shapeTerm n = 0.1 ↔ 100 ≤ n ∧ n ≤ 500) := by
  rcases shapeTerm_cases n with ⟨hs, hlen⟩ | ⟨hs, hlen⟩ | ⟨hs, hlen1, hlen2⟩
  · refine ⟨Or.inl hs, ⟨fun _ => hlen, fun _ => hs⟩, ⟨fun h => ?_, fun h => ?_⟩⟩
    · rw [hs] at h; norm_num at h
    · omega
  · refine ⟨Or.inr (Or.inr hs), ⟨fun h => ?_, fun h => ?_⟩, ⟨fun _ => hlen, fun _ => hs⟩⟩
    · rw [hs] at h; norm_num at h
    · omega
  · refine ⟨Or.inr (Or.inl hs), ⟨fun h => ?_, fun h => ?_⟩, ⟨fun h => ?_, fun h => ?_⟩⟩
    · rw [hs] at h; norm_num at h
    · exact absurd h hlen1
    · rw [hs] at h; norm_num at h
    · exact absurd h hlen2

theorem metaTerm_values (metadata : String) :
    (metaTerm metadata = 0 ∨ metaTerm metadata = 0.1) ∧
    (metaTerm metadata = 0 ↔ metadata = "") ∧
    (metaTerm metadata = 0.1 ↔ metadata ≠ "") := by
  rcases metaTerm_cases metadata with ⟨hm, hmd⟩ | ⟨hm, hmd⟩
  · refine ⟨Or.inl hm, ⟨fun _ => hmd, fun _ => hm⟩, ⟨fun h => ?_, fun h => absurd hmd h⟩⟩
    rw [hm] at h; norm_num at h
  · refine ⟨Or.inr hm, ⟨fun h => ?_, fun h => absurd h hmd⟩, ⟨fun _ => hmd, fun _ => hm⟩⟩
    rw [hm] at h; norm_num at h

theorem score_sum_bounds (r sh m : ℚ) (hr0 : 0 ≤ r) (hr1 : r ≤ 1)
    (hsh : sh = -0.1 ∨ sh = 0 ∨ sh = 0.1) (hm : m = 0 ∨ m = 0.1) :
    (0.4 : ℚ) ≤ 0.5 + 0.3 * r + sh + m ∧ 0.5 + 0.3 * r + sh + m ≤ 1.0 ∧
    (0.5 + 0.3 * r + sh + m = 0.4 ↔ sh = -0.1 ∧ r = 0 ∧ m = 0) ∧
    (0.5 + 0.3 * r + sh + m = 1.0 ↔ r = 1 ∧ sh = 0.1 ∧ m = 0.1) := by
  have hsh' : -0.1 ≤ sh ∧ sh ≤ 0.1 := by
    rcases hsh with h | h | h <;> rw [h] <;> norm_num
  have hm' : 0 ≤ m ∧ m ≤ 0.1 := by
    rcases hm with h | h <;> rw [h] <;> norm_num
  obtain ⟨hs1, hs2⟩ := hsh'
  obtain ⟨hm1, hm2⟩ := hm'
  norm_num at hs1 hs2 hm2 ⊢
  refine ⟨by linarith, by linarith, ⟨fun h => ?_, fun h => ?_⟩, ⟨fun h => ?_, fun h => ?_⟩⟩
  · refine ⟨?_, ?_, ?_⟩ <;> linarith
  · obtain ⟨h1, h2, h3⟩ := h
    rw [h1, h2, h3]; norm_num
  · refine ⟨?_, ?_, ?_⟩ <;> linarith
  · obtain ⟨h1, h2, h3⟩ := h
    rw [h1, h2, h3]; norm_num

/-- C26: every score assigned by `scoreChunks` lies between 0.4 and 1.0. It is 0.4
exactly for a content shorter than 50 with no keyword in common with the question and an
empty metadata string, and 1.0 exactly for a content whose keywords include all the
question's keywords (at least one), with a length in `[100, 500]` and a non-empty metadata
string. -/
theorem scoreChunks_bounded (std : GoStd) (question : String) (chunks : List CompressedChunk) :
    ∀ c ∈ scoreChunks std chunks question,
      (0.4 : ℚ) ≤ c.Score ∧ c.Score ≤ 1.0 ∧
      (c.Score = 0.4 ↔
        strLen c.OriginalChunk.Content < 50 ∧
        (extractKeywords std question).toFinset ∩
          (extractKeywords std c.OriginalChunk.Content).toFinset = ∅ ∧
        c.OriginalChunk.Metadata = "") ∧
      (c.Score = 1.0 ↔
        ((extractKeywords std question).toFinset ≠ ∅ ∧
          (extractKeywords std question).toFinset ⊆
            (extractKeywords std c.OriginalChunk.Content).toFinset) ∧
        (100 ≤ strLen c.OriginalChunk.Content ∧ strLen c.OriginalChunk.Content ≤ 500) ∧
        c.OriginalChunk.Metadata ≠ "") := by
  intro c hc
  unfold scoreChunks at hc
  obtain ⟨c0, _, rfl⟩ := List.mem_map.mp hc
  rw [scoreChunk_eq std _ (extractKeywords_nodup std question) c0]
  simp only
  have hz := overlapRatio_eq_zero (extractKeywords std question).toFinset
    (extractKeywords std c0.OriginalChunk.Content).toFinset
  have ho := overlapRatio_eq_one (extractKeywords std question).toFinset
    (extractKeywords std c0.OriginalChunk.Content).toFinset
  obtain ⟨hsv, hs1, hs2⟩ := shapeTerm_values (strLen c0.OriginalChunk.Content)
  obtain ⟨hmv, hm1, hm2⟩ := metaTerm_values c0.OriginalChunk.Metadata
  rw [← hz, ← ho, ← hs1, ← hs2, ← hm1, ← hm2]
  exact score_sum_bounds _ _ _ (overlapRatio_nonneg _ _) (overlapRatio_le_one _ _) hsv hmv

/-- C26 on a candidate with an empty content and no metadata, scored for the question
`go`: its score lies within the bounds. -/
theorem scoreChunks_bounded_witness :
    scoreChunk asciiStd (extractKeywords asciiStd "go") (candidate 0) ∈
      scoreChunks asciiStd [candidate 0] "go" ∧
    (0.4 : ℚ) ≤ (scoreChunk asciiStd (extractKeywords asciiStd "go") (candidate 0)).Score ∧
    (scoreChunk asciiStd (extractKeywords asciiStd "go") (candidate 0)).Score ≤ 1.0 :=
  have hmem : scoreChunk asciiStd (extractKeywords asciiStd "go") (candidate 0) ∈
      scoreChunks asciiStd [candidate 0] "go" := List.mem_singleton.mpr rfl
  ⟨hmem, (scoreChunks_bounded asciiStd "go" [candidate 0] _ hmem).1,
    (scoreChunks_bounded asciiStd "go" [candidate 0] _ hmem).2.1⟩

/-- C24: when the content of `a` shares a keyword with the question, the content of `b`
shares none, and the length-shape and metadata contributions of `a` are not below those
of `b`, `scoreChunks` gives `a` a strictly higher score than `b`, in whichever order the
two stand in the list. -/
theorem scoreChunks_overlap_raises_score (std : GoStd) (question : String)
    (a b : CompressedChunk)
    (hshare : ∃ k ∈ extractKeywords std question,
      k ∈ extractKeywords std a.OriginalChunk.Content)
    (hnone : ∀ k ∈ extractKeywords std question,
      k ∉ extractKeywords std b.OriginalChunk.Content)
    (hshape : shapeTerm (strLen b.OriginalChunk.Content) ≤
      shapeTerm (strLen a.OriginalChunk.Content))
    (hmeta : metaTerm b.OriginalChunk.Metadata ≤ metaTerm a.OriginalChunk.Metadata) :
    ∃ a' b',
      scoreChunks std [a, b] question = [a', b'] ∧
      scoreChunks std [b, a] question = [b', a'] ∧
      a'.OriginalChunk = a.OriginalChunk ∧ b'.OriginalChunk = b.OriginalChunk ∧
      a'.Score > b'.Score := by
  refine ⟨scoreChunk std (extractKeywords std question) a,
    scoreChunk std (extractKeywords std question) b, rfl, rfl, rfl, rfl, ?_⟩
  rw [scoreChunk_eq std _ (extractKeywords_nodup std question) a,
    scoreChunk_eq std _ (extractKeywords_nodup std question) b]
  simp only
  have hb : overlapRatio (extractKeywords std question).toFinset
      (extractKeywords std b.OriginalChunk.Content).toFinset = 0 := by
    rw [overlapRatio_eq_zero]
    ext k
    simp only [Finset.mem_inter, List.mem_toFinset, Finset.not_mem_empty, iff_false, not_and]
    exact hnone k
  have ha : 0 < overlapRatio (extractKeywords std question).toFinset
      (extractKeywords std a.OriginalChunk.Content).toFinset := by
    apply lt_of_le_of_ne (overlapRatio_nonneg _ _)
    intro h0
    have hempty := (overlapRatio_eq_zero _ _).mp h0.symm
    obtain ⟨k, hk1, hk2⟩ := hshare
    have hk : k ∈ (extractKeywords std question).toFinset ∩
        (extractKeywords std a.OriginalChunk.Content).toFinset := by
      simp only [Finset.mem_inter, List.mem_toFinset]
      exact ⟨hk1, hk2⟩
    rw [hempty] at hk
    exact absurd hk (Finset.not_mem_empty k)
  rw [hb]
  norm_num
  linarith

/-- C24 on the question and the two contents of `TestREFRAGService_ScoreChunks`: the
content that names Go shares the keyword `go` with the question, the one on Python shares
none, and the first candidate gets the higher score. -/
theorem scoreChunks_overlap_raises_score_witness :
    extractKeywords asciiStd scoreQuestion = ["go", "语言的特点是什么"] ∧
    "go" ∈ extractKeywords asciiStd goCandidate.OriginalChunk.Content ∧
    ∃ a' b',
      scoreChunks asciiStd [goCandidate, pythonCandidate] scoreQuestion = [a', b'] ∧
      a'.Score > b'.Score := by
  have hshare : ∃ k ∈ extractKeywords asciiStd scoreQuestion,
      k ∈ extractKeywords asciiStd goCandidate.OriginalChunk.Content :=
    ⟨"go", by decide, by decide⟩
  have hnone : ∀ k ∈ extractKeywords asciiStd scoreQuestion,
      k ∉ extractKeywords asciiStd pythonCandidate.OriginalChunk.Content := by decide
  have hshape : shapeTerm (strLen pythonCandidate.OriginalChunk.Content) ≤
      shapeTerm (strLen goCandidate.OriginalChunk.Content) := by
    have h1 : strLen pythonCandidate.OriginalChunk.Content = 37 := by decide
    have h2 : strLen goCandidate.OriginalChunk.Content = 62 := by decide
    rw [h1, h2]
    unfold shapeTerm
    norm_num
  have hmeta : metaTerm pythonCandidate.OriginalChunk.Metadata ≤
      metaTerm goCandidate.OriginalChunk.Metadata := le_refl _
  obtain ⟨a', b', h1, _, _, _, h2⟩ :=
    scoreChunks_overlap_raises_score asciiStd scoreQuestion goCandidate pythonCandidate
      hshare hnone hshape hmeta
  exact ⟨by decide, by decide, a', b', h1, h2⟩

/-! ## The denominator of the reduction percentage -/

theorem sum_map_pos_iff {α : Type} (f : α → Int) (xs : List α) (hnn : ∀ x ∈ xs, 0 ≤ f x) :
    0 < (xs.map f).sum ↔ ∃ x ∈ xs, 0 < f x := by
  induction xs with
  | nil => simp
  | cons y ys ih =>
    have hy : 0 ≤ f y := hnn y (List.mem_cons_self _ _)
    have hys : ∀ x ∈ ys, 0 ≤ f x := fun x hx => hnn x (List.mem_cons_of_mem _ hx)
    have hsum : 0 ≤ (ys.map f).sum := List.sum_nonneg (by
      intro v hv
      obtain ⟨x, hx, rfl⟩ := List.mem_map.mp hv
      exact hys x hx)
    rw [List.map_cons, List.sum_cons]
    constructor
    · intro h
      by_cases h0 : 0 < f y
      · exact ⟨y, List.mem_cons_self _ _, h0⟩
      · have : 0 < (ys.map f).sum := by omega
        obtain ⟨x, hx, hpos⟩ := (ih hys).mp this
        exact ⟨x, List.mem_cons_of_mem _ hx, hpos⟩
    · rintro ⟨x, hx, hpos⟩
      rcases List.mem_cons.mp hx with rfl | hx
      · omega
      · have := (ih hys).mpr ⟨x, hx, hpos⟩
        omega

theorem sortedCandidates_counts (std : GoStd)
    (hperm : ∀ less xs, (std.sortSlice less xs).Perm xs)
    (req : REFRAGQueryRequest) (chunks : List DocumentChunk) :
    ∀ c ∈ sortedCandidates std req chunks,
      c.TokenCount = Int.tdiv (strLen c.OriginalChunk.Content) 4 ∧
      1 ≤ c.CompressedTokenCount := by
  intro c hc
  unfold sortedCandidates at hc
  have hc2 := (hperm _ _).subset hc
  unfold scoreChunks at hc2
  obtain ⟨c1, hc1, rfl⟩ := List.mem_map.mp hc2
  obtain ⟨chunk, _, rfl⟩ := List.mem_map.mp hc1
  refine ⟨rfl, ?_⟩
  show 1 ≤ (if Int.tdiv (Int.tdiv (strLen chunk.Content) 4) (effectiveRatio req) < 1 then 1
    else Int.tdiv (Int.tdiv (strLen chunk.Content) 4) (effectiveRatio req))
  split <;> omega

theorem tokenCount_pos_iff (content : String) :
    0 < Int.tdiv (strLen content) 4 ↔ 4 ≤ strLen content := by
  have hnn : 0 ≤ strLen content := by unfold strLen; omega
  rw [Int.tdiv_eq_ediv hnn (by decide)]
  omega

theorem REFRAG_Query_reduction {σ : Type} (s : REFRAGService σ) (std : GoStd)
    (req : REFRAGQueryRequest) (w : σ) (queryVector : List ℚ) (w1 w2 : σ)
    (chunks : List DocumentChunk)
    (hembed : s.embedderEmbed req.Question w = (.ok queryVector, w1))
    (hsearch : s.repoVectorSearch queryVector req.DocType req.Language
      (effectiveOverFetchK req) w1 = (.ok chunks, w2))
    (hfound : chunks ≠ [])
    (resp : REFRAGQueryResponse) (w3 : σ)
    (hq : REFRAGService.Query s std req w = (.ok resp, w3)) :
    resp.Metadata.lookup "token_reduction" =
      some (.str (std.fmtPercent1
        (if ((triageExpanded std req chunks).map (fun c => c.TokenCount)).sum +
            ((triageCompressed std req chunks).map (fun c => c.CompressedTokenCount)).sum = 0
         then none
         else some
          (((((triageCompressed std req chunks).map
              (fun c => c.CompressedTokenCount)).sum : Int) : ℚ) /
            (((((triageExpanded std req chunks).map (fun c => c.TokenCount)).sum +
              ((triageCompressed std req chunks).map
                (fun c => c.CompressedTokenCount)).sum : Int)) : ℚ) * 100)))) := by
  cases hK : makeRefused std chunks.length (effectiveExpandK req) with
  | false =>
    have h := REFRAG_Query_of_found s std req w queryVector w1 w2 chunks hembed hsearch
      hfound hK
    rw [h] at hq
    split at hq
    · cases hq
    · have hresp := (GoResult.ok.inj (Prod.mk.inj hq).1).symm
      subst hresp
      rfl
  | true =>
    have h := REFRAG_Query_of_refused s std req w queryVector w1 w2 chunks hembed hsearch
      hfound hK
    rw [h] at hq
    cases hq

/-- C28: in a successful query whose retrieval found a candidate, the denominator
`total_tokens + compressed_tokens` of the reduction percentage is positive exactly when
the compressed set is not empty or some expanded candidate has a content of at least 4
bytes. Otherwise both sums are 0 and the percentage reported is the formatted quotient of
0 by 0. -/
theorem REFRAG_Query_reduction_denominator {σ : Type} (s : REFRAGService σ) (std : GoStd)
    (hperm : ∀ less xs, (std.sortSlice less xs).Perm xs)
    (req : REFRAGQueryRequest) (w : σ) (queryVector : List ℚ) (w1 w2 : σ)
    (chunks : List DocumentChunk)
    (hembed : s.embedderEmbed req.Question w = (.ok queryVector, w1))
    (hsearch : s.repoVectorSearch queryVector req.DocType req.Language
      (if req.OverFetchK = 0 then 100 else req.OverFetchK) w1 = (.ok chunks, w2))
    (hfound : chunks ≠ [])
    (resp : REFRAGQueryResponse) (w3 : σ)
    (hq : REFRAGService.Query s std req w = (.ok resp, w3)) :
    resp.Metadata.lookup "total_tokens" =
      some (.int (resp.ExpandedChunks.map (fun c => c.TokenCount)).sum) ∧
    resp.Metadata.lookup "compressed_tokens" =
      some (.int (resp.CompressedChunks.map (fun c => c.CompressedTokenCount)).sum) ∧
    (0 < (resp.ExpandedChunks.map (fun c => c.TokenCount)).sum +
        (resp.CompressedChunks.map (fun c => c.CompressedTokenCount)).sum ↔
      resp.CompressedChunks ≠ [] ∨
        ∃ c ∈ resp.ExpandedChunks, 4 ≤ strLen c.OriginalChunk.Content) ∧
    (¬ (resp.CompressedChunks ≠ [] ∨
        ∃ c ∈ resp.ExpandedChunks, 4 ≤ strLen c.OriginalChunk.Content) →
      (resp.ExpandedChunks.map (fun c => c.TokenCount)).sum = 0 ∧
      (resp.CompressedChunks.map (fun c => c.CompressedTokenCount)).sum = 0 ∧
      resp.Metadata.lookup "token_reduction" = some (.str (std.fmtPercent1 none))) := by
  obtain ⟨_, he, hc, _, _, _, _, _, _, htotal, hcomp⟩ :=
    REFRAG_Query_ok_cases s std req w queryVector w1 w2 chunks hembed hsearch hfound resp w3 hq
  have hred := REFRAG_Query_reduction s std req w queryVector w1 w2 chunks hembed hsearch
    hfound resp w3 hq
  have hcounts := sortedCandidates_counts std hperm req chunks
  have hexp : ∀ c ∈ triageExpanded std req chunks,
      c.TokenCount = Int.tdiv (strLen c.OriginalChunk.Content) 4 := by
    intro c hmem
    unfold triageExpanded at hmem
    obtain ⟨c0, hc0, rfl⟩ := List.mem_map.mp hmem
    exact (hcounts c0 (List.mem_of_mem_take hc0)).1
  have hcmp : ∀ c ∈ triageCompressed std req chunks, 1 ≤ c.CompressedTokenCount := by
    intro c hmem
    unfold triageCompressed at hmem
    exact (hcounts c (List.mem_of_mem_drop hmem)).2
  have hT : 0 < ((triageExpanded std req chunks).map (fun c => c.TokenCount)).sum ↔
      ∃ c ∈ triageExpanded std req chunks, 4 ≤ strLen c.OriginalChunk.Content := by
    rw [sum_map_pos_iff]
    · constructor
      · rintro ⟨c, hmem, hpos⟩
        rw [hexp c hmem] at hpos
        exact ⟨c, hmem, (tokenCount_pos_iff _).mp hpos⟩
      · rintro ⟨c, hmem, hlen⟩
        refine ⟨c, hmem, ?_⟩
        rw [hexp c hmem]
        exact (tokenCount_pos_iff _).mpr hlen
    · intro c hmem
      rw [hexp c hmem]
      exact Int.tdiv_nonneg (by unfold strLen; omega) (by decide)
  have hTnn : 0 ≤ ((triageExpanded std req chunks).map (fun c => c.TokenCount)).sum := by
    apply List.sum_nonneg
    intro v hv
    obtain ⟨c, hmem, rfl⟩ := List.mem_map.mp hv
    show 0 ≤ c.TokenCount
    rw [hexp c hmem]
    exact Int.tdiv_nonneg (by unfold strLen; omega) (by decide)
  have hC : 0 < ((triageCompressed std req chunks).map
      (fun c => c.CompressedTokenCount)).sum ↔ triageCompressed std req chunks ≠ [] := by
    rw [sum_map_pos_iff _ _ (fun c hmem => by have := hcmp c hmem; omega)]
    constructor
    · rintro ⟨c, hmem, _⟩ hnil
      rw [hnil] at hmem
      cases hmem
    · intro hne
      obtain ⟨c, hmem⟩ := List.exists_mem_of_ne_nil _ hne
      exact ⟨c, hmem, by have := hcmp c hmem; omega⟩
  have hCnn : 0 ≤ ((triageCompressed std req chunks).map
      (fun c => c.CompressedTokenCount)).sum := by
    apply List.sum_nonneg
    intro v hv
    obtain ⟨c, hmem, rfl⟩ := List.mem_map.mp hv
    have := hcmp c hmem
    show 0 ≤ c.CompressedTokenCount
    omega
  rw [he, hc]
  have hiff : 0 < ((triageExpanded std req chunks).map (fun c => c.TokenCount)).sum +
        ((triageCompressed std req chunks).map (fun c => c.CompressedTokenCount)).sum ↔
      triageCompressed std req chunks ≠ [] ∨
        ∃ c ∈ triageExpanded std req chunks, 4 ≤ strLen c.OriginalChunk.Content := by
    rw [← hT, ← hC]
    omega
  refine ⟨htotal, hcomp, hiff, ?_⟩
  intro hnot
  have hzero : ((triageExpanded std req chunks).map (fun c => c.TokenCount)).sum +
      ((triageCompressed std req chunks).map (fun c => c.CompressedTokenCount)).sum = 0 := by
    have := mt hiff.mp hnot
    omega
  refine ⟨by omega, by omega, ?_⟩
  rw [hred, if_pos hzero]

/-- C28 on a counting double that holds one fragment with the content `abc`: the query
succeeds, its only candidate is expanded with 0 tokens, nothing is compressed, and both
sums are 0. -/
theorem REFRAG_Query_reduction_denominator_witness :
    [fragment 1 "abc"] ≠ [] ∧
    ∃ resp w3,
      REFRAGService.Query (countingREFRAG [fragment 1 "abc"]) toyStd plainRequest
        { generate := 0, embed := 0, search := 0, base := 0 } = (.ok resp, w3) ∧
      resp.Metadata.lookup "total_tokens" = some (.int 0) ∧
      resp.Metadata.lookup "compressed_tokens" = some (.int 0) ∧
      resp.Metadata.lookup "token_reduction" = some (.str (toyStd.fmtPercent1 none)) := by
  have hfound : [fragment 1 "abc"] ≠ [] := by decide
  obtain ⟨resp, w3, hq⟩ : ∃ resp w3,
      REFRAGService.Query (countingREFRAG [fragment 1 "abc"]) toyStd plainRequest
        { generate := 0, embed := 0, search := 0, base := 0 } = (.ok resp, w3) :=
    ⟨_, _, (REFRAG_Query_of_found (countingREFRAG [fragment 1 "abc"]) toyStd plainRequest
      { generate := 0, embed := 0, search := 0, base := 0 } []
      { generate := 0, embed := 1, search := 0, base := 0 }
      { generate := 0, embed := 1, search := 1, base := 0 } [fragment 1 "abc"] rfl rfl hfound
      (by decide)).trans rfl⟩
  obtain ⟨htotal, hcomp, hiff, hzero⟩ :=
    REFRAG_Query_reduction_denominator (countingREFRAG [fragment 1 "abc"]) toyStd
      toyStd_sortSlice.perm plainRequest { generate := 0, embed := 0, search := 0, base := 0 }
      [] { generate := 0, embed := 1, search := 0, base := 0 }
      { generate := 0, embed := 1, search := 1, base := 0 } [fragment 1 "abc"] rfl rfl hfound
      resp w3 hq
  obtain ⟨_, he, hc, _⟩ :=
    REFRAG_Query_ok_cases (countingREFRAG [fragment 1 "abc"]) toyStd plainRequest
      { generate := 0, embed := 0, search := 0, base := 0 } []
      { generate := 0, embed := 1, search := 0, base := 0 }
      { generate := 0, embed := 1, search := 1, base := 0 } [fragment 1 "abc"] rfl rfl hfound
      resp w3 hq
  have hnot : ¬ (resp.CompressedChunks ≠ [] ∨
      ∃ c ∈ resp.ExpandedChunks, 4 ≤ strLen c.OriginalChunk.Content) := by
    rw [he, hc]
    have hexp : triageExpanded toyStd plainRequest [fragment 1 "abc"] =
        [markExpanded (scoreChunk toyStd (extractKeywords toyStd plainRequest.Question)
          (compressChunk (fragment 1 "abc") 16))] := by
      with_unfolding_all rfl
    have hcmp : triageCompressed toyStd plainRequest [fragment 1 "abc"] = [] := by
      with_unfolding_all rfl
    rw [hexp, hcmp]
    rintro (h | ⟨c, hmem, hlen⟩)
    · exact h rfl
    · rw [List.mem_singleton.mp hmem] at hlen
      exact absurd hlen (by decide)
  obtain ⟨h1, h2, h3⟩ := hzero hnot
  rw [h1] at htotal
  rw [h2] at hcomp
  exact ⟨hfound, resp, w3, hq, htotal, hcomp, h3⟩

/-! ## The prompt of the multi-round path -/

theorem writeSubQueries_eq (qs : List String) :
    ∀ (i : Nat) (sb : String), writeSubQueries i qs sb = sb ++ subQueryLines i qs := by
  induction qs with
  | nil => intro i sb; simp [writeSubQueries, subQueryLines, String.append_empty]
  | cons q qs ih =>
    intro i sb
    rw [writeSubQueries, ih, subQueryLines]
    simp only [String.append_assoc]

theorem writeDocuments_eq (chunks : List DocumentChunk) :
    ∀ (i : Nat) (sb : String), writeDocuments i chunks sb = sb ++ documentEntries i chunks := by
  induction chunks with
  | nil => intro i sb; simp [writeDocuments, documentEntries, String.append_empty]
  | cons c cs ih =>
    intro i sb
    rw [writeDocuments, ih, documentEntries]
    simp only [String.append_assoc]

/-- C21: the prompt is a function of the question, the plan and the fragments alone. It
is made of the task heading, the question-analysis section, the evidence section and the
instructions, in this order. The question-analysis section is there exactly when the plan
has a sub-question; it names the question and its type and lists the sub-questions in
order, numbered from 1. The evidence section has one entry per fragment, in order,
numbered from 1. The prompt always ends with the same block of four instructions. -/
theorem buildAgenticPrompt_sections (question : String) (plan : QueryPlan)
    (results : ExecutionResults) (chunks : List DocumentChunk) :
    buildAgenticPrompt question plan results chunks =
      "# 任务说明\n" ++ ("你是一个专业的 RAG 助手，需要基于检索到的文档回答用户问题。\n\n" ++
      ((if plan.SubQueries = [] then ""
        else "## 问题分析\n" ++ (("原问题：" ++ question ++ "\n") ++
          (("问题类型：" ++ plan.QuestionType ++ "\n") ++ ("\n已将问题拆解为以下子问题：\n" ++
          (subQueryLines 0 plan.SubQueries ++ "\n"))))) ++
      ("## 检索到的相关文档\n\n" ++ (documentEntries 0 chunks ++
      ("## 回答要求\n" ++ (("请基于上述文档回答原问题：" ++ question ++ "\n\n") ++
      ("要求：\n" ++ ("1. 回答应该全面、准确、有逻辑\n" ++ ("2. 如果子问题的答案相关，请综合组织\n" ++
      ("3. 如果文档中没有足够信息，请明确说明\n" ++
        "4. 回答应该自然流畅，不要生硬地罗列信息\n")))))))))) ∧
    (∀ other : ExecutionResults,
      buildAgenticPrompt question plan other chunks =
        buildAgenticPrompt question plan results chunks) ∧
    (∃ before, buildAgenticPrompt question plan results chunks =
      before ++ ("要求：\n" ++ ("1. 回答应该全面、准确、有逻辑\n" ++
        ("2. 如果子问题的答案相关，请综合组织\n" ++ ("3. 如果文档中没有足够信息，请明确说明\n" ++
          "4. 回答应该自然流畅，不要生硬地罗列信息\n"))))) ∧
    subQueryLines 0 ["a", "b"] = "1. a\n2. b\n" := by
  have hmain : buildAgenticPrompt question plan results chunks =
      "# 任务说明\n" ++ ("你是一个专业的 RAG 助手，需要基于检索到的文档回答用户问题。\n\n" ++
      ((if plan.SubQueries = [] then ""
        else "## 问题分析\n" ++ (("原问题：" ++ question ++ "\n") ++
          (("问题类型：" ++ plan.QuestionType ++ "\n") ++ ("\n已将问题拆解为以下子问题：\n" ++
          (subQueryLines 0 plan.SubQueries ++ "\n"))))) ++
      ("## 检索到的相关文档\n\n" ++ (documentEntries 0 chunks ++
      ("## 回答要求\n" ++ (("请基于上述文档回答原问题：" ++ question ++ "\n\n") ++
      ("要求：\n" ++ ("1. 回答应该全面、准确、有逻辑\n" ++ ("2. 如果子问题的答案相关，请综合组织\n" ++
      ("3. 如果文档中没有足够信息，请明确说明\n" ++
        "4. 回答应该自然流畅，不要生硬地罗列信息\n")))))))))) := by
    simp only [buildAgenticPrompt]
    cases hq : plan.SubQueries with
    | nil =>
      rw [if_neg (show ¬ ([] : List String).length > 0 by simp), if_pos rfl,
        writeDocuments_eq]
      simp only [String.append_assoc, String.empty_append]
    | cons q qs =>
      rw [if_pos (show (q :: qs).length > 0 by simp), if_neg (List.cons_ne_nil q qs),
        writeSubQueries_eq, writeDocuments_eq]
      simp only [String.append_assoc, String.empty_append]
  refine ⟨hmain, fun _ => rfl, ?_, by decide⟩
  rw [hmain]
  refine ⟨"# 任务说明\n" ++ ("你是一个专业的 RAG 助手，需要基于检索到的文档回答用户问题。\n\n" ++
      ((if plan.SubQueries = [] then ""
        else "## 问题分析\n" ++ (("原问题：" ++ question ++ "\n") ++
          (("问题类型：" ++ plan.QuestionType ++ "\n") ++ ("\n已将问题拆解为以下子问题：\n" ++
          (subQueryLines 0 plan.SubQueries ++ "\n"))))) ++
      ("## 检索到的相关文档\n\n" ++ (documentEntries 0 chunks ++
      ("## 回答要求\n" ++ ("请基于上述文档回答原问题：" ++ question ++ "\n\n")))))), ?_⟩
  simp only [String.append_assoc]

/-! ## Code fences -/

theorem dropWhile_pad (p : Char → Bool) (l rest : List Char) (hl : ∀ c ∈ l, p c = true) :
    (l ++ rest).dropWhile p = rest.dropWhile p := by
  induction l with
  | nil => rfl
  | cons c cs ih =>
    rw [List.cons_append, List.dropWhile_cons_of_pos (hl c (List.mem_cons_self _ _))]
    exact ih (fun d hd => hl d (List.mem_cons_of_mem _ hd))

theorem rdropWhile_pad (p : Char → Bool) (m r : List Char) (hr : ∀ c ∈ r, p c = true) :
    (m ++ r).rdropWhile p = m.rdropWhile p := by
  induction r using List.reverseRecOn with
  | nil => rw [List.append_nil]
  | append_singleton r' x ih =>
    rw [← List.append_assoc, List.rdropWhile_concat_pos p _ x (hr x (by simp))]
    exact ih (fun d hd => hr d (List.mem_append_left _ hd))

theorem trim_pad (l m r : List Char) (hl : ∀ c ∈ l, isSpace c = true)
    (hr : ∀ c ∈ r, isSpace c = true)
    (hhead : ∀ c rest, m = c :: rest → isSpace c = false)
    (hlast : ∀ init c, m = init ++ [c] → isSpace c = false) :
    ((l ++ (m ++ r)).dropWhile isSpace).rdropWhile isSpace = m := by
  rw [dropWhile_pad isSpace l _ hl]
  cases m with
  | nil =>
    have h : (r ++ []).dropWhile isSpace = ([] : List Char).dropWhile isSpace :=
      dropWhile_pad isSpace r [] hr
    rw [List.append_nil] at h
    rw [List.nil_append, h]
    rfl
  | cons c m' =>
    have hc : ¬ isSpace c = true := by
      rw [hhead c m' rfl]; decide
    rw [List.cons_append, List.dropWhile_cons_of_neg hc, ← List.cons_append,
      rdropWhile_pad isSpace _ r hr, List.rdropWhile_eq_self_iff]
    intro hne
    have hsplit := List.dropLast_append_getLast hne
    rw [hlast _ _ hsplit.symm]
    decide

theorem trimPrefix_append (pre rest : List Char) :
    trimPrefix ⟨pre ++ rest⟩ ⟨pre⟩ = ⟨rest⟩ := by
  have hp : pre.isPrefixOf (pre ++ rest) = true := by
    rw [List.isPrefixOf_iff_prefix]
    exact List.prefix_append _ _
  simp only [trimPrefix, hp, if_true, List.drop_left]

theorem trimPrefix_none (pre xs : List Char) (h : pre.isPrefixOf xs = false) :
    trimPrefix ⟨xs⟩ ⟨pre⟩ = ⟨xs⟩ := by
  simp only [trimPrefix, h, Bool.false_eq_true, if_false]

theorem trimSuffix_append (init suf : List Char) :
    trimSuffix ⟨init ++ suf⟩ ⟨suf⟩ = ⟨init⟩ := by
  have hs : suf.isSuffixOf (init ++ suf) = true := by
    rw [List.isSuffixOf_iff_suffix]
    exact List.suffix_append _ _
  have hl : (init ++ suf).length - suf.length = init.length := by simp
  simp only [trimSuffix, hs, if_true, hl, List.take_left]

theorem trimSuffix_none (suf xs : List Char) (h : suf.isSuffixOf xs = false) :
    trimSuffix ⟨xs⟩ ⟨suf⟩ = ⟨xs⟩ := by
  simp only [trimSuffix, h, Bool.false_eq_true, if_false]

theorem extractJSON_eq (text : String) :
    extractJSON text =
      trimSpace (trimSuffix (trimPrefix (trimPrefix (trimSpace text)
        ⟨['`', '`', '`', 'j', 's', 'o', 'n']⟩) ⟨['`', '`', '`']⟩) ⟨['`', '`', '`']⟩) := rfl

theorem extractJSON_of_fenced (text s : String) (opening : List Char)
    (htrim : trimSpace text = ⟨opening ++ ('\n' :: (s.data ++ ['\n', '`', '`', '`']))⟩)
    (hopen : opening = ['`', '`', '`', 'j', 's', 'o', 'n'] ∨ opening = ['`', '`', '`'])
    (hhead : ∀ c rest, s.data = c :: rest → isSpace c = false)
    (hlast : ∀ init c, s.data = init ++ [c] → isSpace c = false) :
    extractJSON text = s := by
  have hmid : trimSpace ⟨'\n' :: (s.data ++ ['\n'])⟩ = s := by
    apply String.ext
    exact trim_pad ['\n'] s.data ['\n'] (by decide) (by decide) hhead hlast
  have hsplit : ('\n' :: (s.data ++ ['\n', '`', '`', '`'])) =
      ('\n' :: (s.data ++ ['\n'])) ++ ['`', '`', '`'] := by simp
  have hnot : (['`', '`', '`'] : List Char).isPrefixOf
      ('\n' :: (s.data ++ ['\n', '`', '`', '`'])) = false := by
    simp [List.isPrefixOf]
  rw [extractJSON_eq, htrim]
  rcases hopen with rfl | rfl
  · rw [trimPrefix_append, trimPrefix_none _ _ hnot, hsplit, trimSuffix_append]
    exact hmid
  · have hp1 : (['`', '`', '`', 'j', 's', 'o', 'n'] : List Char).isPrefixOf
        (['`', '`', '`'] ++ ('\n' :: (s.data ++ ['\n', '`', '`', '`']))) = false := by
      simp [List.isPrefixOf]
    rw [trimPrefix_none _ _ hp1, trimPrefix_append, hsplit, trimSuffix_append]
    exact hmid

theorem extractJSON_of_plain (text s : String)
    (htrim : trimSpace text = s)
    (hhead : ∀ c rest, s.data = c :: rest → isSpace c = false)
    (hlast : ∀ init c, s.data = init ++ [c] → isSpace c = false)
    (hstart : ¬ ['`', '`', '`'] <+: s.data)
    (hend : ¬ ['`', '`', '`'] <:+ s.data) :
    extractJSON text = s := by
  have hp1 : (['`', '`', '`', 'j', 's', 'o', 'n'] : List Char).isPrefixOf s.data = false := by
    rw [Bool.eq_false_iff]
    intro h
    rw [List.isPrefixOf_iff_prefix] at h
    obtain ⟨t, ht⟩ := h
    exact hstart ⟨['j', 's', 'o', 'n'] ++ t, by rw [← ht]; rfl⟩
  have hp2 : (['`', '`', '`'] : List Char).isPrefixOf s.data = false := by
    rw [Bool.eq_false_iff]
    intro h
    exact hstart (List.isPrefixOf_iff_prefix.mp h)
  have hs : (['`', '`', '`'] : List Char).isSuffixOf s.data = false := by
    rw [Bool.eq_false_iff]
    intro h
    exact hend (List.isSuffixOf_iff_suffix.mp h)
  have hself : trimSpace s = s := by
    apply String.ext
    have h := trim_pad [] s.data [] (by simp) (by simp) hhead hlast
    rw [List.nil_append, List.append_nil] at h
    exact h
  have hmk : s = ⟨s.data⟩ := rfl
  rw [extractJSON_eq, htrim, hmk, trimPrefix_none _ _ hp1, trimPrefix_none _ _ hp2,
    trimSuffix_none _ _ hs, ← hmk]
  exact hself

theorem trimSpace_padded (l m r : String) (hl : ∀ c ∈ l.data, isSpace c = true)
    (hr : ∀ c ∈ r.data, isSpace c = true)
    (hhead : ∀ c rest, m.data = c :: rest → isSpace c = false)
    (hlast : ∀ init c, m.data = init ++ [c] → isSpace c = false) :
    trimSpace (l ++ m ++ r) = m := by
  apply String.ext
  show ((l ++ m ++ r).data.dropWhile isSpace).rdropWhile isSpace = m.data
  rw [String.data_append, String.data_append, List.append_assoc]
  exact trim_pad l.data m.data r.data hl hr hhead hlast

/-- C22: let `s` be a text without leading or trailing white space that neither starts
nor ends with three backticks, and let `l` and `r` be made of white space. Then
`extractJSON` returns `s` for `s` wrapped in a fence opened by three backticks and `json`,
for `s` wrapped in a fence opened by three backticks alone, and for `s` itself, each
with `l` before and `r` after. -/
theorem extractJSON_strips_fences (s l r : String)
    (hhead : ∀ c ∈ s.data.head?, isSpace c = false)
    (hlast : ∀ c ∈ s.data.getLast?, isSpace c = false)
    (hstart : ¬ ("```" : String).data <+: s.data)
    (hend : ¬ ("```" : String).data <:+ s.data)
    (hl : ∀ c ∈ l.data, isSpace c = true)
    (hr : ∀ c ∈ r.data, isSpace c = true) :
    extractJSON (l ++ ("```json\n" ++ s ++ "\n```") ++ r) = s ∧
    extractJSON (l ++ ("```\n" ++ s ++ "\n```") ++ r) = s ∧
    extractJSON (l ++ s ++ r) = s := by
  have hhead' : ∀ c rest, s.data = c :: rest → isSpace c = false := by
    intro c rest h
    apply hhead c
    rw [h]
    rfl
  have hlast' : ∀ init c, s.data = init ++ [c] → isSpace c = false := by
    intro init c h
    apply hlast c
    rw [h]
    simp
  have hfenceHead : ∀ (m : String) (rest : List Char), m.data = '`' :: rest →
      ∀ c rest2, m.data = c :: rest2 → isSpace c = false := by
    intro m rest hm c rest2 h
    rw [hm] at h
    cases h
    decide
  have hfenceLast : ∀ (m : String) (init : List Char), m.data = init ++ ['`'] →
      ∀ init2 c, m.data = init2 ++ [c] → isSpace c = false := by
    intro m init hm init2 c h
    rw [hm] at h
    have := List.append_inj' h rfl
    cases this.2
    decide
  have hdata1 : ("```json\n" ++ s ++ "\n```").data =
      ['`', '`', '`', 'j', 's', 'o', 'n'] ++ ('\n' :: (s.data ++ ['\n', '`', '`', '`'])) := by
    rw [String.data_append, String.data_append]
    rfl
  have hdata2 : ("```\n" ++ s ++ "\n```").data =
      ['`', '`', '`'] ++ ('\n' :: (s.data ++ ['\n', '`', '`', '`'])) := by
    rw [String.data_append, String.data_append]
    rfl
  refine ⟨?_, ?_, ?_⟩
  · apply extractJSON_of_fenced _ s ['`', '`', '`', 'j', 's', 'o', 'n'] _ (Or.inl rfl)
      hhead' hlast'
    rw [trimSpace_padded l _ r hl hr
      (hfenceHead _ _ (by rw [hdata1]; rfl))
      (hfenceLast _ (['`', '`', '`', 'j', 's', 'o', 'n'] ++
        ('\n' :: (s.data ++ ['\n', '`', '`']))) (by rw [hdata1]; simp))]
    exact String.ext hdata1
  · apply extractJSON_of_fenced _ s ['`', '`', '`'] _ (Or.inr rfl) hhead' hlast'
    rw [trimSpace_padded l _ r hl hr
      (hfenceHead _ _ (by rw [hdata2]; rfl))
      (hfenceLast _ (['`', '`', '`'] ++ ('\n' :: (s.data ++ ['\n', '`', '`'])))
        (by rw [hdata2]; simp))]
    exact String.ext hdata2
  · exact extractJSON_of_plain _ s (trimSpace_padded l s r hl hr hhead' hlast') hhead' hlast'
      hstart hend

/-- C22 on a plan in structured form, with a space and a line break before the fence
and a line break after it. -/
theorem extractJSON_strips_fences_witness :
    (∀ c ∈ planText.data.head?, isSpace c = false) ∧
    (∀ c ∈ (" \n" : String).data, isSpace c = true) ∧
    extractJSON (" \n" ++ ("```json\n" ++ planText ++ "\n```") ++ "\n") = planText ∧
    extractJSON (" \n" ++ ("```\n" ++ planText ++ "\n```") ++ "\n") = planText ∧
    extractJSON (" \n" ++ planText ++ "\n") = planText :=
  ⟨by decide, by decide,
   extractJSON_strips_fences planText " \n" "\n" (by decide) (by decide) (by decide)
     (by decide) (by decide) (by decide)⟩

/-! ## Modality preference -/

theorem groupOf_appendToGroup (groups : List (ContentType × List ContentUnit))
    (u : ContentUnit) (t : ContentType) :
    groupOf (appendToGroup groups u) t =
      if t = u.UnitType then groupOf groups t ++ [u] else groupOf groups t := by
  induction groups with
  | nil =>
    by_cases h : t = u.UnitType
    · simp [appendToGroup, groupOf, List.lookup, h]
    · have hbeq : (t == u.UnitType) = false := by simpa using h
      simp [appendToGroup, groupOf, List.lookup, h, hbeq]
  | cons kg rest ih =>
    obtain ⟨k, g⟩ := kg
    unfold groupOf at ih ⊢
    by_cases hk : k = u.UnitType
    · by_cases h : t = u.UnitType
      · have htk : (t == k) = true := by simp [h, hk]
        simp [appendToGroup, hk, List.lookup, h]
      · have htk : (t == u.UnitType) = false := by simpa using h
        simp [appendToGroup, hk, List.lookup, h, htk]
    · by_cases htk : t = k
      · have hne : ¬ t = u.UnitType := fun e => hk (htk ▸ e)
        simp [appendToGroup, hk, List.lookup, htk, hne]
      · have hb : (t == k) = false := by simpa using htk
        simp only [appendToGroup, hk, if_false, List.lookup, hb]
        exact ih

theorem keys_appendToGroup (groups : List (ContentType × List ContentUnit))
    (u : ContentUnit) :
    (appendToGroup groups u).map Prod.fst =
      if u.UnitType ∈ groups.map Prod.fst then groups.map Prod.fst
      else groups.map Prod.fst ++ [u.UnitType] := by
  induction groups with
  | nil => simp [appendToGroup]
  | cons kg rest ih =>
    obtain ⟨k, g⟩ := kg
    by_cases hk : k = u.UnitType
    · simp [appendToGroup, hk]
    · have hk' : ¬ u.UnitType = k := fun e => hk e.symm
      simp only [appendToGroup, hk, if_false, List.map_cons, ih, List.mem_cons, hk', false_or]
      split <;> simp

theorem foldl_appendToGroup (units : List ContentUnit) :
    ∀ groups : List (ContentType × List ContentUnit),
      (∀ t, groupOf (units.foldl appendToGroup groups) t =
        groupOf groups t ++ unitsOfType units t) ∧
      ((groups.map Prod.fst).Nodup →
        ((units.foldl appendToGroup groups).map Prod.fst).Nodup) ∧
      (∀ t, t ∈ (units.foldl appendToGroup groups).map Prod.fst ↔
        t ∈ groups.map Prod.fst ∨ ∃ u ∈ units, u.UnitType = t) := by
  induction units with
  | nil => intro groups; simp [unitsOfType]
  | cons u us ih =>
    intro groups
    obtain ⟨h1, h2, h3⟩ := ih (appendToGroup groups u)
    refine ⟨?_, ?_, ?_⟩
    · intro t
      rw [List.foldl_cons, h1 t, groupOf_appendToGroup]
      by_cases h : t = u.UnitType
      · simp [unitsOfType, h, List.filter_cons]
      · have h' : ¬ u.UnitType = t := fun e => h e.symm
        simp [unitsOfType, h, h', List.filter_cons]
    · intro hnd
      rw [List.foldl_cons]
      apply h2
      rw [keys_appendToGroup]
      split
      · exact hnd
      · rename_i hnot
        exact List.Nodup.append hnd (List.nodup_singleton _) (by simpa using hnot)
    · intro t
      rw [List.foldl_cons, h3 t, keys_appendToGroup]
      by_cases hmem : u.UnitType ∈ groups.map Prod.fst
      · rw [if_pos hmem]
        constructor
        · rintro (h | ⟨v, hv, hvt⟩)
          · exact Or.inl h
          · exact Or.inr ⟨v, List.mem_cons_of_mem _ hv, hvt⟩
        · rintro (h | ⟨v, hv, hvt⟩)
          · exact Or.inl h
          · rcases List.mem_cons.mp hv with rfl | hv
            · exact Or.inl (hvt ▸ hmem)
            · exact Or.inr ⟨v, hv, hvt⟩
      · rw [if_neg hmem]
        constructor
        · rintro (h | ⟨v, hv, hvt⟩)
          · rcases List.mem_append.mp h with h | h
            · exact Or.inl h
            · exact Or.inr ⟨u, List.mem_cons_self _ _, (List.mem_singleton.mp h).symm⟩
          · exact Or.inr ⟨v, List.mem_cons_of_mem _ hv, hvt⟩
        · rintro (h | ⟨v, hv, hvt⟩)
          · exact Or.inl (List.mem_append_left _ h)
          · rcases List.mem_cons.mp hv with rfl | hv
            · exact Or.inl (List.mem_append_right _ (List.mem_singleton.mpr hvt.symm))
            · exact Or.inr ⟨v, hv, hvt⟩

theorem groupUnits_spec (units : List ContentUnit) :
    (∀ t, groupOf (groupUnits units) t = unitsOfType units t) ∧
    ((groupUnits units).map Prod.fst).Nodup ∧
    (∀ t, t ∈ (groupUnits units).map Prod.fst ↔ ∃ u ∈ units, u.UnitType = t) := by
  obtain ⟨h1, h2, h3⟩ := foldl_appendToGroup units []
  refine ⟨?_, h2 List.nodup_nil, ?_⟩
  · intro t
    have := h1 t
    simpa [groupUnits, groupOf] using this
  · intro t
    have := h3 t
    simpa [groupUnits] using this

theorem foldl_preferenceStep (groups : List (ContentType × List ContentUnit))
    (preferences : ContentType → Option ℚ) (visit : List ContentType) :
    ∀ acc : List ContentUnit,
      visit.foldl (preferenceStep groups preferences) acc =
        ((visit.filter (fun t => decide (weightOf preferences t > 1.0))).reverse.flatMap
            (groupOf groups) ++ acc) ++
          (visit.filter (fun t => !decide (weightOf preferences t > 1.0))).flatMap
            (groupOf groups) := by
  induction visit with
  | nil => intro acc; simp
  | cons t ts ih =>
    intro acc
    rw [List.foldl_cons, ih]
    by_cases h : weightOf preferences t > 1.0
    · simp [preferenceStep, h, List.filter_cons, List.flatMap_append]
    · simp [preferenceStep, h, List.filter_cons, List.flatMap_append]

theorem mem_unitsOfType (units : List ContentUnit) (t : ContentType) (u : ContentUnit) :
    u ∈ unitsOfType units t ↔ u ∈ units ∧ u.UnitType = t := by
  simp [unitsOfType, List.mem_filter]

theorem count_flatMap_unitsOfType (units : List ContentUnit) (x : ContentUnit)
    (l : List ContentType) (hl : l.Nodup) :
    (l.flatMap (unitsOfType units)).count x =
      if x.UnitType ∈ l then units.count x else 0 := by
  induction l with
  | nil => simp
  | cons t ts ih =>
    rw [List.nodup_cons] at hl
    rw [List.flatMap_cons, List.count_append, ih hl.2]
    by_cases h : x.UnitType = t
    · have hnot : x.UnitType ∉ ts := h ▸ hl.1
      have hc : (unitsOfType units t).count x = units.count x := by
        unfold unitsOfType
        exact List.count_filter (by simpa using h)
      simp [hc, h, hnot]
      intro hmem
      exact absurd (h ▸ hmem) hl.1
    · have hc : (unitsOfType units t).count x = 0 := by
        rw [List.count_eq_zero, mem_unitsOfType]
        exact fun hx => h hx.2
      simp [hc, h]

theorem filter_flatMap_unitsOfType (units : List ContentUnit) (t : ContentType)
    (l : List ContentType) (hl : l.Nodup) :
    (l.flatMap (unitsOfType units)).filter (fun u => decide (u.UnitType = t)) =
      if t ∈ l then unitsOfType units t else [] := by
  induction l with
  | nil => simp
  | cons k ks ih =>
    rw [List.nodup_cons] at hl
    rw [List.flatMap_cons, List.filter_append, ih hl.2]
    by_cases h : k = t
    · subst h
      have hself : (unitsOfType units k).filter (fun u => decide (u.UnitType = k)) =
          unitsOfType units k := by
        rw [List.filter_eq_self]
        intro u hu
        simpa using ((mem_unitsOfType units k u).mp hu).2
      simp [hself, hl.1]
    · have hnone : (unitsOfType units k).filter (fun u => decide (u.UnitType = t)) = [] := by
        rw [List.filter_eq_nil_iff]
        intro u hu
        have hk := ((mem_unitsOfType units k u).mp hu).2
        simp only [decide_eq_true_eq]
        intro ht
        exact h (hk.symm.trans ht)
      have ht : ¬ t = k := fun e => h e.symm
      simp [hnone, ht]

/-- C29: whatever the order `visit` in which the type groups are visited (each type
present once), the result of `applyModalityPreference` is a rearrangement of the input
made of two parts: first units whose type has a stated weight above 1.0, then units whose
type has no stated weight or a weight of at most 1.0; and the units of any one type stand
in the result in their input order. -/
theorem applyModalityPreference_high_first (visit : List ContentType)
    (units : List ContentUnit) (preferences : ContentType → Option ℚ)
    (hvisit : visit.Perm ((groupUnits units).map Prod.fst)) :
    (applyModalityPreference visit units preferences).Perm units ∧
    (∃ high low,
      applyModalityPreference visit units preferences = high ++ low ∧
      (∀ u ∈ high, ∃ w, preferences u.UnitType = some w ∧ w > 1.0) ∧
      (∀ u ∈ low, preferences u.UnitType = none ∨
        ∃ w, preferences u.UnitType = some w ∧ w ≤ 1.0)) ∧
    (∀ t : ContentType,
      (applyModalityPreference visit units preferences).filter
          (fun u => decide (u.UnitType = t)) =
        units.filter (fun u => decide (u.UnitType = t))) := by
  obtain ⟨hgroup, hnodup, hkeys⟩ := groupUnits_spec units
  have hvn : visit.Nodup := hvisit.nodup_iff.mpr hnodup
  have hvk : ∀ t, t ∈ visit ↔ ∃ u ∈ units, u.UnitType = t :=
    fun t => (hvisit.mem_iff).trans (hkeys t)
  have hfun : groupOf (groupUnits units) = unitsOfType units := funext hgroup
  have hres : applyModalityPreference visit units preferences =
      (visit.filter (fun t => decide (weightOf preferences t > 1.0))).reverse.flatMap
          (unitsOfType units) ++
        (visit.filter (fun t => !decide (weightOf preferences t > 1.0))).flatMap
          (unitsOfType units) := by
    unfold applyModalityPreference
    simp only
    rw [foldl_preferenceStep, hfun, List.append_nil]
  have hhighNodup : (visit.filter
      (fun t => decide (weightOf preferences t > 1.0))).reverse.Nodup :=
    List.nodup_reverse.mpr (hvn.filter _)
  have hlowNodup : (visit.filter (fun t => !decide (weightOf preferences t > 1.0))).Nodup :=
    hvn.filter _
  refine ⟨?_, ?_, ?_⟩
  · rw [hres, List.perm_iff_count]
    intro x
    rw [List.count_append, count_flatMap_unitsOfType units x _ hhighNodup,
      count_flatMap_unitsOfType units x _ hlowNodup]
    simp only [List.mem_reverse, List.mem_filter, decide_eq_true_eq, Bool.not_eq_true',
      decide_eq_false_iff_not]
    by_cases hx : x ∈ units
    · have hv : x.UnitType ∈ visit := (hvk _).mpr ⟨x, hx, rfl⟩
      by_cases hw : weightOf preferences x.UnitType > 1.0
      · simp [hv, hw]
      · simp [hv, hw]
    · have h0 : units.count x = 0 := List.count_eq_zero.mpr hx
      simp [h0]
  · refine ⟨_, _, hres, ?_, ?_⟩
    · intro u hu
      rw [List.mem_flatMap] at hu
      obtain ⟨t, ht, hut⟩ := hu
      rw [List.mem_reverse, List.mem_filter, decide_eq_true_eq] at ht
      have htype := ((mem_unitsOfType units t u).mp hut).2
      rw [htype]
      have hw := ht.2
      unfold weightOf at hw
      cases hp : preferences t with
      | none => rw [hp] at hw; norm_num at hw
      | some w => rw [hp] at hw; exact ⟨w, rfl, hw⟩
    · intro u hu
      rw [List.mem_flatMap] at hu
      obtain ⟨t, ht, hut⟩ := hu
      rw [List.mem_filter, Bool.not_eq_true', decide_eq_false_iff_not] at ht
      have htype := ((mem_unitsOfType units t u).mp hut).2
      rw [htype]
      have hw := ht.2
      unfold weightOf at hw
      cases hp : preferences t with
      | none => exact Or.inl rfl
      | some w => rw [hp] at hw; exact Or.inr ⟨w, rfl, not_lt.mp hw⟩
  · intro t
    rw [hres, List.filter_append, filter_flatMap_unitsOfType units t _ hhighNodup,
      filter_flatMap_unitsOfType units t _ hlowNodup]
    simp only [List.mem_reverse, List.mem_filter, decide_eq_true_eq, Bool.not_eq_true',
      decide_eq_false_iff_not]
    show _ = unitsOfType units t
    by_cases hv : t ∈ visit
    · by_cases hw : weightOf preferences t > 1.0
      · simp [hv, hw]
      · simp [hv, hw]
    · have hnone : unitsOfType units t = [] := by
        unfold unitsOfType
        rw [List.filter_eq_nil_iff]
        intro u hu
        simp only [decide_eq_true_eq]
        intro hut
        exact hv ((hvk t).mpr ⟨u, hu, hut⟩)
      simp [hv, hnone]

/-- C29 on five units of three types with a preference for images, the groups being
visited as table, image, text: the images come first, and the units of each type keep
their input order. With the groups visited as text, table, image the high part is the
same. -/
theorem applyModalityPreference_high_first_witness :
    (["table", "image", "text"] : List ContentType).Perm
      ((groupUnits fiveUnits).map Prod.fst) ∧
    applyModalityPreference ["table", "image", "text"] fiveUnits preferImages =
      [⟨2, "image", "b"⟩, ⟨5, "image", "e"⟩, ⟨4, "table", "d"⟩, ⟨1, "text", "a"⟩,
       ⟨3, "text", "c"⟩] ∧
    applyModalityPreference ["text", "table", "image"] fiveUnits preferImages =
      [⟨2, "image", "b"⟩, ⟨5, "image", "e"⟩, ⟨1, "text", "a"⟩, ⟨3, "text", "c"⟩,
       ⟨4, "table", "d"⟩] ∧
    (applyModalityPreference ["table", "image", "text"] fiveUnits preferImages).Perm
      fiveUnits := by
  have hvisit : (["table", "image", "text"] : List ContentType).Perm
      ((groupUnits fiveUnits).map Prod.fst) := by
    have hkeys : (groupUnits fiveUnits).map Prod.fst = ["text", "image", "table"] := by decide
    rw [hkeys]
    decide
  exact ⟨hvisit, by with_unfolding_all rfl, by with_unfolding_all rfl,
    (applyModalityPreference_high_first ["table", "image", "text"] fiveUnits preferImages
      hvisit).1⟩

end RagApp
